import Mathlib

/-!
# Stage runners of the pipe package

A shallow embedding of `src/runner.go`: the pump, processor and sink runners,
their lifecycle hooks and the `call` helper.

Each runner is a goroutine that only interacts with the rest of the program at
its `select` statements.  The embedding makes that interaction explicit:

* the component (functional core, hooks, parameter thunks) works on an explicit
  component state `σ`;
* the outcome of every `select` is read from a script, one record per loop
  iteration, so that every interleaving of channel readiness and cancellation is
  a script;
* everything the goroutine does that is visible outside of it (hook calls,
  channel operations, thunk applications, core calls, metric updates) is
  recorded, in program order, in a trace of events.

A script that is used up before the runner returns stands for a run that is
still blocked at a suspension point; such a run has exit `blocked`.

The file goes on with the control-plane state machine (namespace `state`) and
the Track mixer (namespace `track`), both modelled from the specification since
only their tests are in `src/`, with the runners of `src/pipe/runner.go`
(namespace `pipe`), embedded the same way as those of `src/runner.go`, and with
the sink function of `src/portaudio/portaudio.go` (namespace `portaudio`).
-/

/-! ## Data model -/

/-- Go `error` values the runners can tell apart: the two stream-end sentinels
of package `io` and every other error, identified by a code. A nil error is
`none : Option Err`. -/
inductive Err where
  | EOF
  | ErrUnexpectedEOF
  | other (code : Nat)
  deriving DecidableEq, Repr

/-- Sample buffer `[][]float64`, `none` being the nil slice. The runners never
look at a sample, only at nil-ness and size, so samples are integers here. -/
abbrev Buffer := Option (List (List Int))

/-- Modelled from the spec: the `Size` method of the sample buffer, whose type is
declared outside `src/`: the number of frames of a `[channels][frames]` matrix,
0 for a nil or empty buffer. -/
def Size : Buffer → Nat
  | none => 0
  | some [] => 0
  | some (c :: _) => c.length

/-- Modelled from the spec: the parameter set, whose type is declared outside
`src/`: a mapping from component id to an ordered list of thunks. A thunk is a
closure `func()`; it is named by a number and its effect on the component is
given by `Env.thunk`. -/
structure params where
  entries : List (String × List Nat)
  deriving DecidableEq, Repr

/-- Modelled from the spec: `applyTo(component-id)`, declared outside `src/`:
"drains entries under that key and invokes each thunk in order". The result is
the list of thunks invoked, in order, and the set without the key. -/
def params.applyTo (p : params) (id : String) : List Nat × params :=
  ((p.entries.lookup id).getD [], ⟨p.entries.filter (fun kv => kv.1 != id)⟩)

/-- Modelled from the spec: the message, whose type is declared outside `src/`:
the buffer, the params payload and the feedback payload. `m.applyTo(id)` of the
source is the method of the embedded params payload. -/
structure message where
  buffer : Buffer
  feedback : params
  params : params
  deriving DecidableEq, Repr

/-- The three optional lifecycle hooks. -/
inductive HookKind where
  | reset
  | flush
  | interrupt
  deriving DecidableEq, Repr

/-- Observable events of a runner goroutine, in program order. -/
inductive Ev where
  /-- a hook of the component was invoked with the pipe id and returned `result` -/
  | hook (k : HookKind) (pipeID : String) (result : Option Err)
  /-- the send `provide <- pipeID` went through -/
  | provide (pipeID : String)
  /-- a message was received from `consume` or `in` -/
  | consume (m : message)
  /-- the receive on `in` reported a closed channel -/
  | closed
  /-- the `<-cancel` case of a select was taken -/
  | cancel
  /-- the call `applyTo(componentID)` on the params payload invoked these thunks -/
  | params (componentID : String) (thunks : List Nat)
  /-- the pump function was called and returned -/
  | pump (bufferSize : Int) (out : Buffer) (err : Option Err)
  /-- the processor function was called and returned -/
  | process (inp out : Buffer) (err : Option Err)
  /-- the sink function was called and returned -/
  | sink (inp : Buffer) (err : Option Err)
  /-- the metric was advanced: `meter.Message(size)` -/
  | metric (size : Nat)
  /-- the call `applyTo(componentID)` on the feedback payload invoked these thunks -/
  | feedback (componentID : String) (thunks : List Nat)
  /-- the send `out <- m` went through -/
  | send (m : message)
  /-- the send `errc <- e`; `fromHook` tells the send in `call` from the sends in `run` -/
  | err (fromHook : Bool) (e : Err)
  /-- deferred `close(errc)` -/
  | closeErrc
  /-- deferred `close(out)` -/
  | closeOut
  deriving DecidableEq, Repr

/-- How a run ended: `streamEnd` is the return after the flush hook, `cancelled`
the return after the interrupt hook, `failed` the return after `errc <- err`;
`blocked` is a run whose script ended before the goroutine returned. -/
inductive Exit where
  | streamEnd
  | cancelled
  | failed
  | blocked
  deriving DecidableEq, Repr

/-- What the runners use from outside `src/runner.go`: the effect of a parameter
thunk on the component and the `Message` method of the `ComponentMetric`
interface (which returns the metric to use from then on, possibly nil). -/
structure Env (σ μ : Type) where
  thunk : Nat → σ → σ
  Message : μ → Nat → Option μ

/-- The Go type `hook`, `func(string) error`, on explicit component state. -/
abbrev hook (σ : Type) := String → σ → Option Err × σ

/-- The Go struct `hooks`: a nil hook is `none`. -/
structure hooks (σ : Type) where
  flush : Option (hook σ)
  interrupt : Option (hook σ)
  reset : Option (hook σ)

/-- The Go struct `pumpRunner`: the pump function and the hooks. -/
structure pumpRunner (σ : Type) extends hooks σ where
  fn : Int → σ → (Buffer × Option Err) × σ

/-- The Go struct `processRunner`: the processor function and the hooks. -/
structure processRunner (σ : Type) extends hooks σ where
  fn : Buffer → σ → (Buffer × Option Err) × σ

/-- The Go struct `sinkRunner`: the sink function and the hooks. -/
structure sinkRunner (σ : Type) extends hooks σ where
  fn : Buffer → σ → Option Err × σ

/-- What a run leaves behind. -/
structure Outcome (σ μ : Type) where
  trace : List Ev
  exit : Exit
  comp : σ
  meter : Option μ

/-- What one pass through a loop body leaves behind; `exit = none` means the
loop goes on with the next iteration. -/
structure Iter (σ μ : Type) where
  evs : List Ev
  exit : Option Exit
  comp : σ
  meter : Option μ

/-- Outcome of the two selects on a send: `true` the channel operation went
through, `false` the cancel case was taken. Outcome of a receive select of the
pump: the message, or `none` for the cancel case. -/
structure PumpStep where
  provide : Bool
  consume : Option message
  send : Bool
  deriving DecidableEq, Repr

/-- Outcome of the receive select of a processor or sink. -/
inductive Recv where
  | msg (m : message)
  | closed
  | cancel
  deriving DecidableEq, Repr

/-- Outcomes of the selects of one processor iteration. -/
structure ProcStep where
  recv : Recv
  send : Bool
  deriving DecidableEq, Repr

section Runners

variable {σ μ : Type}

/-! ## The runners -/

/-- A component as `bindHooks` sees it through its three type assertions: for
each of the optional interfaces Flusher, Interrupter and Resetter, the method of
the component when it implements the interface. -/
structure Component (σ : Type) where
  Flush : Option (hook σ)
  Interrupt : Option (hook σ)
  Reset : Option (hook σ)

/-- The Go function `flusher`: the Flush method if the component implements
Flusher, nil otherwise. -/
def flusher (i : Component σ) : Option (hook σ) :=
  match i.Flush with
  | some v => some v
  | none => none

/-- The Go function `interrupter`: the Interrupt method if the component
implements Interrupter, nil otherwise. -/
def interrupter (i : Component σ) : Option (hook σ) :=
  match i.Interrupt with
  | some v => some v
  | none => none

/-- The Go function `resetter`: the Reset method if the component implements
Resetter, nil otherwise. -/
def resetter (i : Component σ) : Option (hook σ) :=
  match i.Reset with
  | some v => some v
  | none => none

/-- The Go function `bindHooks`. -/
def bindHooks (v : Component σ) : hooks σ :=
  { flush := flusher v, interrupt := interrupter v, reset := resetter v }

/-- The Go function `call(fn hook, pipeID string, errc chan error)`. The kind only labels
the event. -/
def call (k : HookKind) (fn : Option (hook σ)) (pipeID : String) (s : σ) : List Ev × σ :=
  match fn with
  | none => ([], s)
  | some f =>
    match f pipeID s with
    | (none, s1) => ([Ev.hook k pipeID none], s1)
    | (some e, s1) => ([Ev.hook k pipeID (some e), Ev.err true e], s1)

/-- The thunks of a drained entry are invoked in order. -/
def applyThunks (env : Env σ μ) (ts : List Nat) (s : σ) : σ :=
  ts.foldl (fun acc t => env.thunk t acc) s

/-- The metric update `if meter != nil { meter = meter.Message(size) }`. -/
def advance (env : Env σ μ) (mt : Option μ) (size : Nat) : List Ev × Option μ :=
  match mt with
  | none => ([], none)
  | some x => ([Ev.metric size], env.Message x size)

/-- The `for` loop of a runner over the script of its iterations. -/
def loopOver {α : Type} (body : α → σ → Option μ → Iter σ μ) :
    List α → σ → Option μ → Outcome σ μ
  | [], s, mt => ⟨[], Exit.blocked, s, mt⟩
  | x :: xs, s, mt =>
    let it := body x s mt
    match it.exit with
    | some e => ⟨it.evs, e, it.comp, it.meter⟩
    | none =>
      let o := loopOver body xs it.comp it.meter
      ⟨it.evs ++ o.trace, o.exit, o.comp, o.meter⟩

/-- The `// handle error` block of the pump loop. -/
def pumpRunner.handle (r : pumpRunner σ) (pipeID : String) (err : Option Err) (s : σ) :
    List Ev × Option Exit × σ :=
  match err with
  | none => ([], none, s)
  | some Err.EOF =>
    let c := call HookKind.flush r.flush pipeID s
    (c.1, some Exit.streamEnd, c.2)
  | some Err.ErrUnexpectedEOF =>
    let c := call HookKind.flush r.flush pipeID s
    (c.1, some Exit.streamEnd, c.2)
  | some (Err.other n) => ([Ev.err false (Err.other n)], some Exit.failed, s)

/-- One iteration of the loop of `pumpRunner.run`. -/
def pumpRunner.body (r : pumpRunner σ) (env : Env σ μ) (bufferSize : Int)
    (pipeID componentID : String) (st : PumpStep) (s : σ) (mt : Option μ) : Iter σ μ :=
  match st.provide with
  | false =>
    let c := call HookKind.interrupt r.interrupt pipeID s
    ⟨Ev.cancel :: c.1, some Exit.cancelled, c.2, mt⟩
  | true =>
    match st.consume with
    | none =>
      let c := call HookKind.interrupt r.interrupt pipeID s
      ⟨Ev.provide pipeID :: Ev.cancel :: c.1, some Exit.cancelled, c.2, mt⟩
    | some m =>
      let p := m.params.applyTo componentID
      let s1 := applyThunks env p.1 s
      let res := r.fn bufferSize s1
      let buf := res.1.1
      let err := res.1.2
      let pre := [Ev.provide pipeID, Ev.consume m, Ev.params componentID p.1,
        Ev.pump bufferSize buf err]
      match buf with
      | some _ =>
        let a := advance env mt (Size buf)
        let f := m.feedback.applyTo componentID
        let s3 := applyThunks env f.1 res.2
        match st.send with
        | false =>
          let c := call HookKind.interrupt r.interrupt pipeID s3
          ⟨pre ++ a.1 ++ Ev.feedback componentID f.1 :: Ev.cancel :: c.1,
            some Exit.cancelled, c.2, a.2⟩
        | true =>
          let h := r.handle pipeID err s3
          ⟨pre ++ a.1 ++ Ev.feedback componentID f.1 :: Ev.send ⟨buf, f.2, p.2⟩ :: h.1,
            h.2.1, h.2.2, a.2⟩
      | none =>
        let h := r.handle pipeID err res.2
        ⟨pre ++ h.1, h.2.1, h.2.2, mt⟩

/-- The deferred closes of a runner with an outbound channel; they run when the
goroutine returns. -/
def closes (e : Exit) : List Ev :=
  if e = Exit.blocked then [] else [Ev.closeErrc, Ev.closeOut]

/-- The Go method `(r *pumpRunner) run`: the goroutine it starts. -/
def pumpRunner.run (r : pumpRunner σ) (env : Env σ μ) (bufferSize : Int)
    (pipeID componentID : String) (meter : Option μ) (script : List PumpStep) (s : σ) :
    Outcome σ μ :=
  let c := call HookKind.reset r.reset pipeID s
  let o := loopOver (r.body env bufferSize pipeID componentID) script c.2 meter
  ⟨c.1 ++ o.trace ++ closes o.exit, o.exit, o.comp, o.meter⟩

/-- One iteration of the loop of `processRunner.run`. -/
def processRunner.body (r : processRunner σ) (env : Env σ μ) (pipeID componentID : String)
    (st : ProcStep) (s : σ) (mt : Option μ) : Iter σ μ :=
  match st.recv with
  | Recv.closed =>
    let c := call HookKind.flush r.flush pipeID s
    ⟨Ev.closed :: c.1, some Exit.streamEnd, c.2, mt⟩
  | Recv.cancel =>
    let c := call HookKind.interrupt r.interrupt pipeID s
    ⟨Ev.cancel :: c.1, some Exit.cancelled, c.2, mt⟩
  | Recv.msg m =>
    let p := m.params.applyTo componentID
    let s1 := applyThunks env p.1 s
    let res := r.fn m.buffer s1
    let pre := [Ev.consume m, Ev.params componentID p.1, Ev.process m.buffer res.1.1 res.1.2]
    match res.1.2 with
    | some e => ⟨pre ++ [Ev.err false e], some Exit.failed, res.2, mt⟩
    | none =>
      let a := advance env mt (Size res.1.1)
      let f := m.feedback.applyTo componentID
      let s3 := applyThunks env f.1 res.2
      match st.send with
      | false =>
        let c := call HookKind.interrupt r.interrupt pipeID s3
        ⟨pre ++ a.1 ++ Ev.feedback componentID f.1 :: Ev.cancel :: c.1,
          some Exit.cancelled, c.2, a.2⟩
      | true =>
        ⟨pre ++ a.1 ++ [Ev.feedback componentID f.1, Ev.send ⟨res.1.1, f.2, p.2⟩],
          none, s3, a.2⟩

/-- The Go method `(r *processRunner) run`: the goroutine it starts. -/
def processRunner.run (r : processRunner σ) (env : Env σ μ) (pipeID componentID : String)
    (meter : Option μ) (script : List ProcStep) (s : σ) : Outcome σ μ :=
  let c := call HookKind.reset r.reset pipeID s
  let o := loopOver (r.body env pipeID componentID) script c.2 meter
  ⟨c.1 ++ o.trace ++ closes o.exit, o.exit, o.comp, o.meter⟩

/-- One iteration of the loop of `sinkRunner.run`. -/
def sinkRunner.body (r : sinkRunner σ) (env : Env σ μ) (pipeID componentID : String)
    (st : Recv) (s : σ) (mt : Option μ) : Iter σ μ :=
  match st with
  | Recv.closed =>
    let c := call HookKind.flush r.flush pipeID s
    ⟨Ev.closed :: c.1, some Exit.streamEnd, c.2, mt⟩
  | Recv.cancel =>
    let c := call HookKind.interrupt r.interrupt pipeID s
    ⟨Ev.cancel :: c.1, some Exit.cancelled, c.2, mt⟩
  | Recv.msg m =>
    let p := m.params.applyTo componentID
    let s1 := applyThunks env p.1 s
    let res := r.fn m.buffer s1
    let pre := [Ev.consume m, Ev.params componentID p.1, Ev.sink m.buffer res.1]
    match res.1 with
    | some e => ⟨pre ++ [Ev.err false e], some Exit.failed, res.2, mt⟩
    | none =>
      let a := advance env mt (Size m.buffer)
      let f := m.feedback.applyTo componentID
      let s3 := applyThunks env f.1 res.2
      ⟨pre ++ a.1 ++ [Ev.feedback componentID f.1], none, s3, a.2⟩

/-- The deferred close of the sink runner, which has no outbound channel. -/
def closeErr (e : Exit) : List Ev :=
  if e = Exit.blocked then [] else [Ev.closeErrc]

/-- The Go method `(r *sinkRunner) run`: the goroutine it starts. -/
def sinkRunner.run (r : sinkRunner σ) (env : Env σ μ) (pipeID componentID : String)
    (meter : Option μ) (script : List Recv) (s : σ) : Outcome σ μ :=
  let c := call HookKind.reset r.reset pipeID s
  let o := loopOver (r.body env pipeID componentID) script c.2 meter
  ⟨c.1 ++ o.trace ++ closeErr o.exit, o.exit, o.comp, o.meter⟩

/-! ## Reading a trace -/

/-- The event is an invocation of the hook of kind `k`. -/
def Ev.isHook (k : HookKind) : Ev → Bool
  | Ev.hook k1 _ _ => k1 == k
  | _ => false

/-- Number of invocations of the hook of kind `k` in a trace. -/
def invoked (k : HookKind) (tr : List Ev) : Nat :=
  tr.countP (Ev.isHook k)

/-- The error a call of the functional core returned, for a core event. -/
def Ev.coreErr : Ev → Option Err
  | Ev.pump _ _ e => e
  | Ev.process _ _ e => e
  | Ev.sink _ e => e
  | _ => none

/-- The event is a call of the functional core. -/
def Ev.isCore : Ev → Bool
  | Ev.pump _ _ _ => true
  | Ev.process _ _ _ => true
  | Ev.sink _ _ => true
  | _ => false

/-- The event is a call of the functional core that returned a non-nil error. -/
def Ev.failedCore (ev : Ev) : Bool :=
  ev.coreErr.isSome

/-- The event is the pump function returning one of the two stream-end
sentinels, `io.EOF` or `io.ErrUnexpectedEOF`. -/
def Ev.sentinelReturned : Ev → Bool
  | Ev.pump _ _ (some Err.EOF) => true
  | Ev.pump _ _ (some Err.ErrUnexpectedEOF) => true
  | _ => false

/-- The event is the upstream channel being found closed. -/
def Ev.upstreamClosed : Ev → Bool
  | Ev.closed => true
  | _ => false

/-- The errors sent on the error channel, in order. -/
def published (tr : List Ev) : List Err :=
  tr.filterMap (fun ev => match ev with
    | Ev.err _ e => some e
    | _ => none)

/-- The errors sent on the error channel by `call`, in order. -/
def publishedByCall (tr : List Ev) : List Err :=
  tr.filterMap (fun ev => match ev with
    | Ev.err true e => some e
    | _ => none)

/-- The non-nil results of the hook invocations, in order. -/
def hookFailures (tr : List Ev) : List Err :=
  tr.filterMap (fun ev => match ev with
    | Ev.hook _ _ (some e) => some e
    | _ => none)

/-- The messages sent downstream, in order. -/
def sent (tr : List Ev) : List message :=
  tr.filterMap (fun ev => match ev with
    | Ev.send m => some m
    | _ => none)

/-- The messages received, in order. -/
def received (tr : List Ev) : List message :=
  tr.filterMap (fun ev => match ev with
    | Ev.consume m => some m
    | _ => none)

/-- The upstream messages a processor script offers, in order. -/
def inputs (script : List ProcStep) : List message :=
  script.filterMap (fun st => match st.recv with
    | Recv.msg m => some m
    | _ => none)

/-- The script of a finite upstream: the messages, each with a send that goes
through, and then the closed channel; cancel is never observed. -/
def upstream (msgs : List message) : List ProcStep :=
  msgs.map (fun m => ⟨Recv.msg m, true⟩) ++ [⟨Recv.closed, true⟩]

/-- How the exit of an iteration, or of a loop, shows in its events: the flush
hook is invoked once exactly on a stream-end exit of a component that has it, the
interrupt hook once exactly on a cancel exit of a component that has it, the
reset hook never, a cancel is observed exactly on a cancel exit, and a stream-end
exit has seen the stream end, which `se` recognises. -/
def lifecycle (F I : Bool) (se : Ev → Bool) (e : Option Exit) (tr : List Ev) : Prop :=
  invoked HookKind.flush tr = (if e = some Exit.streamEnd ∧ F = true then 1 else 0) ∧
  invoked HookKind.interrupt tr = (if e = some Exit.cancelled ∧ I = true then 1 else 0) ∧
  invoked HookKind.reset tr = 0 ∧
  (Ev.cancel ∈ tr ↔ e = some Exit.cancelled) ∧
  (e = some Exit.streamEnd → ∃ ev ∈ tr, se ev = true)

/-- The hooks a terminated run has invoked, by exit: flush alone, once, on
stream end; interrupt alone, once, on cancel; neither after the functional core
failed. -/
def hooksByExit (o : Outcome σ μ) : Prop :=
  (o.exit = Exit.streamEnd →
    invoked HookKind.flush o.trace = 1 ∧ invoked HookKind.interrupt o.trace = 0) ∧
  (o.exit = Exit.cancelled →
    invoked HookKind.flush o.trace = 0 ∧ invoked HookKind.interrupt o.trace = 1) ∧
  (o.exit = Exit.failed →
    invoked HookKind.flush o.trace = 0 ∧ invoked HookKind.interrupt o.trace = 0)

/-- The exit paths of the two exit hooks of a run whose component implements
Interrupt when `I` holds, `se` being the event that ends its stream: flush only
on a stream-end exit, after the stream end was seen; interrupt only on a cancel exit, after a cancel was observed; a cancel
that is observed makes the run exit through the interrupt hook; never both. -/
def exitPaths (I : Bool) (se : Ev → Bool) (o : Outcome σ μ) : Prop :=
  (0 < invoked HookKind.flush o.trace →
    o.exit = Exit.streamEnd ∧ ∃ ev ∈ o.trace, se ev = true) ∧
  (0 < invoked HookKind.interrupt o.trace → o.exit = Exit.cancelled ∧ Ev.cancel ∈ o.trace) ∧
  (Ev.cancel ∈ o.trace →
    o.exit = Exit.cancelled ∧ (I = true → invoked HookKind.interrupt o.trace = 1)) ∧
  ¬ (0 < invoked HookKind.flush o.trace ∧ 0 < invoked HookKind.interrupt o.trace)

/-- The reset hook is the first thing a run does, with the pipe id, and it is
not invoked again. -/
def resetFirst (p : String) (o : Outcome σ μ) : Prop :=
  ∃ res rest, o.trace = Ev.hook HookKind.reset p res :: rest ∧ invoked HookKind.reset rest = 0

/-- What the pump runner does, in the events `post` that follow a call of the
pump function that returned the error `e`, when no cancel is observed: the pump
function is not called again; on a stream-end sentinel the run exits on
stream end, the flush hook is invoked if the component has it and no other hook
is, and the error channel receives nothing but what the hook returned; on any other
error the run exits as failed, `e` is all that is published and no hook is
invoked. -/
def pumpErrorHandled (F : Bool) (e : Err) (ex : Exit) (post : List Ev) : Prop :=
  (∀ ev ∈ post, ev.isCore = false) ∧
  ((e = Err.EOF ∨ e = Err.ErrUnexpectedEOF) →
    ex = Exit.streamEnd ∧ invoked HookKind.flush post = (if F = true then 1 else 0) ∧
      invoked HookKind.interrupt post = 0 ∧ invoked HookKind.reset post = 0 ∧
      published post = hookFailures post) ∧
  (e ≠ Err.EOF → e ≠ Err.ErrUnexpectedEOF →
    ex = Exit.failed ∧ published post = [e] ∧ invoked HookKind.flush post = 0 ∧
      hookFailures post = [])

/-- Events that neither call the core, nor publish, nor invoke a hook. -/
def plain (a : List Ev) : Prop :=
  (∀ ev ∈ a, ev.isCore = false) ∧ published a = [] ∧ hookFailures a = [] ∧
    ∀ k, invoked k a = 0

/-- The claim on the error handling of the pump, for a trace and its exit: a
call of the pump function that returned an error, in a run that observes no
cancel, is the first such call and is followed by the handling of that error. -/
def pumpErrorClaim (F : Bool) (bs : Int) (tr : List Ev) (ex : Exit) : Prop :=
  ∀ b e, Ev.pump bs b (some e) ∈ tr → Ev.cancel ∉ tr →
    ∃ pre post, tr = pre ++ Ev.pump bs b (some e) :: post ∧
      (∀ ev ∈ pre, ev.failedCore = false) ∧ pumpErrorHandled F e ex post

/-- What the claim on a failing processor core says of a trace with its exit,
before the deferred closes `cl`: if a call of the core returned an error, the
trace ends with the receipt of the message, the application of its params, the
failing call, the publication of its error and the closes, nothing else, and
the run exits as failed. -/
def processFailsFast (c : String) (cl : List Ev) (tr : List Ev) (ex : Exit) : Prop :=
  (∃ ev ∈ tr, ev.failedCore = true) →
    ∃ pre m out e, tr = pre ++ [Ev.consume m, Ev.params c (m.params.applyTo c).1,
        Ev.process m.buffer out (some e), Ev.err false e] ++ cl ∧
      (∀ ev ∈ pre, ev.failedCore = false) ∧ ex = Exit.failed

/-- The same for a failing sink core. -/
def sinkFailsFast (c : String) (cl : List Ev) (tr : List Ev) (ex : Exit) : Prop :=
  (∃ ev ∈ tr, ev.failedCore = true) →
    ∃ pre m e, tr = pre ++ [Ev.consume m, Ev.params c (m.params.applyTo c).1,
        Ev.sink m.buffer (some e), Ev.err false e] ++ cl ∧
      (∀ ev ∈ pre, ev.failedCore = false) ∧ ex = Exit.failed

/-- Events the order check ignores: they are no step of the handling of a
message. -/
def Ev.neutral : Ev → Bool
  | Ev.hook _ _ _ => true
  | Ev.provide _ => true
  | Ev.closed => true
  | Ev.cancel => true
  | Ev.metric _ => true
  | Ev.err _ _ => true
  | Ev.closeErrc => true
  | Ev.closeOut => true
  | _ => false

/-! ### Order of the steps on one message -/

/-- Where the handling of the current message stands. -/
inductive Phase where
  | idle
  | got (m : message)
  | applied (m : message)
  | cored (m : message)
  | fed (m : message)
  deriving DecidableEq, Repr

/-- One step of the order check for the stage `c`: the params thunks of the
message received last are applied right after it was received and before the
core is called, the core is called once per message, the feedback thunks of that
message are applied only after the core returned, and a message is sent only
after its feedback was applied. `none` is a violation. -/
def orderStep (c : String) : Phase → Ev → Option Phase
  | _, Ev.consume m => some (Phase.got m)
  | Phase.got m, Ev.params c1 ts =>
    if c1 = c ∧ ts = (m.params.applyTo c).1 then some (Phase.applied m) else none
  | _, Ev.params _ _ => none
  | Phase.applied m, Ev.pump _ _ _ => some (Phase.cored m)
  | Phase.applied m, Ev.process inp _ _ => if inp = m.buffer then some (Phase.cored m) else none
  | Phase.applied m, Ev.sink inp _ => if inp = m.buffer then some (Phase.cored m) else none
  | _, Ev.pump _ _ _ => none
  | _, Ev.process _ _ _ => none
  | _, Ev.sink _ _ => none
  | Phase.cored m, Ev.feedback c1 ts =>
    if c1 = c ∧ ts = (m.feedback.applyTo c).1 then some (Phase.fed m) else none
  | _, Ev.feedback _ _ => none
  | Phase.fed _, Ev.send _ => some Phase.idle
  | _, Ev.send _ => none
  | q, _ => some q

/-- The order check over a trace, from a phase. -/
def orderRun (c : String) : Phase → List Ev → Option Phase
  | q, [] => some q
  | q, ev :: tr =>
    match orderStep c q ev with
    | none => none
    | some q1 => orderRun c q1 tr

/-- The trace respects the order of the steps on every message. -/
def ordered (c : String) (tr : List Ev) : Bool :=
  (orderRun c Phase.idle tr).isSome

/-! ### Replaying a trace on the component state -/

/-- The hook of a kind. -/
def hooks.get (h : hooks σ) : HookKind → Option (hook σ)
  | HookKind.reset => h.reset
  | HookKind.flush => h.flush
  | HookKind.interrupt => h.interrupt

/-- The thunks of a list invoked on a component state one after the other, first
to last: what applying the thunks of a payload means. It is written on
`Env.thunk` alone, without `applyThunks`. -/
def thunksInOrder (env : Env σ μ) : List Nat → σ → σ
  | [], s => s
  | t :: ts, s => thunksInOrder env ts (env.thunk t s)

/-- Where the replay of the current message stands; once the core has been
called the stage keeps the buffer it returned. -/
inductive Stage where
  | idle
  | got (m : message)
  | applied (m : message)
  | cored (m : message) (out : Buffer)
  | fed (m : message) (out : Buffer)
  deriving DecidableEq, Repr

/-- The pump function at a core event: with the component in state `s` when the
core is called, the event must record what the function returns in that state;
then the buffer that goes downstream and the state the function leaves. -/
def pumpRunner.coreAt (r : pumpRunner σ) (bufferSize : Int) (_ : message) (ev : Ev)
    (s : σ) : Option (Buffer × σ) :=
  match ev with
  | Ev.pump bs out err =>
    if bs = bufferSize ∧ (r.fn bufferSize s).1 = (out, err) then
      some (out, (r.fn bufferSize s).2)
    else none
  | _ => none

/-- The processor function at a core event: it is called on the buffer of the
message being handled, and with the component in state `s` the event must record
what the function returns in that state. -/
def processRunner.coreAt (r : processRunner σ) (m : message) (ev : Ev) (s : σ) :
    Option (Buffer × σ) :=
  match ev with
  | Ev.process inp out err =>
    if inp = m.buffer ∧ (r.fn m.buffer s).1 = (out, err) then
      some (out, (r.fn m.buffer s).2)
    else none
  | _ => none

/-- The sink function at a core event: it is called on the buffer of the message
being handled, and with the component in state `s` the event must record what
the function returns in that state. A sink sends nothing downstream. -/
def sinkRunner.coreAt (r : sinkRunner σ) (m : message) (ev : Ev) (s : σ) :
    Option (Buffer × σ) :=
  match ev with
  | Ev.sink inp err =>
    if inp = m.buffer ∧ (r.fn m.buffer s).1 = err then
      some (m.buffer, (r.fn m.buffer s).2)
    else none
  | _ => none

/-- One step of the replay of a trace on the component state, for the stage `c`
with hooks `h` and functional core `core`. The replay carries the state of the
component and changes it in the order the specification gives:

* at the params event, which must follow the receipt of the message, the thunks
  of the params payload of that message under `c` are invoked on the state;
* at the core event, which must follow the params event, the core is called in
  the state the thunks left, and the event must record what the core returns in
  that very state;
* at the feedback event, which must follow the core event, the thunks of the
  feedback payload under `c` are invoked on the state the core left;
* a send must follow the feedback event and carry the buffer the core returned
  and the two payloads without the entries of `c`;
* a hook event must record what the hook returns in the state reached.

`none` is a violation. -/
def replayStep (env : Env σ μ) (h : hooks σ) (core : message → Ev → σ → Option (Buffer × σ))
    (c : String) (q : Stage) (s : σ) (ev : Ev) : Option (Stage × σ) :=
  match ev with
  | Ev.consume m => some (Stage.got m, s)
  | Ev.params c1 ts =>
    match q with
    | Stage.got m =>
      if c1 = c ∧ ts = (m.params.applyTo c).1 then
        some (Stage.applied m, thunksInOrder env ts s)
      else none
    | _ => none
  | Ev.pump bs out err =>
    match q with
    | Stage.applied m =>
      match core m (Ev.pump bs out err) s with
      | some x => some (Stage.cored m x.1, x.2)
      | none => none
    | _ => none
  | Ev.process inp out err =>
    match q with
    | Stage.applied m =>
      match core m (Ev.process inp out err) s with
      | some x => some (Stage.cored m x.1, x.2)
      | none => none
    | _ => none
  | Ev.sink inp err =>
    match q with
    | Stage.applied m =>
      match core m (Ev.sink inp err) s with
      | some x => some (Stage.cored m x.1, x.2)
      | none => none
    | _ => none
  | Ev.feedback c1 ts =>
    match q with
    | Stage.cored m out =>
      if c1 = c ∧ ts = (m.feedback.applyTo c).1 then
        some (Stage.fed m out, thunksInOrder env ts s)
      else none
    | _ => none
  | Ev.send m1 =>
    match q with
    | Stage.fed m out =>
      if m1 = ⟨out, (m.feedback.applyTo c).2, (m.params.applyTo c).2⟩ then
        some (Stage.idle, s)
      else none
    | _ => none
  | Ev.hook k p res =>
    match h.get k with
    | some f => if (f p s).1 = res then some (q, (f p s).2) else none
    | none => none
  | _ => some (q, s)

/-- The replay of a trace, from a stage and a component state: the stage and the
component state at the end, or `none` when the trace does not fit. -/
def replay (env : Env σ μ) (h : hooks σ) (core : message → Ev → σ → Option (Buffer × σ))
    (c : String) : Stage → σ → List Ev → Option (Stage × σ)
  | q, s, [] => some (q, s)
  | q, s, ev :: tr =>
    match replayStep env h core c q s ev with
    | none => none
    | some x => replay env h core c x.1 x.2 tr

/-- The trace is one the component goes through from state `s` to state `s1` in
the order of the specification: params thunks, functional core, feedback thunks,
send. -/
def replays (env : Env σ μ) (h : hooks σ) (core : message → Ev → σ → Option (Buffer × σ))
    (c : String) (s : σ) (tr : List Ev) (s1 : σ) : Prop :=
  ∃ q, replay env h core c Stage.idle s tr = some (q, s1)

/-! ### The processor as a map over its input -/

/-- What the processor makes of one message: params thunks, functional core,
feedback thunks; the message that leaves carries the new buffer and the drained
payloads. -/
def processRunner.apply (r : processRunner σ) (env : Env σ μ) (c : String) (m : message)
    (s : σ) : message × σ :=
  let p := m.params.applyTo c
  let res := r.fn m.buffer (applyThunks env p.1 s)
  let f := m.feedback.applyTo c
  (⟨res.1.1, f.2, p.2⟩, applyThunks env f.1 res.2)

/-- The functional core applied to a sequence of messages, one to one and in
order, the component state being carried from one message to the next. -/
def processRunner.mapCore (r : processRunner σ) (env : Env σ μ) (c : String) :
    List message → σ → List message
  | [], _ => []
  | m :: ms, s => (r.apply env c m s).1 :: processRunner.mapCore r env c ms (r.apply env c m s).2

/-! ### Hooks that never fail -/

/-- The same hook, with the same effect on the component, returning nil. -/
def hook.quiet (h : hook σ) : hook σ :=
  fun p s => (none, (h p s).2)

/-- The same hooks, none of which fails. -/
def hooks.quiet (h : hooks σ) : hooks σ :=
  ⟨h.flush.map hook.quiet, h.interrupt.map hook.quiet, h.reset.map hook.quiet⟩

/-- A trace with what hook failures add to it taken out: the sends of `call` on
the error channel are dropped and every hook result is nil. -/
def hush (tr : List Ev) : List Ev :=
  tr.filterMap (fun ev => match ev with
    | Ev.err true _ => none
    | Ev.hook k p _ => some (Ev.hook k p none)
    | x => some x)

/-- The pump runner whose hooks never fail. -/
def pumpRunner.quiet (r : pumpRunner σ) : pumpRunner σ :=
  { r with
    flush := r.flush.map hook.quiet
    interrupt := r.interrupt.map hook.quiet
    reset := r.reset.map hook.quiet }

/-- The processor runner whose hooks never fail. -/
def processRunner.quiet (r : processRunner σ) : processRunner σ :=
  { r with
    flush := r.flush.map hook.quiet
    interrupt := r.interrupt.map hook.quiet
    reset := r.reset.map hook.quiet }

/-- The sink runner whose hooks never fail. -/
def sinkRunner.quiet (r : sinkRunner σ) : sinkRunner σ :=
  { r with
    flush := r.flush.map hook.quiet
    interrupt := r.interrupt.map hook.quiet
    reset := r.reset.map hook.quiet }

/-- Two outcomes that differ by what hook failures add: the trace of the second
is the hushed trace of the first, and exit, component state and metric are the
same. -/
def sameButHushed (o1 o2 : Outcome σ μ) : Prop :=
  hush o1.trace = o2.trace ∧ o1.exit = o2.exit ∧ o1.comp = o2.comp ∧ o1.meter = o2.meter

/-- What hook failures do in a run `o` of a runner with hooks `h`, against the
run `oq` of the same runner with hooks that never fail: apart from the errors
that `call` publishes the two runs are the same, the errors `call` publishes are
the non-nil results of the hooks, in order, and a hook that is nil is never
invoked. -/
def hookFailuresOnlyPublish (h : hooks σ) (o oq : Outcome σ μ) : Prop :=
  sameButHushed o oq ∧ publishedByCall o.trace = hookFailures o.trace ∧
  (h.reset = none → invoked HookKind.reset o.trace = 0) ∧
  (h.flush = none → invoked HookKind.flush o.trace = 0) ∧
  (h.interrupt = none → invoked HookKind.interrupt o.trace = 0)

end Runners

/-! ## The control-plane state machine -/

namespace state

/-- Modelled from the spec: the finite state of the Handle of package `state`,
whose code is outside `src/` (only its test is there): "one of {Ready, Running,
Paused, Done}". -/
inductive State where
  | Ready
  | Running
  | Paused
  | Done
  deriving DecidableEq, Repr

/-- Modelled from the spec: the commands a caller sends to the Handle. -/
inductive Command where
  | Run
  | Pause
  | Resume
  | Interrupt
  deriving DecidableEq, Repr

/-- What a reply error unwraps to: the sentinel `ErrInvalidState` or the error
of a stage. -/
inductive Cause where
  | ErrInvalidState
  | stage (e : Err)
  deriving DecidableEq, Repr

/-- Modelled from the spec: the pipe-level error a reply carries, which wraps its
cause. -/
structure PipeError where
  cause : Cause
  deriving DecidableEq, Repr

/-- Modelled from the spec: `errors.Unwrap` on a reply; a nil reply unwraps to
nil. -/
def Unwrap (reply : Option PipeError) : Option Cause :=
  reply.map PipeError.cause

/-- Modelled from the spec: the transition table of the Handle (§4.F), whose code
is outside `src/`. `reported` is the first error the stages report while the
pipe is shut down, if any. A listed transition replies nil (Interrupt: the
reported stage error, wrapped); any other command is rejected with
`ErrInvalidState` and the state stays; Interrupt in Ready replies nil (scenario
1) and is idempotent in Done. -/
def send (st : State) (c : Command) (reported : Option Err) : State × Option PipeError :=
  match st, c with
  | State.Ready, Command.Run => (State.Running, none)
  | State.Ready, Command.Interrupt => (State.Done, none)
  | State.Ready, _ => (State.Ready, some ⟨Cause.ErrInvalidState⟩)
  | State.Running, Command.Pause => (State.Paused, none)
  | State.Running, Command.Interrupt => (State.Done, reported.map (fun e => ⟨Cause.stage e⟩))
  | State.Running, _ => (State.Running, some ⟨Cause.ErrInvalidState⟩)
  | State.Paused, Command.Resume => (State.Running, none)
  | State.Paused, Command.Interrupt => (State.Done, reported.map (fun e => ⟨Cause.stage e⟩))
  | State.Paused, _ => (State.Paused, some ⟨Cause.ErrInvalidState⟩)
  | State.Done, Command.Interrupt => (State.Done, none)
  | State.Done, _ => (State.Done, some ⟨Cause.ErrInvalidState⟩)

/-- The state a new Handle reaches through a sequence of commands. -/
def reach (reported : Option Err) : State → List Command → State
  | st, [] => st
  | st, c :: cs => reach reported (send st c reported).1 cs

/-- The commands the claim names as not being a transition of the state. -/
def notListed : State → Command → Bool
  | State.Ready, Command.Resume => true
  | State.Ready, Command.Pause => true
  | State.Running, Command.Resume => true
  | State.Running, Command.Run => true
  | State.Paused, Command.Pause => true
  | State.Paused, Command.Run => true
  | _, _ => false

end state

/-! ## Concrete components used as witnesses -/

/-- The environment of the examples: thunk `t` adds `t` to the component state,
and the metric counts frames. -/
def exEnv : Env Nat Nat :=
  ⟨fun t s => s + t, fun x n => some (x + n)⟩

/-- Hooks that all succeed and leave the component alone. -/
def exHooks : hooks Nat :=
  ⟨some (fun _ s => (none, s)), some (fun _ s => (none, s)), some (fun _ _ => (none, 0))⟩

/-- A message with two params thunks and one feedback thunk for stage "c". -/
def exMsg : message :=
  ⟨some [[1, 2]], ⟨[("c", [7])]⟩, ⟨[("c", [1, 2]), ("d", [3])]⟩⟩

/-- A pump whose function fails at once with an error that is not a sentinel. -/
def failingPump : pumpRunner Nat :=
  { exHooks with fn := fun _ s => ((none, some (Err.other 1)), s) }

/-- A pump that returns one short buffer together with `io.EOF`. -/
def lastBufferPump : pumpRunner Nat :=
  { exHooks with fn := fun _ s => ((some [[5]], some Err.EOF), s + 1) }

/-- A processor that passes buffers through and fails on the nil buffer. -/
def exProcessor : processRunner Nat :=
  { exHooks with fn := fun b s => ((b, if b = none then some (Err.other 2) else none), s + 1) }

/-- A sink that fails on the nil buffer. -/
def exSink : sinkRunner Nat :=
  { exHooks with fn := fun b s => (if b = none then some (Err.other 3) else none, s + 1) }

/-- A pump whose Reset hook fails. -/
def badResetPump : pumpRunner Nat :=
  { flush := none, interrupt := some (fun _ s => (none, s)),
    reset := some (fun _ s => (some (Err.other 9), s)),
    fn := fun _ s => ((some [[5]], none), s) }

/-- A message with a nil buffer and no parameters. -/
def exNilMsg : message :=
  ⟨none, ⟨[]⟩, ⟨[]⟩⟩

/-- A processor script: a good message, one the core fails on, and one more. -/
def exProcScript : List ProcStep :=
  [⟨Recv.msg exMsg, true⟩, ⟨Recv.msg exNilMsg, true⟩, ⟨Recv.msg exMsg, true⟩]

/-- A sink script: a good message, one the core fails on, and one more. -/
def exSinkScript : List Recv :=
  [Recv.msg exMsg, Recv.msg exNilMsg, Recv.msg exMsg]

/-- A trace that applies the feedback of a message before the core is called on
it. -/
def exBadOrder : List Ev :=
  [Ev.consume exMsg, Ev.params "c" [1, 2], Ev.feedback "c" [7],
    Ev.process (some [[1, 2]]) (some [[1, 2]]) none, Ev.send exMsg]

/-- A processor whose output shows the state it is called in: it returns the
state as the only sample and counts its calls in the hundreds. -/
def probeProcessor : processRunner Nat :=
  { exHooks with fn := fun _ s => ((some [[(s : Int)]], none), s + 100) }

/-- What the probe processor leaves when it handles `exMsg` from state 0: the
core sees the state 3 that the params thunks 1 and 2 made. -/
def exProbeTrace : List Ev :=
  [Ev.consume exMsg, Ev.params "c" [1, 2], Ev.process (some [[1, 2]]) (some [[3]]) none,
    Ev.feedback "c" [7], Ev.send ⟨some [[3]], ⟨[]⟩, ⟨[("d", [3])]⟩⟩]

/-- The trace of a processor that would call the core before the params thunks
are applied: the events are in the same order, but the core saw state 0. -/
def exCoreTooEarly : List Ev :=
  [Ev.consume exMsg, Ev.params "c" [1, 2], Ev.process (some [[1, 2]]) (some [[0]]) none,
    Ev.feedback "c" [7], Ev.send ⟨some [[0]], ⟨[]⟩, ⟨[("d", [3])]⟩⟩]

/-! ## The Track mixer -/

namespace track

/-- Modelled from the spec: an immutable asset, whose code (package asset) is
outside `src/`: a sample matrix `[channels][frames]`. -/
structure Asset where
  Buffer : List (List Int)
  deriving DecidableEq, Repr

/-- The sample of an asset at a channel and frame; 0 outside the matrix. -/
def Asset.sample (a : Asset) (ch i : Nat) : Int :=
  (a.Buffer.getD ch []).getD i 0

/-- Modelled from the spec: a clip, the `phono.Frame` of the test: "asset-frame
(offset, length into an immutable asset), asset-reference". -/
structure Frame where
  asset : Asset
  Start : Nat
  Len : Nat
  deriving DecidableEq, Repr

/-- Modelled from the spec: the method `Frame(start, len)` of an asset, declared
outside `src/`, as the test calls it: the clip of `len` frames at offset
`start`. -/
def Asset.Frame (a : Asset) (start len : Nat) : Frame :=
  ⟨a, start, len⟩

/-- Modelled from the spec: a clip placement: "start-frame (absolute,
non-negative)" and the clip. -/
structure Placement where
  At : Nat
  clip : Frame
  deriving DecidableEq, Repr

/-- The frame after the last one of a placement. -/
def Placement.End (p : Placement) : Nat :=
  p.At + p.clip.Len

/-- The range `[At, At + Len)` of the placement covers the frame. -/
def Placement.covers (p : Placement) (f : Nat) : Bool :=
  decide (p.At ≤ f) && decide (f < p.End)

/-- The sample of a placement at an absolute frame: the asset sample at
`asset-frame + (f - start-frame)`. -/
def Placement.sample (p : Placement) (ch f : Nat) : Int :=
  p.clip.asset.sample ch (p.clip.Start + (f - p.At))

/-- Modelled from the spec: the Track, whose code (package track) is outside
`src/`: buffer size, channel count, the timeline of placements kept in start
order, and the read cursor of its pump. -/
structure Track where
  bufferSize : Nat
  numChannels : Nat
  placements : List Placement
  cursor : Nat
  deriving DecidableEq, Repr

/-- Modelled from the spec: `track.New(bufferSize, numChannels)`: an empty
timeline. -/
def New (bufferSize numChannels : Nat) : Track :=
  ⟨bufferSize, numChannels, [], 0⟩

/-- Modelled from the spec: what is left of a placement when a clip is put on
`[start, start + len)`: "up-to-two remainders bracketing the new clip", the
part before `start` and the part from `start + len` on, the latter reading its
asset further in. A placement that does not meet the new clip is its own
remainder. -/
def remainders (start len : Nat) (p : Placement) : List Placement :=
  (if p.At < start then
      [⟨p.At, ⟨p.clip.asset, p.clip.Start, min p.End start - p.At⟩⟩]
    else []) ++
  (if start + len < p.End then
      [⟨max p.At (start + len),
        ⟨p.clip.asset, p.clip.Start + (max p.At (start + len) - p.At),
          p.End - max p.At (start + len)⟩⟩]
    else [])

/-- Insertion that keeps the placements sorted by start frame. -/
def insertSorted (n : Placement) : List Placement → List Placement
  | [] => [n]
  | p :: ps => if n.At ≤ p.At then n :: p :: ps else p :: insertSorted n ps

/-- All the remainders of a timeline, in order. -/
def split (start len : Nat) : List Placement → List Placement
  | [] => []
  | p :: ps => remainders start len p ++ split start len ps

/-- Modelled from the spec: `AddFrame(start, clip)`: the placements the new clip
meets are split and what it covers of them is given up, then the clip is put in
start order. -/
def Track.AddFrame (t : Track) (start : Nat) (clip : Frame) : Track :=
  { t with placements := insertSorted ⟨start, clip⟩ (split start clip.Len t.placements) }

/-- Modelled from the spec: `BufferSizeParam(n)`: the buffer size from the next
buffer on. -/
def Track.BufferSizeParam (t : Track) (n : Nat) : Track :=
  { t with bufferSize := n }

/-- The timeline after a sequence of `AddFrame` calls, oldest first. -/
def Track.addAll (t : Track) : List (Nat × Frame) → Track
  | [] => t
  | a :: rest => (t.AddFrame a.1 a.2).addAll rest

/-- The rendered sample of the timeline at a frame: that of the placement that
covers it, 0 if none does. -/
def sampleAt (ps : List Placement) (ch f : Nat) : Int :=
  match ps.find? (fun p => p.covers f) with
  | some p => p.sample ch f
  | none => 0

/-- The "maximum placed end" of the timeline. -/
def maxEnd : List Placement → Nat
  | [] => 0
  | p :: ps => max p.End (maxEnd ps)

/-- Modelled from the spec: the rendering of one buffer of `L` frames at output
frame `O` (§4.G): per channel, the rendered sample of each frame of
`[O, O + L)`. -/
def Track.render (t : Track) (O L : Nat) : List (List Int) :=
  (List.range t.numChannels).map (fun ch =>
    (List.range L).map (fun i => sampleAt t.placements ch (O + i)))

/-- The error that ends a pump: `phono.ErrEOP`, or any other. -/
inductive Error where
  | ErrEOP
  | other (code : Nat)
  deriving DecidableEq, Repr

/-- Modelled from the spec: the pump function of the Track: a buffer of
`bufferSize` frames at the cursor, silence included, while the cursor is before
the maximum placed end, then the stream end. -/
def Track.pump (t : Track) : (Option (List (List Int)) × Option Error) × Track :=
  if t.cursor < maxEnd t.placements then
    ((some (t.render t.cursor t.bufferSize), none), { t with cursor := t.cursor + t.bufferSize })
  else ((none, some Error.ErrEOP), t)

/-- The buffers the pump emits until it signals the stream end, within `fuel`
calls; `none` if the stream end is not reached. -/
def Track.drain : Nat → Track → Option (List (List (List Int)))
  | 0, _ => none
  | fuel + 1, t =>
    match t.pump with
    | ((some b, _), t1) => (Track.drain fuel t1).map (fun bs => b :: bs)
    | ((none, _), _) => some []

/-- The samples of one channel over a sequence of buffers. -/
def channel (ch : Nat) : List (List (List Int)) → List Int
  | [] => []
  | b :: bs => b.getD ch [] ++ channel ch bs

/-- The most recently inserted clip whose range covers the frame, in a sequence
of `AddFrame` calls given oldest first. -/
def mostRecent (adds : List (Nat × Frame)) (f : Nat) : Option (Nat × Frame) :=
  adds.reverse.find? (fun a => decide (a.1 ≤ f) && decide (f < a.1 + a.2.Len))

/-- What the claim says is rendered at a frame: the asset sample of the most
recently inserted clip that covers it, at `offset + (f - start)`, and 0 when no
clip covers it. -/
def lastWriter (adds : List (Nat × Frame)) (ch f : Nat) : Int :=
  match mostRecent adds f with
  | some a => a.2.asset.sample ch (a.2.Start + (f - a.1))
  | none => 0

/-- The assets of the test. -/
def asset1 : Asset :=
  ⟨[[1, 1, 1, 1, 1, 1, 1, 1, 1, 1]]⟩

/-- The second asset of the test. -/
def asset2 : Asset :=
  ⟨[[2, 2, 2, 2, 2, 2, 2, 2, 2, 2]]⟩

/-- The output of the test on a fresh track: the clips are placed, the pump is
drained, and channel 0 is read. -/
def overlapTest (bufferSize : Nat) (adds : List (Nat × Frame)) : Option (List Int) :=
  (((New bufferSize 1).addAll adds).drain 100).map (channel 0)

end track

/-! ## The runners of package pipe (src/pipe/runner.go) -/

namespace pipe

/-- Errors the runners of `src/pipe/runner.go` can tell apart: `phono.ErrEOP`,
the end of the pump, and every other error. -/
inductive Error where
  | ErrEOP
  | other (code : Nat)
  deriving DecidableEq, Repr

/-- How a run of one of these runners ended: the returns of the goroutine, by
cause, `noInput` being the return of a loop that is never entered because `in`
is nil; `blocked` is a run that has not returned. -/
inductive Exit where
  | endOfStream
  | cancelled
  | failed
  | noInput
  | blocked
  deriving DecidableEq, Repr

/-- Observable events of a runner of `src/pipe/runner.go`, in program order.
The message is that of the runners of `src/runner.go`, with its buffer, params
and feedback. -/
inductive Ev where
  /-- the call `r.measurable.Reset()` -/
  | measureReset
  /-- the call `r.measurable.Latency()` -/
  | latency
  /-- the deferred call `r.measurable.FinishMeasure()` -/
  | finishMeasure
  /-- a message was received from `newMessage()` or `in` -/
  | consume (m : message)
  /-- the receive on `in` reported a closed channel -/
  | closed
  /-- the `<-cancel` case of a select was taken -/
  | cancel
  /-- the call `applyTo(id)` on the params payload invoked these thunks -/
  | params (id : String) (thunks : List Nat)
  /-- the pump function was called and returned -/
  | pump (out : Buffer) (err : Option Error)
  /-- the processor function was called and returned -/
  | process (inp out : Buffer) (err : Option Error)
  /-- the sink function was called and returned -/
  | sink (inp : Buffer) (err : Option Error)
  /-- the call `r.Counter(OutputCounter).Advance(buffer)` -/
  | advance (b : Buffer)
  /-- the call `applyTo(id)` on the feedback payload invoked these thunks -/
  | feedback (id : String) (thunks : List Nat)
  /-- the send `out <- m` went through -/
  | send (m : message)
  /-- the send `errc <- e` -/
  | err (e : Error)
  /-- the deferred call `r.Flusher.Flush(sourceID)` returned `result` -/
  | flush (sourceID : String) (result : Option Error)
  /-- the deferred `close(errc)` -/
  | closeErrc
  /-- the deferred `close(out)` -/
  | closeOut
  deriving DecidableEq, Repr

/-- The method `Flush(string) error` of the interface `Flusher`, on explicit
component state. -/
abbrev FlushFunc (σ : Type) := String → σ → Option Error × σ

/-- A component as `flusher` sees it through its type assertion: its Flush
method when it implements Flusher. -/
structure Component (σ : Type) where
  Flush : Option (FlushFunc σ)

/-- The Go function `flusher`: the component as a Flusher if it implements the
interface, nil otherwise. -/
def flusher {σ : Type} (i : Component σ) : Option (FlushFunc σ) :=
  match i.Flush with
  | some v => some v
  | none => none

/-- The Go struct `pumpRunner`: the id of the component, its Flusher (nil when
it has none) and the pump function. -/
structure pumpRunner (σ : Type) where
  ID : String
  Flusher : Option (FlushFunc σ)
  fn : σ → (Buffer × Option Error) × σ

/-- The Go struct `processRunner`. -/
structure processRunner (σ : Type) where
  ID : String
  Flusher : Option (FlushFunc σ)
  fn : Buffer → σ → (Buffer × Option Error) × σ

/-- The Go struct `sinkRunner`. -/
structure sinkRunner (σ : Type) where
  ID : String
  Flusher : Option (FlushFunc σ)
  fn : Buffer → σ → Option Error × σ

/-- What a run leaves behind. -/
structure Outcome (σ : Type) where
  trace : List Ev
  exit : Exit
  comp : σ

/-- What one pass through a loop body leaves behind; `exit = none` means the
loop goes on with the next iteration. -/
structure Iter (σ : Type) where
  evs : List Ev
  exit : Option Exit
  comp : σ

/-- Outcome of the second select of the pump and of its send: the cancel case,
the default case with a send that goes through, or the default case with a send
that never does. -/
inductive Send where
  | cancel
  | sent
  | stuck
  deriving DecidableEq, Repr

/-- Outcomes of the selects of one pump iteration; `recv = none` is the cancel
case of the first select. -/
structure PumpStep where
  recv : Option message
  send : Send
  deriving DecidableEq, Repr

/-- Outcome of the receive on `in`. -/
inductive Recv where
  | msg (m : message)
  | closed
  deriving DecidableEq, Repr

/-- Outcomes of one processor iteration; `send = false` is a send on `r.out`
that never goes through. -/
structure ProcStep where
  recv : Recv
  send : Bool
  deriving DecidableEq, Repr

section Runners

variable {σ : Type}

/-- The thunks of a drained entry are invoked in order. -/
def applyAll (thunk : Nat → σ → σ) (ts : List Nat) (s : σ) : σ :=
  ts.foldl (fun acc t => thunk t acc) s

/-- The `for` loop of a runner over the script of its iterations. -/
def loopOver {α : Type} (body : α → σ → Iter σ) : List α → σ → Outcome σ
  | [], s => ⟨[], Exit.blocked, s⟩
  | x :: xs, s =>
    let it := body x s
    match it.exit with
    | some e => ⟨it.evs, e, it.comp⟩
    | none =>
      let o := loopOver body xs it.comp
      ⟨it.evs ++ o.trace, o.exit, o.comp⟩

/-- The deferred function of the three runners:
`if r.Flusher != nil { err := r.Flusher.Flush(sourceID); if err != nil { errc <- err } }`. -/
def flushDeferred (fl : Option (FlushFunc σ)) (sourceID : String) (s : σ) : List Ev × σ :=
  match fl with
  | none => ([], s)
  | some f =>
    match f sourceID s with
    | (none, s1) => ([Ev.flush sourceID none], s1)
    | (some e, s1) => ([Ev.flush sourceID (some e), Ev.err e], s1)

/-- One iteration of the loop of `pumpRunner.run`. -/
def pumpRunner.body (r : pumpRunner σ) (thunk : Nat → σ → σ) (st : PumpStep) (s : σ) :
    Iter σ :=
  match st.recv with
  | none => ⟨[Ev.cancel], some Exit.cancelled, s⟩
  | some m =>
    let p := m.params.applyTo r.ID
    let res := r.fn (applyAll thunk p.1 s)
    let pre := [Ev.consume m, Ev.params r.ID p.1, Ev.pump res.1.1 res.1.2]
    match res.1.2 with
    | some Error.ErrEOP => ⟨pre, some Exit.endOfStream, res.2⟩
    | some (Error.other n) => ⟨pre ++ [Ev.err (Error.other n)], some Exit.failed, res.2⟩
    | none =>
      let f := m.feedback.applyTo r.ID
      let s3 := applyAll thunk f.1 res.2
      let mid := pre ++ [Ev.advance res.1.1, Ev.latency, Ev.feedback r.ID f.1]
      match st.send with
      | Send.cancel => ⟨mid ++ [Ev.cancel], some Exit.cancelled, s3⟩
      | Send.sent => ⟨mid ++ [Ev.send ⟨res.1.1, f.2, p.2⟩], none, s3⟩
      | Send.stuck => ⟨mid, some Exit.blocked, s3⟩

/-- The deferred calls of a runner, in the order they run, for a goroutine that
returns: `FinishMeasure`, the flush, and the closes `cl`. A goroutine that is
blocked runs none. -/
def deferred (fl : Option (FlushFunc σ)) (sourceID : String) (cl : List Ev) (o : Outcome σ) :
    Outcome σ :=
  if o.exit = Exit.blocked then o
  else
    let d := flushDeferred fl sourceID o.comp
    ⟨o.trace ++ Ev.finishMeasure :: d.1 ++ cl, o.exit, d.2⟩

/-- The Go method `(r *pumpRunner) run`: `r.measurable.Reset()` and the
goroutine it starts. -/
def pumpRunner.run (r : pumpRunner σ) (thunk : Nat → σ → σ) (sourceID : String)
    (script : List PumpStep) (s : σ) : Outcome σ :=
  let o := loopOver (r.body thunk) script s
  deferred r.Flusher sourceID [Ev.closeErrc, Ev.closeOut]
    ⟨Ev.measureReset :: Ev.latency :: o.trace, o.exit, o.comp⟩

/-- One iteration of the loop of `processRunner.run`. -/
def processRunner.body (r : processRunner σ) (thunk : Nat → σ → σ) (st : ProcStep) (s : σ) :
    Iter σ :=
  match st.recv with
  | Recv.closed => ⟨[Ev.closed], some Exit.endOfStream, s⟩
  | Recv.msg m =>
    let p := m.params.applyTo r.ID
    let res := r.fn m.buffer (applyAll thunk p.1 s)
    let pre := [Ev.consume m, Ev.params r.ID p.1, Ev.process m.buffer res.1.1 res.1.2]
    match res.1.2 with
    | some e => ⟨pre ++ [Ev.err e], some Exit.failed, res.2⟩
    | none =>
      let f := m.feedback.applyTo r.ID
      let s3 := applyAll thunk f.1 res.2
      let mid := pre ++ [Ev.advance res.1.1, Ev.latency, Ev.feedback r.ID f.1]
      match st.send with
      | true => ⟨mid ++ [Ev.send ⟨res.1.1, f.2, p.2⟩], none, s3⟩
      | false => ⟨mid, some Exit.blocked, s3⟩

/-- The loop `for in != nil` over the script of `in`, `none` being a nil `in`:
the loop is not entered. -/
def loopIn {α : Type} (body : α → σ → Iter σ) (inp : Option (List α)) (s : σ) : Outcome σ :=
  match inp with
  | none => ⟨[], Exit.noInput, s⟩
  | some script => loopOver body script s

/-- The Go method `(r *processRunner) run`. -/
def processRunner.run (r : processRunner σ) (thunk : Nat → σ → σ) (sourceID : String)
    (inp : Option (List ProcStep)) (s : σ) : Outcome σ :=
  let o := loopIn (r.body thunk) inp s
  deferred r.Flusher sourceID [Ev.closeErrc, Ev.closeOut]
    ⟨Ev.measureReset :: Ev.latency :: o.trace, o.exit, o.comp⟩

/-- One iteration of the loop of `sinkRunner.run`. -/
def sinkRunner.body (r : sinkRunner σ) (thunk : Nat → σ → σ) (st : Recv) (s : σ) : Iter σ :=
  match st with
  | Recv.closed => ⟨[Ev.closed], some Exit.endOfStream, s⟩
  | Recv.msg m =>
    let p := m.params.applyTo r.ID
    let res := r.fn m.buffer (applyAll thunk p.1 s)
    let pre := [Ev.consume m, Ev.params r.ID p.1, Ev.sink m.buffer res.1]
    match res.1 with
    | some e => ⟨pre ++ [Ev.err e], some Exit.failed, res.2⟩
    | none =>
      let f := m.feedback.applyTo r.ID
      ⟨pre ++ [Ev.advance m.buffer, Ev.latency, Ev.feedback r.ID f.1], none,
        applyAll thunk f.1 res.2⟩

/-- The Go method `(r *sinkRunner) run`; the sink has no `out` to close. -/
def sinkRunner.run (r : sinkRunner σ) (thunk : Nat → σ → σ) (sourceID : String)
    (inp : Option (List Recv)) (s : σ) : Outcome σ :=
  let o := loopIn (r.body thunk) inp s
  deferred r.Flusher sourceID [Ev.closeErrc]
    ⟨Ev.measureReset :: Ev.latency :: o.trace, o.exit, o.comp⟩

/-- The event is a call of Flush. -/
def Ev.isFlush : Ev → Bool
  | Ev.flush _ _ => true
  | _ => false

/-- What the claim says of a run that has returned: Flush is called once, with
the source id, after everything the loop did and after `FinishMeasure`; what
follows the call is the error it returned, sent on the error channel, if it is
not nil, and then the closes `cl`, the close of the error channel first. -/
def flushedOnce (sourceID : String) (cl : List Ev) (o : Outcome σ) : Prop :=
  ∃ pre res, o.trace = pre ++ Ev.finishMeasure :: Ev.flush sourceID res ::
      ((res.map Ev.err).toList ++ cl) ∧
    (∀ ev ∈ pre, ev.isFlush = false) ∧
    o.trace.countP Ev.isFlush = 1

/-- A pump with a Flusher that fails; its function returns one buffer and then
an error. -/
def exPump : pumpRunner Nat :=
  { ID := "c", Flusher := some (fun _ s => (some (Error.other 7), s)),
    fn := fun s => if s = 0 then ((some [[1]], none), 1) else ((none, some (Error.other 1)), s) }

/-- A processor with a Flusher; its function fails on the nil buffer. -/
def exProcessor : processRunner Nat :=
  { ID := "c", Flusher := some (fun _ s => (none, s)),
    fn := fun b s => ((b, if b = none then some (Error.other 2) else none), s) }

/-- A sink with a Flusher. -/
def exSink : sinkRunner Nat :=
  { ID := "c", Flusher := some (fun _ s => (none, s)), fn := fun _ s => (none, s) }

end Runners

end pipe

/-! ## The portaudio sink (src/portaudio/portaudio.go) -/

namespace portaudio

/-- The Go struct `Sink`: the device buffer `buf`; the stream is outside the
program. Samples of the device (`float32`) are of type `β`. -/
structure Sink (β : Type) where
  buf : List β

/-- The indexed store `buf[i] = v` of Go: `none` is the run-time panic on an
index out of range. -/
def store {β : Type} (buf : List β) (i : Nat) (v : β) : Option (List β) :=
  if i < buf.length then some (buf.set i v) else none

/-- The indexed load `b[j][i]` of Go: `none` is the run-time panic on an index
out of range. -/
def load {α : Type} (b : List (List α)) (j i : Nat) : Option α :=
  match b.get? j with
  | none => none
  | some row => row.get? i

/-- The inner loop `for j := range b { s.buf[i*numChannels+j] = float32(b[j][i]) }`
over the channels `js` still to do; `conv` is the conversion `float32(_)`. -/
def inner {α β : Type} (conv : α → β) (numChannels : Nat) (b : List (List α)) (i : Nat) :
    List Nat → List β → Option (List β)
  | [], buf => some buf
  | j :: js, buf =>
    match load b j i with
    | none => none
    | some x =>
      match store buf (i * numChannels + j) (conv x) with
      | none => none
      | some buf1 => inner conv numChannels b i js buf1

/-- The outer loop `for i := range b[0]` over the frames still to do. -/
def outer {α β : Type} (conv : α → β) (numChannels : Nat) (b : List (List α)) :
    List Nat → List β → Option (List β)
  | [], buf => some buf
  | i :: is, buf =>
    match inner conv numChannels b i (List.range b.length) buf with
    | none => none
    | some buf1 => outer conv numChannels b is buf1

/-- The function that `Sink.Sink` returns, on the sink it has captured: the two
loops, then `s.stream.Write()`, whose result `write` comes from outside. `none`
is a run-time panic (`b[0]` on an empty `b`, or an index out of range). -/
def Sink.fn {α β ε : Type} (conv : α → β) (numChannels : Nat) (write : Option ε)
    (s : Sink β) (b : List (List α)) : Option (Sink β × Option ε) :=
  match b with
  | [] => none
  | b0 :: _ =>
    match outer conv numChannels b (List.range b0.length) s.buf with
    | none => none
    | some buf1 => some (⟨buf1⟩, write)

/-- The Go method `Sink.Sink`: the device buffer is made, `bufferSize *
numChannels` zero samples, and the portaudio stream is set up, opened and
started; the results of these three calls come from outside, and the first
error is returned. -/
def Sink.Sink {β ε : Type} (zero : β) (numChannels bufferSize : Nat)
    (initErr openErr startErr : Option ε) : portaudio.Sink β × Option ε :=
  let s : portaudio.Sink β := ⟨List.replicate (bufferSize * numChannels) zero⟩
  match initErr with
  | some e => (s, some e)
  | none =>
    match openErr with
    | some e => (s, some e)
    | none => (s, startErr)

/-- What the claim says of one call of the returned function on the buffer `b`,
from the device buffer `old` to the device buffer `new`: the length is kept,
every sample of `b` is at its interleaved index, converted, and every other
index holds what it held. -/
def interleaved {α β : Type} (conv : α → β) (numChannels : Nat) (b : List (List α))
    (frames : Nat) (old new : List β) : Prop :=
  new.length = old.length ∧
  (∀ i j, i < frames → j < b.length →
    new[i * numChannels + j]? = (load b j i).map conv ∧ (load b j i).isSome = true) ∧
  (∀ k, (∀ i j, i < frames → j < b.length → k ≠ i * numChannels + j) → new[k]? = old[k]?)

end portaudio

/-! ## Lemmas on traces and loops -/

section Lemmas

variable {σ μ : Type}

theorem invoked_nil (k : HookKind) : invoked k [] = 0 := rfl

theorem invoked_append (k : HookKind) (a b : List Ev) :
    invoked k (a ++ b) = invoked k a + invoked k b := by
  simp [invoked, List.countP_append]

theorem invoked_cons (k : HookKind) (x : Ev) (a : List Ev) :
    invoked k (x :: a) = (if x.isHook k = true then 1 else 0) + invoked k a := by
  simp [invoked, List.countP_cons, Nat.add_comm]

theorem invoked_call (k k1 : HookKind) (fn : Option (hook σ)) (p : String) (s : σ) :
    invoked k1 (call k fn p s).1 = if k = k1 ∧ fn.isSome = true then 1 else 0 := by
  cases fn with
  | none => simp [call, invoked_nil]
  | some f =>
    simp only [call]
    rcases h : f p s with ⟨_ | e, s1⟩ <;> simp [invoked_cons, invoked_nil, Ev.isHook]

theorem invoked_advance (k : HookKind) (env : Env σ μ) (mt : Option μ) (n : Nat) :
    invoked k (advance env mt n).1 = 0 := by
  cases mt <;> simp [advance, invoked_cons, invoked_nil, Ev.isHook]

theorem cancel_not_mem_call (k : HookKind) (fn : Option (hook σ)) (p : String) (s : σ) :
    Ev.cancel ∉ (call k fn p s).1 := by
  cases fn with
  | none => simp [call]
  | some f =>
    simp only [call]
    rcases h : f p s with ⟨_ | e, s1⟩ <;> simp

theorem cancel_not_mem_advance (env : Env σ μ) (mt : Option μ) (n : Nat) :
    Ev.cancel ∉ (advance env mt n).1 := by
  cases mt <;> simp [advance]

/-- The loop of a runner either is still blocked, and then its trace is that of
complete iterations, or left through an iteration that returns. A property `G`
of the trace and exit that every returning iteration establishes, and that is
kept when the events `a` of a complete iteration (which satisfy `Q`) are put in
front, holds of the loop. -/
theorem loopOver_ind {α : Type} (body : α → σ → Option μ → Iter σ μ)
    (Q : List Ev → Prop) (G : List Ev → Exit → Prop)
    (hnil : G [] Exit.blocked)
    (hcont : ∀ x s mt, (body x s mt).exit = none → Q (body x s mt).evs)
    (hexit : ∀ x s mt e, (body x s mt).exit = some e → G (body x s mt).evs e)
    (hstep : ∀ a b e, Q a → G b e → G (a ++ b) e) :
    ∀ xs s mt, G (loopOver body xs s mt).trace (loopOver body xs s mt).exit := by
  intro xs
  induction xs with
  | nil => intro s mt; exact hnil
  | cons x xs ih =>
    intro s mt
    simp only [loopOver]
    cases h : (body x s mt).exit with
    | some e => exact hexit x s mt e h
    | none => exact hstep _ _ _ (hcont x s mt h) (ih _ _)

theorem lifecycle_loop {α : Type} (body : α → σ → Option μ → Iter σ μ) (F I : Bool)
    (se : Ev → Bool)
    (hbody : ∀ x s mt, lifecycle F I se (body x s mt).exit (body x s mt).evs) :
    ∀ xs s mt,
      lifecycle F I se (some (loopOver body xs s mt).exit) (loopOver body xs s mt).trace := by
  apply loopOver_ind body (fun a => lifecycle F I se none a)
    (fun tr e => lifecycle F I se (some e) tr)
  · simp [lifecycle, invoked_nil]
  · intro x s mt h
    have := hbody x s mt
    rw [h] at this
    exact this
  · intro x s mt e h
    have := hbody x s mt
    rw [h] at this
    exact this
  · intro a b e ha hb
    simp only [lifecycle] at ha hb ⊢
    obtain ⟨a1, a2, a3, a4, _⟩ := ha
    obtain ⟨b1, b2, b3, b4, b5⟩ := hb
    simp only [reduceCtorEq, false_and, if_false, iff_false] at a1 a2 a4
    refine ⟨?_, ?_, ?_, ?_, ?_⟩
    · rw [invoked_append, a1, b1, Nat.zero_add]
    · rw [invoked_append, a2, b2, Nat.zero_add]
    · rw [invoked_append, a3, b3]
    · simp [List.mem_append, a4, b4]
    · intro he
      obtain ⟨ev, hev, hs⟩ := b5 he
      exact ⟨ev, List.mem_append_right _ hev, hs⟩

theorem pump_handle_lifecycle (r : pumpRunner σ) (bs : Int) (b : Buffer) (p : String)
    (err : Option Err) (s : σ) (pre : List Ev)
    (h1 : invoked HookKind.flush pre = 0) (h2 : invoked HookKind.interrupt pre = 0)
    (h3 : invoked HookKind.reset pre = 0) (h4 : Ev.cancel ∉ pre)
    (h5 : Ev.pump bs b err ∈ pre) :
    lifecycle r.flush.isSome r.interrupt.isSome Ev.sentinelReturned (r.handle p err s).2.1
      (pre ++ (r.handle p err s).1) := by
  rcases err with _ | _ | _ | n
  · simp [pumpRunner.handle, lifecycle, h1, h2, h3, h4]
  · simp only [pumpRunner.handle, lifecycle, invoked_append, invoked_call, h1, h2, h3,
      List.mem_append, h4, cancel_not_mem_call]
    simp
    exact ⟨_, Or.inl h5, rfl⟩
  · simp only [pumpRunner.handle, lifecycle, invoked_append, invoked_call, h1, h2, h3,
      List.mem_append, h4, cancel_not_mem_call]
    simp
    exact ⟨_, Or.inl h5, rfl⟩
  · simp [pumpRunner.handle, lifecycle, invoked_append, invoked_cons, invoked_nil, Ev.isHook,
      h1, h2, h3, h4]

theorem pump_body_lifecycle (r : pumpRunner σ) (env : Env σ μ) (bs : Int) (p c : String)
    (st : PumpStep) (s : σ) (mt : Option μ) :
    lifecycle r.flush.isSome r.interrupt.isSome Ev.sentinelReturned
      (r.body env bs p c st s mt).exit
      (r.body env bs p c st s mt).evs := by
  unfold pumpRunner.body
  rcases st with ⟨pv, _ | m, sd⟩ <;> cases pv <;> dsimp only
  all_goals try (
    simp [lifecycle, invoked_call, invoked_cons, invoked_nil, Ev.isHook]; done)
  generalize r.fn bs (applyThunks env (m.params.applyTo c).1 s) = res
  rcases res with ⟨⟨_ | b, err⟩, s2⟩ <;> dsimp only
  · apply pump_handle_lifecycle r bs none p err s2 <;>
      simp [invoked_cons, invoked_nil, Ev.isHook]
  · cases sd
    · simp [lifecycle, invoked_call, invoked_append, invoked_advance, invoked_cons,
        invoked_nil, Ev.isHook]
    · have h := pump_handle_lifecycle r bs (some b) p err
        (applyThunks env (m.feedback.applyTo c).1 s2)
        ([Ev.provide p, Ev.consume m, Ev.params c (m.params.applyTo c).1,
          Ev.pump bs (some b) err] ++ (advance env mt (Size (some b))).1 ++
          [Ev.feedback c (m.feedback.applyTo c).1,
            Ev.send ⟨some b, (m.feedback.applyTo c).2, (m.params.applyTo c).2⟩])
        (by simp [invoked_append, invoked_advance, invoked_cons, invoked_nil, Ev.isHook])
        (by simp [invoked_append, invoked_advance, invoked_cons, invoked_nil, Ev.isHook])
        (by simp [invoked_append, invoked_advance, invoked_cons, invoked_nil, Ev.isHook])
        (by simp [cancel_not_mem_advance])
        (by simp)
      simpa using h

theorem process_body_lifecycle (r : processRunner σ) (env : Env σ μ) (p c : String)
    (st : ProcStep) (s : σ) (mt : Option μ) :
    lifecycle r.flush.isSome r.interrupt.isSome Ev.upstreamClosed
      (r.body env p c st s mt).exit
      (r.body env p c st s mt).evs := by
  unfold processRunner.body
  rcases st with ⟨_ | _ | _, sd⟩ <;> dsimp only
  all_goals try (
    simp [lifecycle, invoked_call, invoked_cons, invoked_nil, Ev.isHook, cancel_not_mem_call,
      Ev.upstreamClosed]; done)
  rename_i m
  generalize r.fn m.buffer (applyThunks env (m.params.applyTo c).1 s) = res
  rcases res with ⟨⟨b, _ | e⟩, s2⟩ <;> dsimp only
  · cases sd <;>
      simp [lifecycle, invoked_call, invoked_append, invoked_advance, invoked_cons,
        invoked_nil, Ev.isHook, cancel_not_mem_call, cancel_not_mem_advance]
  · simp [lifecycle, invoked_cons, invoked_nil, Ev.isHook]

theorem sink_body_lifecycle (r : sinkRunner σ) (env : Env σ μ) (p c : String)
    (st : Recv) (s : σ) (mt : Option μ) :
    lifecycle r.flush.isSome r.interrupt.isSome Ev.upstreamClosed
      (r.body env p c st s mt).exit
      (r.body env p c st s mt).evs := by
  unfold sinkRunner.body
  rcases st with _ | _ | _ <;> dsimp only
  all_goals try (
    simp [lifecycle, invoked_call, invoked_cons, invoked_nil, Ev.isHook, cancel_not_mem_call,
      Ev.upstreamClosed]; done)
  rename_i m
  generalize r.fn m.buffer (applyThunks env (m.params.applyTo c).1 s) = res
  rcases res with ⟨_ | e, s2⟩ <;> dsimp only <;>
    simp [lifecycle, invoked_append, invoked_advance, invoked_cons, invoked_nil, Ev.isHook,
      cancel_not_mem_advance]

theorem invoked_closes (k : HookKind) (e : Exit) : invoked k (closes e) = 0 := by
  unfold closes; split <;> simp [invoked_cons, invoked_nil, Ev.isHook]

theorem invoked_closeErr (k : HookKind) (e : Exit) : invoked k (closeErr e) = 0 := by
  unfold closeErr; split <;> simp [invoked_cons, invoked_nil, Ev.isHook]

theorem cancel_not_mem_closes (e : Exit) : Ev.cancel ∉ closes e := by
  unfold closes; split <;> simp

theorem cancel_not_mem_closeErr (e : Exit) : Ev.cancel ∉ closeErr e := by
  unfold closeErr; split <;> simp

/-- How the exit of a run shows in its trace: as for the loop, and the reset
hook is invoked once exactly when the component has it. -/
theorem lifecycle_run (F I : Bool) (se : Ev → Bool) (R : Option (hook σ)) (p : String) (s : σ)
    (e : Exit) (tr cl : List Ev) (h : lifecycle F I se (some e) tr)
    (hc : ∀ k, invoked k cl = 0) (hn : Ev.cancel ∉ cl) :
    invoked HookKind.flush ((call HookKind.reset R p s).1 ++ tr ++ cl)
        = (if e = Exit.streamEnd ∧ F = true then 1 else 0) ∧
    invoked HookKind.interrupt ((call HookKind.reset R p s).1 ++ tr ++ cl)
        = (if e = Exit.cancelled ∧ I = true then 1 else 0) ∧
    invoked HookKind.reset ((call HookKind.reset R p s).1 ++ tr ++ cl)
        = (if R.isSome = true then 1 else 0) ∧
    (Ev.cancel ∈ (call HookKind.reset R p s).1 ++ tr ++ cl ↔ e = Exit.cancelled) ∧
    (e = Exit.streamEnd →
      ∃ ev ∈ (call HookKind.reset R p s).1 ++ tr ++ cl, se ev = true) := by
  obtain ⟨h1, h2, h3, h4, h5⟩ := h
  simp only [Option.some.injEq] at h1 h2 h4 h5
  refine ⟨?_, ?_, ?_, ?_, ?_⟩
  · simp [invoked_append, invoked_call, hc, h1]
  · simp [invoked_append, invoked_call, hc, h2]
  · simp [invoked_append, invoked_call, hc, h3]
  · simp [cancel_not_mem_call, hn, h4]
  · intro he
    obtain ⟨ev, hev, hs⟩ := h5 he
    exact ⟨ev, by simp [hev], hs⟩

theorem pump_run_lifecycle (r : pumpRunner σ) (env : Env σ μ) (bs : Int) (p c : String)
    (mt : Option μ) (script : List PumpStep) (s : σ) :
    let o := r.run env bs p c mt script s
    invoked HookKind.flush o.trace
        = (if o.exit = Exit.streamEnd ∧ r.flush.isSome = true then 1 else 0) ∧
    invoked HookKind.interrupt o.trace
        = (if o.exit = Exit.cancelled ∧ r.interrupt.isSome = true then 1 else 0) ∧
    invoked HookKind.reset o.trace = (if r.reset.isSome = true then 1 else 0) ∧
    (Ev.cancel ∈ o.trace ↔ o.exit = Exit.cancelled) ∧
    (o.exit = Exit.streamEnd → ∃ ev ∈ o.trace, ev.sentinelReturned = true) :=
  lifecycle_run _ _ _ r.reset p s _ _ _
    (lifecycle_loop _ _ _ _ (pump_body_lifecycle r env bs p c) script _ mt)
    (fun k => invoked_closes k _) (cancel_not_mem_closes _)

theorem process_run_lifecycle (r : processRunner σ) (env : Env σ μ) (p c : String)
    (mt : Option μ) (script : List ProcStep) (s : σ) :
    let o := r.run env p c mt script s
    invoked HookKind.flush o.trace
        = (if o.exit = Exit.streamEnd ∧ r.flush.isSome = true then 1 else 0) ∧
    invoked HookKind.interrupt o.trace
        = (if o.exit = Exit.cancelled ∧ r.interrupt.isSome = true then 1 else 0) ∧
    invoked HookKind.reset o.trace = (if r.reset.isSome = true then 1 else 0) ∧
    (Ev.cancel ∈ o.trace ↔ o.exit = Exit.cancelled) ∧
    (o.exit = Exit.streamEnd → ∃ ev ∈ o.trace, ev.upstreamClosed = true) :=
  lifecycle_run _ _ _ r.reset p s _ _ _
    (lifecycle_loop _ _ _ _ (process_body_lifecycle r env p c) script _ mt)
    (fun k => invoked_closes k _) (cancel_not_mem_closes _)

theorem sink_run_lifecycle (r : sinkRunner σ) (env : Env σ μ) (p c : String)
    (mt : Option μ) (script : List Recv) (s : σ) :
    let o := r.run env p c mt script s
    invoked HookKind.flush o.trace
        = (if o.exit = Exit.streamEnd ∧ r.flush.isSome = true then 1 else 0) ∧
    invoked HookKind.interrupt o.trace
        = (if o.exit = Exit.cancelled ∧ r.interrupt.isSome = true then 1 else 0) ∧
    invoked HookKind.reset o.trace = (if r.reset.isSome = true then 1 else 0) ∧
    (Ev.cancel ∈ o.trace ↔ o.exit = Exit.cancelled) ∧
    (o.exit = Exit.streamEnd → ∃ ev ∈ o.trace, ev.upstreamClosed = true) :=
  lifecycle_run _ _ _ r.reset p s _ _ _
    (lifecycle_loop _ _ _ _ (sink_body_lifecycle r env p c) script _ mt)
    (fun k => invoked_closeErr k _) (cancel_not_mem_closeErr _)

/-- The counts of a run give the hooks by exit, for a component with both exit
hooks. -/
theorem hooksByExit_of_counts (o : Outcome σ μ) (F I : Bool) (hF : F = true) (hI : I = true)
    (h1 : invoked HookKind.flush o.trace = (if o.exit = Exit.streamEnd ∧ F = true then 1 else 0))
    (h2 : invoked HookKind.interrupt o.trace
        = (if o.exit = Exit.cancelled ∧ I = true then 1 else 0)) :
    hooksByExit o := by
  subst hF hI
  refine ⟨fun h => ?_, fun h => ?_, fun h => ?_⟩ <;> simp [h1, h2, h]

/-- The counts of a run give the exit paths of its hooks. -/
theorem exitPaths_of_counts (o : Outcome σ μ) (F I : Bool) (se : Ev → Bool)
    (h1 : invoked HookKind.flush o.trace = (if o.exit = Exit.streamEnd ∧ F = true then 1 else 0))
    (h2 : invoked HookKind.interrupt o.trace
        = (if o.exit = Exit.cancelled ∧ I = true then 1 else 0))
    (h4 : Ev.cancel ∈ o.trace ↔ o.exit = Exit.cancelled)
    (h5 : o.exit = Exit.streamEnd → ∃ ev ∈ o.trace, se ev = true) :
    exitPaths I se o := by
  have hf : 0 < invoked HookKind.flush o.trace → o.exit = Exit.streamEnd := by
    rw [h1]
    by_cases hc : o.exit = Exit.streamEnd ∧ F = true
    · intro _; exact hc.1
    · rw [if_neg hc]; intro h; exact absurd h (by decide)
  have hi : 0 < invoked HookKind.interrupt o.trace → o.exit = Exit.cancelled := by
    rw [h2]
    by_cases hc : o.exit = Exit.cancelled ∧ I = true
    · intro _; exact hc.1
    · rw [if_neg hc]; intro h; exact absurd h (by decide)
  refine ⟨fun h => ⟨hf h, h5 (hf h)⟩, fun h => ⟨hi h, h4.2 (hi h)⟩, fun h => ⟨h4.1 h, ?_⟩, ?_⟩
  · intro hI
    rw [h2, if_pos ⟨h4.1 h, hI⟩]
  · rintro ⟨a, b⟩
    have := hf a
    rw [hi b] at this
    exact absurd this (by decide)

/-- A run of a component with a reset hook starts with it. -/
theorem resetFirst_of_run (R : Option (hook σ)) (hR : R.isSome = true) (p : String) (s : σ)
    (tr cl : List Ev) (h1 : invoked HookKind.reset tr = 0) (h2 : invoked HookKind.reset cl = 0) :
    ∃ res rest, (call HookKind.reset R p s).1 ++ tr ++ cl = Ev.hook HookKind.reset p res :: rest ∧
      invoked HookKind.reset rest = 0 := by
  cases R with
  | none => simp at hR
  | some f =>
    simp only [call]
    rcases h : f p s with ⟨_ | e, s1⟩
    · exact ⟨none, tr ++ cl, by simp, by simp [invoked_append, h1, h2]⟩
    · exact ⟨some e, Ev.err true e :: (tr ++ cl), by simp,
        by simp [invoked_cons, invoked_append, h1, h2, Ev.isHook]⟩

theorem published_append (a b : List Ev) : published (a ++ b) = published a ++ published b := by
  simp [published]

theorem hookFailures_append (a b : List Ev) :
    hookFailures (a ++ b) = hookFailures a ++ hookFailures b := by
  simp [hookFailures]

theorem plain_nil : plain [] :=
  ⟨by simp, rfl, rfl, fun _ => rfl⟩

theorem plain_advance (env : Env σ μ) (mt : Option μ) (n : Nat) : plain (advance env mt n).1 := by
  cases mt <;>
    simp [plain, advance, Ev.isCore, published, hookFailures, invoked_cons, invoked_nil,
      Ev.isHook]

theorem plain_closes (e : Exit) : plain (closes e) := by
  unfold closes
  split <;>
    simp [plain, Ev.isCore, published, hookFailures, invoked_cons, invoked_nil, Ev.isHook]

theorem plain_closeErr (e : Exit) : plain (closeErr e) := by
  unfold closeErr
  split <;>
    simp [plain, Ev.isCore, published, hookFailures, invoked_cons, invoked_nil, Ev.isHook]

theorem plain_append (a b : List Ev) (ha : plain a) (hb : plain b) : plain (a ++ b) := by
  obtain ⟨a1, a2, a3, a4⟩ := ha
  obtain ⟨b1, b2, b3, b4⟩ := hb
  refine ⟨?_, ?_, ?_, ?_⟩
  · intro ev hev
    rcases List.mem_append.1 hev with h | h
    · exact a1 ev h
    · exact b1 ev h
  · rw [published_append, a2, b2]; rfl
  · rw [hookFailures_append, a3, b3]; rfl
  · intro k; rw [invoked_append, a4, b4]

theorem pumpErrorHandled_append_plain (F : Bool) (e : Err) (ex : Exit) (post cl : List Ev)
    (h : pumpErrorHandled F e ex post) (hc : plain cl) : pumpErrorHandled F e ex (post ++ cl) := by
  obtain ⟨h1, h2, h3⟩ := h
  obtain ⟨c1, c2, c3, c4⟩ := hc
  refine ⟨?_, ?_, ?_⟩
  · intro ev hev
    rcases List.mem_append.1 hev with h | h
    · exact h1 ev h
    · exact c1 ev h
  · intro hs
    obtain ⟨x1, x2, y1, y2, x3⟩ := h2 hs
    exact ⟨x1, by rw [invoked_append, x2, c4, Nat.add_zero],
      by rw [invoked_append, y1, c4], by rw [invoked_append, y2, c4],
      by rw [published_append, hookFailures_append, x3, c2, c3]⟩
  · intro n1 n2
    obtain ⟨x1, x2, x3, x4⟩ := h3 n1 n2
    exact ⟨x1, by rw [published_append, x2, c2]; rfl, by rw [invoked_append, x3, c4],
      by rw [hookFailures_append, x4, c3]; rfl⟩

theorem call_facts (k : HookKind) (fn : Option (hook σ)) (p : String) (s : σ) :
    (∀ ev ∈ (call k fn p s).1, ev.isCore = false) ∧
    published (call k fn p s).1 = hookFailures (call k fn p s).1 := by
  cases fn with
  | none => simp [call, published, hookFailures]
  | some f =>
    simp only [call]
    rcases h : f p s with ⟨_ | e, s1⟩ <;> simp [Ev.isCore, published, hookFailures]

theorem core_not_mem_call (k : HookKind) (fn : Option (hook σ)) (p : String) (s : σ) (ev : Ev)
    (h : ev.isCore = true) : ev ∉ (call k fn p s).1 := by
  intro hm
  have := (call_facts k fn p s).1 ev hm
  rw [h] at this
  exact absurd this (by decide)

theorem core_not_mem_plain (a : List Ev) (ha : plain a) (ev : Ev) (h : ev.isCore = true) :
    ev ∉ a := by
  intro hm
  have := ha.1 ev hm
  rw [h] at this
  exact absurd this (by decide)

theorem pump_handle_errorHandled (r : pumpRunner σ) (p : String) (e : Err) (s : σ)
    (mid : List Ev) (hm : plain mid) :
    ∃ ex, (r.handle p (some e) s).2.1 = some ex ∧
      pumpErrorHandled r.flush.isSome e ex (mid ++ (r.handle p (some e) s).1) := by
  obtain ⟨m1, m2, m3, m4⟩ := hm
  have hc := call_facts HookKind.flush r.flush p s
  rcases e with _ | _ | n
  · refine ⟨Exit.streamEnd, rfl, ?_, ?_, ?_⟩
    · intro ev hev
      rcases List.mem_append.1 hev with h | h
      · exact m1 ev h
      · exact hc.1 ev h
    · intro _
      refine ⟨rfl, ?_, ?_, ?_, ?_⟩
      · simp [pumpRunner.handle, invoked_append, m4, invoked_call]
      · simp [pumpRunner.handle, invoked_append, m4, invoked_call]
      · simp [pumpRunner.handle, invoked_append, m4, invoked_call]
      · simp only [pumpRunner.handle, published_append, hookFailures_append, m2, m3, hc.2]
    · intro h; exact absurd rfl h
  · refine ⟨Exit.streamEnd, rfl, ?_, ?_, ?_⟩
    · intro ev hev
      rcases List.mem_append.1 hev with h | h
      · exact m1 ev h
      · exact hc.1 ev h
    · intro _
      refine ⟨rfl, ?_, ?_, ?_, ?_⟩
      · simp [pumpRunner.handle, invoked_append, m4, invoked_call]
      · simp [pumpRunner.handle, invoked_append, m4, invoked_call]
      · simp [pumpRunner.handle, invoked_append, m4, invoked_call]
      · simp only [pumpRunner.handle, published_append, hookFailures_append, m2, m3, hc.2]
    · intro _ h; exact absurd rfl h
  · refine ⟨Exit.failed, rfl, ?_, ?_, ?_⟩
    · intro ev hev
      rcases List.mem_append.1 hev with h | h
      · exact m1 ev h
      · simp [pumpRunner.handle] at h; subst h; rfl
    · intro h; simp at h
    · intro _ _
      refine ⟨rfl, ?_, ?_, ?_⟩
      · simp [pumpRunner.handle, published_append, m2]; simp [published]
      · simp [pumpRunner.handle, invoked_append, m4, invoked_cons, invoked_nil, Ev.isHook]
      · simp [pumpRunner.handle, hookFailures_append, m3]; simp [hookFailures]

theorem core_not_mem_handle (r : pumpRunner σ) (p : String) (err : Option Err) (s : σ) (ev : Ev)
    (h : ev.isCore = true) : ev ∉ (r.handle p err s).1 := by
  rcases err with _ | _ | _ | n
  · simp [pumpRunner.handle]
  · simp only [pumpRunner.handle]; exact core_not_mem_call _ _ _ _ _ h
  · simp only [pumpRunner.handle]; exact core_not_mem_call _ _ _ _ _ h
  · simp only [pumpRunner.handle, List.mem_singleton]
    intro hh; subst hh; simp [Ev.isCore] at h

theorem pump_body_errorClaim (r : pumpRunner σ) (env : Env σ μ) (bs : Int) (p c : String)
    (st : PumpStep) (s : σ) (mt : Option μ) :
    (((r.body env bs p c st s mt).exit = none →
        ∀ ev ∈ (r.body env bs p c st s mt).evs, ev.failedCore = false) ∧
      ∀ ex, (r.body env bs p c st s mt).exit = some ex →
        pumpErrorClaim r.flush.isSome bs (r.body env bs p c st s mt).evs ex) := by
  unfold pumpRunner.body
  rcases st with ⟨pv, _ | m, sd⟩ <;> cases pv <;> dsimp only
  all_goals try (simp [pumpErrorClaim]; done)
  generalize r.fn bs (applyThunks env (m.params.applyTo c).1 s) = res
  rcases res with ⟨⟨_ | b, err⟩, s2⟩ <;> dsimp only
  · rcases err with _ | e
    · simp [pumpRunner.handle, Ev.failedCore, Ev.coreErr]
    · obtain ⟨ex, hex, hh⟩ := pump_handle_errorHandled r p e s2 [] plain_nil
      refine ⟨by simp [hex], ?_⟩
      intro ex1 h1
      rw [hex] at h1
      cases h1
      intro b1 e1 hm _
      have hb : b1 = none ∧ e1 = e := by
        simp only [List.mem_append, List.mem_cons, List.mem_singleton, reduceCtorEq, false_or,
          Ev.pump.injEq, true_and, List.not_mem_nil, or_false, Option.some.injEq] at hm
        rcases hm with h | h
        · exact h
        · exact absurd h (core_not_mem_handle r p (some e) s2 _ rfl)
      obtain ⟨rfl, rfl⟩ := hb
      exact ⟨[Ev.provide p, Ev.consume m, Ev.params c (m.params.applyTo c).1],
        (r.handle p (some e1) s2).1, rfl,
        by simp [Ev.failedCore, Ev.coreErr], by simpa using hh⟩
  · cases sd <;> dsimp only
    · simp [pumpErrorClaim]
    · have hmid : plain ((advance env mt (Size (some b))).1 ++
          [Ev.feedback c (m.feedback.applyTo c).1,
            Ev.send ⟨some b, (m.feedback.applyTo c).2, (m.params.applyTo c).2⟩]) :=
        plain_append _ _ (plain_advance env mt _)
          (by simp [plain, Ev.isCore, published, hookFailures, invoked_cons, invoked_nil,
            Ev.isHook])
      rcases err with _ | e
      · simp only [pumpRunner.handle, true_implies, reduceCtorEq, false_implies, implies_true,
          and_true]
        intro ev hev
        simp only [List.mem_append, List.mem_cons, List.mem_singleton, List.not_mem_nil,
          or_false] at hev
        rcases hev with ((h | h | h | h) | h) | h | h
        any_goals (subst h; rfl)
        exact (by
          have := (plain_advance env mt (Size (some b))).1 ev h
          cases ev <;> simp_all [Ev.failedCore, Ev.coreErr, Ev.isCore])
      · obtain ⟨ex, hex, hh⟩ := pump_handle_errorHandled r p e
          (applyThunks env (m.feedback.applyTo c).1 s2) _ hmid
        refine ⟨by simp [hex], ?_⟩
        intro ex1 h1
        rw [hex] at h1
        cases h1
        intro b1 e1 hm _
        have hb : b1 = some b ∧ e1 = e := by
          simp only [List.mem_append, List.mem_cons, List.mem_singleton, reduceCtorEq, false_or,
            Ev.pump.injEq, true_and, List.not_mem_nil, or_false, Option.some.injEq] at hm
          rcases hm with (h | h) | h
          · exact h
          · exact absurd h (core_not_mem_plain _ (plain_advance env mt _) _ rfl)
          · exact absurd h (core_not_mem_handle r p (some e) _ _ rfl)
        obtain ⟨rfl, rfl⟩ := hb
        exact ⟨[Ev.provide p, Ev.consume m, Ev.params c (m.params.applyTo c).1], _, by simp,
          by simp [Ev.failedCore, Ev.coreErr], hh⟩

theorem failedCore_of_not_isCore (ev : Ev) (h : ev.isCore = false) : ev.failedCore = false := by
  cases ev <;> simp_all [Ev.failedCore, Ev.coreErr, Ev.isCore]

theorem pumpErrorClaim_step (F : Bool) (bs : Int) (a b : List Ev) (ex : Exit)
    (ha : ∀ ev ∈ a, ev.failedCore = false) (hb : pumpErrorClaim F bs b ex) :
    pumpErrorClaim F bs (a ++ b) ex := by
  intro bf e hm hc
  have hmb : Ev.pump bs bf (some e) ∈ b := by
    rcases List.mem_append.1 hm with h | h
    · have := ha _ h
      simp [Ev.failedCore, Ev.coreErr] at this
    · exact h
  obtain ⟨pre, post, h1, h2, h3⟩ := hb bf e hmb (fun h => hc (List.mem_append_right _ h))
  refine ⟨a ++ pre, post, by rw [h1, List.append_assoc], ?_, h3⟩
  intro ev hev
  rcases List.mem_append.1 hev with h | h
  · exact ha ev h
  · exact h2 ev h

theorem pump_loop_errorClaim (r : pumpRunner σ) (env : Env σ μ) (bs : Int) (p c : String)
    (script : List PumpStep) (s : σ) (mt : Option μ) :
    pumpErrorClaim r.flush.isSome bs (loopOver (r.body env bs p c) script s mt).trace
      (loopOver (r.body env bs p c) script s mt).exit := by
  apply loopOver_ind (r.body env bs p c) (fun a => ∀ ev ∈ a, ev.failedCore = false)
    (fun tr ex => pumpErrorClaim r.flush.isSome bs tr ex)
  · intro b e hm; simp at hm
  · intro x s mt h; exact (pump_body_errorClaim r env bs p c x s mt).1 h
  · intro x s mt e h; exact (pump_body_errorClaim r env bs p c x s mt).2 e h
  · intro a b e ha hb; exact pumpErrorClaim_step _ _ a b e ha hb

theorem pump_run_errorClaim (r : pumpRunner σ) (env : Env σ μ) (bs : Int) (p c : String)
    (mt : Option μ) (script : List PumpStep) (s : σ) :
    pumpErrorClaim r.flush.isSome bs (r.run env bs p c mt script s).trace
      (r.run env bs p c mt script s).exit := by
  intro bf e hm hc
  simp only [pumpRunner.run] at hm hc ⊢
  have hcl := plain_closes (loopOver (r.body env bs p c) script
    (call HookKind.reset r.reset p s).2 mt).exit
  have hmb : Ev.pump bs bf (some e) ∈
      (loopOver (r.body env bs p c) script (call HookKind.reset r.reset p s).2 mt).trace := by
    rcases List.mem_append.1 hm with h | h
    · rcases List.mem_append.1 h with h | h
      · exact absurd h (core_not_mem_call _ _ _ _ _ rfl)
      · exact h
    · exact absurd h (core_not_mem_plain _ hcl _ rfl)
  obtain ⟨pre, post, h1, h2, h3⟩ := pump_loop_errorClaim r env bs p c script _ mt bf e hmb
    (fun h => hc (List.mem_append_left _ (List.mem_append_right _ h)))
  refine ⟨(call HookKind.reset r.reset p s).1 ++ pre, post ++ closes _, ?_, ?_,
    pumpErrorHandled_append_plain _ _ _ _ _ h3 hcl⟩
  · rw [h1]; simp
  · intro ev hev
    rcases List.mem_append.1 hev with h | h
    · exact failedCore_of_not_isCore ev ((call_facts _ _ _ _).1 ev h)
    · exact h2 ev h

theorem nofail_call (k : HookKind) (fn : Option (hook σ)) (p : String) (s : σ) :
    ∀ ev ∈ (call k fn p s).1, ev.failedCore = false :=
  fun ev h => failedCore_of_not_isCore ev ((call_facts k fn p s).1 ev h)

theorem nofail_advance (env : Env σ μ) (mt : Option μ) (n : Nat) :
    ∀ ev ∈ (advance env mt n).1, ev.failedCore = false :=
  fun ev h => failedCore_of_not_isCore ev ((plain_advance env mt n).1 ev h)

theorem nofail_append (a b : List Ev) (ha : ∀ ev ∈ a, ev.failedCore = false)
    (hb : ∀ ev ∈ b, ev.failedCore = false) : ∀ ev ∈ a ++ b, ev.failedCore = false := by
  intro ev hev
  rcases List.mem_append.1 hev with h | h
  · exact ha ev h
  · exact hb ev h

theorem nofail_cons (x : Ev) (b : List Ev) (hx : x.failedCore = false)
    (hb : ∀ ev ∈ b, ev.failedCore = false) : ∀ ev ∈ x :: b, ev.failedCore = false := by
  intro ev hev
  rcases List.mem_cons.1 hev with h | h
  · rw [h]; exact hx
  · exact hb ev h

theorem absurd_fail (tr : List Ev) (P : Prop) (h : ∀ ev ∈ tr, ev.failedCore = false) :
    (∃ ev ∈ tr, ev.failedCore = true) → P := by
  rintro ⟨ev, hev, hf⟩
  rw [h ev hev] at hf
  exact absurd hf (by decide)

theorem process_body_failsFast (r : processRunner σ) (env : Env σ μ) (p c : String)
    (st : ProcStep) (s : σ) (mt : Option μ) :
    (((r.body env p c st s mt).exit = none →
        ∀ ev ∈ (r.body env p c st s mt).evs, ev.failedCore = false) ∧
      ∀ ex, (r.body env p c st s mt).exit = some ex →
        processFailsFast c [] (r.body env p c st s mt).evs ex) := by
  unfold processRunner.body
  rcases st with ⟨_ | _ | _, sd⟩ <;> dsimp only
  · rename_i m
    generalize r.fn m.buffer (applyThunks env (m.params.applyTo c).1 s) = res
    rcases res with ⟨⟨b, _ | e⟩, s2⟩ <;> dsimp only
    · have hn : ∀ ev ∈ [Ev.consume m, Ev.params c (m.params.applyTo c).1,
          Ev.process m.buffer b none] ++ (advance env mt (Size b)).1,
          ev.failedCore = false :=
        nofail_append _ _ (by simp [Ev.failedCore, Ev.coreErr]) (nofail_advance env mt _)
      cases sd <;> dsimp only
      · refine ⟨by simp, ?_⟩
        intro ex _
        exact absurd_fail _ _ (nofail_append _ _ hn
          (nofail_cons _ _ rfl (nofail_cons _ _ rfl (nofail_call _ _ _ _))))
      · refine ⟨fun _ => nofail_append _ _ hn (by simp [Ev.failedCore, Ev.coreErr]), ?_⟩
        intro ex h
        simp at h
    · refine ⟨by simp, ?_⟩
      intro ex h _
      simp only [Option.some.injEq] at h
      exact ⟨[], m, b, e, by simp, by simp, h.symm⟩
  · refine ⟨by simp, ?_⟩
    intro ex _
    exact absurd_fail _ _ (nofail_cons _ _ rfl (nofail_call _ _ _ _))
  · refine ⟨by simp, ?_⟩
    intro ex _
    exact absurd_fail _ _ (nofail_cons _ _ rfl (nofail_call _ _ _ _))

theorem sink_body_failsFast (r : sinkRunner σ) (env : Env σ μ) (p c : String)
    (st : Recv) (s : σ) (mt : Option μ) :
    (((r.body env p c st s mt).exit = none →
        ∀ ev ∈ (r.body env p c st s mt).evs, ev.failedCore = false) ∧
      ∀ ex, (r.body env p c st s mt).exit = some ex →
        sinkFailsFast c [] (r.body env p c st s mt).evs ex) := by
  unfold sinkRunner.body
  rcases st with _ | _ | _ <;> dsimp only
  · rename_i m
    generalize r.fn m.buffer (applyThunks env (m.params.applyTo c).1 s) = res
    rcases res with ⟨_ | e, s2⟩ <;> dsimp only
    · refine ⟨fun _ => nofail_append _ _ (nofail_append _ _
        (by simp [Ev.failedCore, Ev.coreErr]) (nofail_advance env mt _))
        (by simp [Ev.failedCore, Ev.coreErr]), ?_⟩
      intro ex h
      simp at h
    · refine ⟨by simp, ?_⟩
      intro ex h _
      simp only [Option.some.injEq] at h
      exact ⟨[], m, e, by simp, by simp, h.symm⟩
  · refine ⟨by simp, ?_⟩
    intro ex _
    exact absurd_fail _ _ (nofail_cons _ _ rfl (nofail_call _ _ _ _))
  · refine ⟨by simp, ?_⟩
    intro ex _
    exact absurd_fail _ _ (nofail_cons _ _ rfl (nofail_call _ _ _ _))

theorem exists_fail_append (a b : List Ev) (ha : ∀ ev ∈ a, ev.failedCore = false)
    (h : ∃ ev ∈ a ++ b, ev.failedCore = true) : ∃ ev ∈ b, ev.failedCore = true := by
  obtain ⟨ev, hev, hf⟩ := h
  rcases List.mem_append.1 hev with h | h
  · rw [ha ev h] at hf; exact absurd hf (by decide)
  · exact ⟨ev, h, hf⟩

theorem exists_fail_append_left (a b : List Ev) (hb : ∀ ev ∈ b, ev.failedCore = false)
    (h : ∃ ev ∈ a ++ b, ev.failedCore = true) : ∃ ev ∈ a, ev.failedCore = true := by
  obtain ⟨ev, hev, hf⟩ := h
  rcases List.mem_append.1 hev with h | h
  · exact ⟨ev, h, hf⟩
  · rw [hb ev h] at hf; exact absurd hf (by decide)

theorem process_loop_failsFast (r : processRunner σ) (env : Env σ μ) (p c : String)
    (script : List ProcStep) (s : σ) (mt : Option μ) :
    processFailsFast c [] (loopOver (r.body env p c) script s mt).trace
      (loopOver (r.body env p c) script s mt).exit := by
  apply loopOver_ind (r.body env p c) (fun a => ∀ ev ∈ a, ev.failedCore = false)
    (fun tr ex => processFailsFast c [] tr ex)
  · rintro ⟨ev, hev, _⟩; simp at hev
  · intro x s mt h; exact (process_body_failsFast r env p c x s mt).1 h
  · intro x s mt e h; exact (process_body_failsFast r env p c x s mt).2 e h
  · intro a b e ha hb hex
    obtain ⟨pre, m, out, e1, h1, h2, h3⟩ := hb (exists_fail_append a b ha hex)
    exact ⟨a ++ pre, m, out, e1, by rw [h1]; simp, nofail_append _ _ ha h2, h3⟩

theorem sink_loop_failsFast (r : sinkRunner σ) (env : Env σ μ) (p c : String)
    (script : List Recv) (s : σ) (mt : Option μ) :
    sinkFailsFast c [] (loopOver (r.body env p c) script s mt).trace
      (loopOver (r.body env p c) script s mt).exit := by
  apply loopOver_ind (r.body env p c) (fun a => ∀ ev ∈ a, ev.failedCore = false)
    (fun tr ex => sinkFailsFast c [] tr ex)
  · rintro ⟨ev, hev, _⟩; simp at hev
  · intro x s mt h; exact (sink_body_failsFast r env p c x s mt).1 h
  · intro x s mt e h; exact (sink_body_failsFast r env p c x s mt).2 e h
  · intro a b e ha hb hex
    obtain ⟨pre, m, e1, h1, h2, h3⟩ := hb (exists_fail_append a b ha hex)
    exact ⟨a ++ pre, m, e1, by rw [h1]; simp, nofail_append _ _ ha h2, h3⟩

theorem process_run_failsFast (r : processRunner σ) (env : Env σ μ) (p c : String)
    (mt : Option μ) (script : List ProcStep) (s : σ) :
    processFailsFast c [Ev.closeErrc, Ev.closeOut] (r.run env p c mt script s).trace
      (r.run env p c mt script s).exit := by
  intro hex
  simp only [processRunner.run] at hex ⊢
  have hcl := plain_closes (loopOver (r.body env p c) script
    (call HookKind.reset r.reset p s).2 mt).exit
  have h1 := exists_fail_append_left _ _
    (fun ev h => failedCore_of_not_isCore ev (hcl.1 ev h)) hex
  have h2 := exists_fail_append _ _ (nofail_call _ _ _ _) h1
  obtain ⟨pre, m, out, e1, h3, h4, h5⟩ := process_loop_failsFast r env p c script _ mt h2
  refine ⟨(call HookKind.reset r.reset p s).1 ++ pre, m, out, e1, ?_,
    nofail_append _ _ (nofail_call _ _ _ _) h4, h5⟩
  rw [h5, h3]
  simp [closes]

theorem sink_run_failsFast (r : sinkRunner σ) (env : Env σ μ) (p c : String)
    (mt : Option μ) (script : List Recv) (s : σ) :
    sinkFailsFast c [Ev.closeErrc] (r.run env p c mt script s).trace
      (r.run env p c mt script s).exit := by
  intro hex
  simp only [sinkRunner.run] at hex ⊢
  have hcl := plain_closeErr (loopOver (r.body env p c) script
    (call HookKind.reset r.reset p s).2 mt).exit
  have h1 := exists_fail_append_left _ _
    (fun ev h => failedCore_of_not_isCore ev (hcl.1 ev h)) hex
  have h2 := exists_fail_append _ _ (nofail_call _ _ _ _) h1
  obtain ⟨pre, m, e1, h3, h4, h5⟩ := sink_loop_failsFast r env p c script _ mt h2
  refine ⟨(call HookKind.reset r.reset p s).1 ++ pre, m, e1, ?_,
    nofail_append _ _ (nofail_call _ _ _ _) h4, h5⟩
  rw [h5, h3]
  simp [closeErr]

theorem orderStep_neutral (c : String) (q : Phase) (ev : Ev) (h : ev.neutral = true) :
    orderStep c q ev = some q := by
  cases ev <;> simp [Ev.neutral] at h <;> cases q <;> rfl

theorem orderRun_append (c : String) (a b : List Ev) :
    ∀ q, orderRun c q (a ++ b) = (orderRun c q a).bind (fun q1 => orderRun c q1 b) := by
  induction a with
  | nil => intro q; simp [orderRun]
  | cons x a ih =>
    intro q
    simp only [List.cons_append, orderRun]
    cases orderStep c q x with
    | none => rfl
    | some q1 => exact ih q1

theorem orderRun_neutral (c : String) (a : List Ev) (h : ∀ ev ∈ a, ev.neutral = true) :
    ∀ q, orderRun c q a = some q := by
  induction a with
  | nil => intro q; rfl
  | cons x a ih =>
    intro q
    simp only [orderRun, orderStep_neutral c q x (h x (List.mem_cons_self _ _))]
    exact ih (fun ev hev => h ev (List.mem_cons_of_mem _ hev)) q

theorem neutral_call (k : HookKind) (fn : Option (hook σ)) (p : String) (s : σ) :
    ∀ ev ∈ (call k fn p s).1, ev.neutral = true := by
  cases fn with
  | none => simp [call]
  | some f =>
    simp only [call]
    rcases h : f p s with ⟨_ | e, s1⟩ <;> simp [Ev.neutral]

theorem neutral_advance (env : Env σ μ) (mt : Option μ) (n : Nat) :
    ∀ ev ∈ (advance env mt n).1, ev.neutral = true := by
  cases mt <;> simp [advance, Ev.neutral]

theorem neutral_closes (e : Exit) : ∀ ev ∈ closes e, ev.neutral = true := by
  unfold closes; split <;> simp [Ev.neutral]

theorem neutral_closeErr (e : Exit) : ∀ ev ∈ closeErr e, ev.neutral = true := by
  unfold closeErr; split <;> simp [Ev.neutral]

theorem neutral_handle (r : pumpRunner σ) (p : String) (err : Option Err) (s : σ) :
    ∀ ev ∈ (r.handle p err s).1, ev.neutral = true := by
  rcases err with _ | _ | _ | n
  · simp [pumpRunner.handle]
  · simp only [pumpRunner.handle]; exact neutral_call _ _ _ _
  · simp only [pumpRunner.handle]; exact neutral_call _ _ _ _
  · simp [pumpRunner.handle, Ev.neutral]

theorem orderRun_cons_neutral (c : String) (q : Phase) (x : Ev) (a : List Ev)
    (h : x.neutral = true) : orderRun c q (x :: a) = orderRun c q a := by
  simp only [orderRun, orderStep_neutral c q x h]

theorem orderRun_append_neutral (c : String) (q : Phase) (a b : List Ev)
    (h : ∀ ev ∈ a, ev.neutral = true) : orderRun c q (a ++ b) = orderRun c q b := by
  rw [orderRun_append, orderRun_neutral c a h q]; rfl

theorem neutral_cons (x : Ev) (a : List Ev) (hx : x.neutral = true)
    (ha : ∀ ev ∈ a, ev.neutral = true) : ∀ ev ∈ x :: a, ev.neutral = true := by
  intro ev hev
  rcases List.mem_cons.1 hev with h | h
  · rw [h]; exact hx
  · exact ha ev h

theorem pump_body_ordered (r : pumpRunner σ) (env : Env σ μ) (bs : Int) (p c : String)
    (st : PumpStep) (s : σ) (mt : Option μ) (q : Phase) :
    ∃ q1, orderRun c q (r.body env bs p c st s mt).evs = some q1 := by
  unfold pumpRunner.body
  rcases st with ⟨pv, _ | m, sd⟩ <;> cases pv <;> dsimp only
  · exact ⟨q, orderRun_neutral c _ (neutral_cons _ _ (by rfl) (neutral_call _ _ _ _)) q⟩
  · exact ⟨q, orderRun_neutral c _
      (neutral_cons _ _ (by rfl) (neutral_cons _ _ (by rfl) (neutral_call _ _ _ _))) q⟩
  · exact ⟨q, orderRun_neutral c _ (neutral_cons _ _ (by rfl) (neutral_call _ _ _ _)) q⟩
  · generalize r.fn bs (applyThunks env (m.params.applyTo c).1 s) = res
    rcases res with ⟨⟨_ | b, err⟩, s2⟩ <;> dsimp only
    · refine ⟨Phase.cored m, ?_⟩
      rw [orderRun_append]
      simp only [orderRun, orderStep, and_self, if_true, Option.bind]
      exact orderRun_neutral c _ (neutral_handle r p err s2) _
    · cases sd <;> dsimp only
      · refine ⟨Phase.fed m, ?_⟩
        rw [orderRun_append, orderRun_append]
        simp only [orderRun, orderStep, and_self, if_true, Option.bind]
        rw [orderRun_neutral c _ (neutral_advance env mt _)]
        simp only [orderRun, orderStep, and_self, if_true]
        exact orderRun_neutral c _ (neutral_call _ _ _ _) _
      · refine ⟨Phase.idle, ?_⟩
        rw [orderRun_append, orderRun_append]
        simp only [orderRun, orderStep, and_self, if_true, Option.bind]
        rw [orderRun_neutral c _ (neutral_advance env mt _)]
        simp only [orderRun, orderStep, and_self, if_true]
        exact orderRun_neutral c _ (neutral_handle r p err _) _

theorem process_body_ordered (r : processRunner σ) (env : Env σ μ) (p c : String)
    (st : ProcStep) (s : σ) (mt : Option μ) (q : Phase) :
    ∃ q1, orderRun c q (r.body env p c st s mt).evs = some q1 := by
  unfold processRunner.body
  rcases st with ⟨_ | _ | _, sd⟩ <;> dsimp only
  · rename_i m
    generalize r.fn m.buffer (applyThunks env (m.params.applyTo c).1 s) = res
    rcases res with ⟨⟨b, _ | e⟩, s2⟩ <;> dsimp only
    · cases sd <;> dsimp only
      · refine ⟨Phase.fed m, ?_⟩
        rw [orderRun_append, orderRun_append]
        simp only [orderRun, orderStep, and_self, if_true, Option.bind]
        rw [orderRun_neutral c _ (neutral_advance env mt _)]
        simp only [orderRun, orderStep, and_self, if_true]
        exact orderRun_neutral c _ (neutral_call _ _ _ _) _
      · refine ⟨Phase.idle, ?_⟩
        rw [orderRun_append, orderRun_append]
        simp only [orderRun, orderStep, and_self, if_true, Option.bind]
        rw [orderRun_neutral c _ (neutral_advance env mt _)]
        simp only [orderRun, orderStep, and_self, if_true]
    · exact ⟨Phase.cored m, by simp [orderRun, orderStep]⟩
  · exact ⟨q, orderRun_neutral c _ (neutral_cons _ _ (by rfl) (neutral_call _ _ _ _)) q⟩
  · exact ⟨q, orderRun_neutral c _ (neutral_cons _ _ (by rfl) (neutral_call _ _ _ _)) q⟩

theorem sink_body_ordered (r : sinkRunner σ) (env : Env σ μ) (p c : String)
    (st : Recv) (s : σ) (mt : Option μ) (q : Phase) :
    ∃ q1, orderRun c q (r.body env p c st s mt).evs = some q1 := by
  unfold sinkRunner.body
  rcases st with _ | _ | _ <;> dsimp only
  · rename_i m
    generalize r.fn m.buffer (applyThunks env (m.params.applyTo c).1 s) = res
    rcases res with ⟨_ | e, s2⟩ <;> dsimp only
    · refine ⟨Phase.fed m, ?_⟩
      rw [orderRun_append, orderRun_append]
      simp only [orderRun, orderStep, and_self, if_true, Option.bind]
      rw [orderRun_neutral c _ (neutral_advance env mt _)]
      simp only [orderRun, orderStep, and_self, if_true]
    · exact ⟨Phase.cored m, by simp [orderRun, orderStep]⟩
  · exact ⟨q, orderRun_neutral c _ (neutral_cons _ _ (by rfl) (neutral_call _ _ _ _)) q⟩
  · exact ⟨q, orderRun_neutral c _ (neutral_cons _ _ (by rfl) (neutral_call _ _ _ _)) q⟩

theorem ordered_loop {α : Type} (body : α → σ → Option μ → Iter σ μ) (c : String)
    (hbody : ∀ x s mt q, ∃ q1, orderRun c q (body x s mt).evs = some q1) :
    ∀ xs s mt q, ∃ q1, orderRun c q (loopOver body xs s mt).trace = some q1 := by
  intro xs s mt
  apply loopOver_ind body (fun a => ∀ q, ∃ q1, orderRun c q a = some q1)
    (fun tr _ => ∀ q, ∃ q1, orderRun c q tr = some q1)
  · intro q; exact ⟨q, rfl⟩
  · intro x s mt _; exact hbody x s mt
  · intro x s mt _ _; exact hbody x s mt
  · intro a b _ ha hb q
    obtain ⟨q1, h1⟩ := ha q
    obtain ⟨q2, h2⟩ := hb q1
    exact ⟨q2, by rw [orderRun_append, h1]; exact h2⟩

theorem ordered_run (c : String) (a tr cl : List Ev) (ha : ∀ ev ∈ a, ev.neutral = true)
    (hcl : ∀ ev ∈ cl, ev.neutral = true) (h : ∀ q, ∃ q1, orderRun c q tr = some q1) :
    ordered c (a ++ tr ++ cl) = true := by
  obtain ⟨q1, h1⟩ := h Phase.idle
  simp only [ordered]
  rw [List.append_assoc, orderRun_append_neutral c _ _ _ ha, orderRun_append, h1]
  simp only [Option.bind]
  rw [orderRun_neutral c _ hcl]
  rfl

theorem received_append (a b : List Ev) : received (a ++ b) = received a ++ received b := by
  simp [received]

theorem sent_append (a b : List Ev) : sent (a ++ b) = sent a ++ sent b := by
  simp [sent]

theorem received_neutral (a : List Ev) (h : ∀ ev ∈ a, ev.neutral = true) : received a = [] := by
  induction a with
  | nil => rfl
  | cons x a ih =>
    have hx := h x (List.mem_cons_self _ _)
    have ha := ih (fun ev hev => h ev (List.mem_cons_of_mem _ hev))
    cases x <;> simp [Ev.neutral] at hx <;> simpa [received] using ha

theorem sent_neutral (a : List Ev) (h : ∀ ev ∈ a, ev.neutral = true) : sent a = [] := by
  induction a with
  | nil => rfl
  | cons x a ih =>
    have hx := h x (List.mem_cons_self _ _)
    have ha := ih (fun ev hev => h ev (List.mem_cons_of_mem _ hev))
    cases x <;> simp [Ev.neutral] at hx <;> simpa [sent] using ha

theorem received_cons (x : Ev) (a : List Ev) :
    received (x :: a) = (match x with
      | Ev.consume m => [m]
      | _ => []) ++ received a := by
  cases x <;> simp [received]

theorem sent_cons (x : Ev) (a : List Ev) :
    sent (x :: a) = (match x with
      | Ev.send m => [m]
      | _ => []) ++ sent a := by
  cases x <;> simp [sent]

theorem received_nil : received [] = [] := rfl

theorem sent_nil : sent [] = [] := rfl

theorem received_call (k : HookKind) (fn : Option (hook σ)) (p : String) (s : σ) :
    received (call k fn p s).1 = [] :=
  received_neutral _ (neutral_call k fn p s)

theorem sent_call (k : HookKind) (fn : Option (hook σ)) (p : String) (s : σ) :
    sent (call k fn p s).1 = [] :=
  sent_neutral _ (neutral_call k fn p s)

theorem received_advance (env : Env σ μ) (mt : Option μ) (n : Nat) :
    received (advance env mt n).1 = [] :=
  received_neutral _ (neutral_advance env mt n)

theorem sent_advance (env : Env σ μ) (mt : Option μ) (n : Nat) :
    sent (advance env mt n).1 = [] :=
  sent_neutral _ (neutral_advance env mt n)

/-- The processor loop sends the core images of a prefix of what it received,
which is a prefix of what upstream offers. -/
theorem process_loop_fifo (r : processRunner σ) (env : Env σ μ) (p c : String)
    (script : List ProcStep) :
    ∀ (s : σ) (mt : Option μ), ∃ k n, k ≤ n ∧ n ≤ (inputs script).length ∧
      received (loopOver (r.body env p c) script s mt).trace = (inputs script).take n ∧
      sent (loopOver (r.body env p c) script s mt).trace
        = r.mapCore env c ((inputs script).take k) s ∧
      ((Ev.cancel ∉ (loopOver (r.body env p c) script s mt).trace ∧
        ∀ ev ∈ (loopOver (r.body env p c) script s mt).trace, ev.failedCore = false) →
        k = n) := by
  induction script with
  | nil =>
    intro s mt
    exact ⟨0, 0, Nat.le_refl _, Nat.zero_le _, rfl, rfl, fun _ => rfl⟩
  | cons st rest ih =>
    intro s mt
    rcases st with ⟨_ | _ | _, sd⟩
    · rename_i m
      cases herr : (r.fn m.buffer (applyThunks env (m.params.applyTo c).1 s)).1.2 with
      | some e =>
        refine ⟨0, 1, Nat.zero_le _, by simp [inputs], ?_, ?_, ?_⟩
        · simp [loopOver, processRunner.body, herr, received_cons, received_nil, inputs]
        · simp [loopOver, processRunner.body, herr, sent_cons, sent_nil, processRunner.mapCore]
        · rintro ⟨_, hn⟩
          have := hn (Ev.process m.buffer
            (r.fn m.buffer (applyThunks env (m.params.applyTo c).1 s)).1.1 (some e))
            (by simp [loopOver, processRunner.body, herr])
          simp [Ev.failedCore, Ev.coreErr] at this
      | none =>
        cases sd
        · refine ⟨0, 1, Nat.zero_le _, by simp [inputs], ?_, ?_, ?_⟩
          · simp [loopOver, processRunner.body, herr, received_append, received_cons,
              received_nil, received_advance, received_call, inputs]
          · simp [loopOver, processRunner.body, herr, sent_append, sent_cons, sent_nil,
              sent_advance, sent_call, processRunner.mapCore]
          · rintro ⟨hc, _⟩
            exact absurd (by simp [loopOver, processRunner.body, herr]) hc
        · obtain ⟨k, n, h1, h2, h3, h4, h5⟩ := ih
            (applyThunks env (m.feedback.applyTo c).1
              (r.fn m.buffer (applyThunks env (m.params.applyTo c).1 s)).2)
            (advance env mt (Size (r.fn m.buffer
              (applyThunks env (m.params.applyTo c).1 s)).1.1)).2
          refine ⟨k + 1, n + 1, Nat.succ_le_succ h1, by simpa [inputs] using h2, ?_, ?_, ?_⟩
          · simp [loopOver, processRunner.body, herr, received_append, received_cons,
              received_nil, received_advance, h3, inputs]
          · simp [loopOver, processRunner.body, herr, sent_append, sent_cons, sent_nil,
              sent_advance, h4, inputs, processRunner.mapCore, processRunner.apply]
          · rintro ⟨hc, hn⟩
            simp only [loopOver, processRunner.body, herr] at hc hn
            rw [h5 ⟨fun x => hc (List.mem_append_right _ x),
              fun ev hev => hn ev (List.mem_append_right _ hev)⟩]
    · refine ⟨0, 0, Nat.le_refl _, Nat.zero_le _, ?_, ?_, fun _ => rfl⟩
      · simp [loopOver, processRunner.body, received_cons, received_call]
      · simp [loopOver, processRunner.body, sent_cons, sent_call, processRunner.mapCore]
    · refine ⟨0, 0, Nat.le_refl _, Nat.zero_le _, ?_, ?_, fun _ => rfl⟩
      · simp [loopOver, processRunner.body, received_cons, received_call]
      · simp [loopOver, processRunner.body, sent_cons, sent_call, processRunner.mapCore]

theorem upstream_cons (m : message) (ms : List message) :
    upstream (m :: ms) = ⟨Recv.msg m, true⟩ :: upstream ms := by
  simp [upstream]

/-- On a finite upstream that is then closed, with no cancel, a processor whose
core never fails receives and sends everything and exits on stream end. -/
theorem process_loop_upstream (r : processRunner σ) (env : Env σ μ) (p c : String)
    (msgs : List message) :
    ∀ (s : σ) (mt : Option μ),
      (∀ ev ∈ (loopOver (r.body env p c) (upstream msgs) s mt).trace, ev.failedCore = false) →
      received (loopOver (r.body env p c) (upstream msgs) s mt).trace = msgs ∧
      sent (loopOver (r.body env p c) (upstream msgs) s mt).trace = r.mapCore env c msgs s ∧
      (loopOver (r.body env p c) (upstream msgs) s mt).exit = Exit.streamEnd := by
  induction msgs with
  | nil =>
    intro s mt _
    simp [upstream, loopOver, processRunner.body, received_cons, received_call, sent_cons,
      sent_call, processRunner.mapCore]
  | cons m ms ih =>
    intro s mt hn
    rw [upstream_cons] at hn ⊢
    cases herr : (r.fn m.buffer (applyThunks env (m.params.applyTo c).1 s)).1.2 with
    | some e =>
      have := hn (Ev.process m.buffer
        (r.fn m.buffer (applyThunks env (m.params.applyTo c).1 s)).1.1 (some e))
        (by simp [loopOver, processRunner.body, herr])
      simp [Ev.failedCore, Ev.coreErr] at this
    | none =>
      simp only [loopOver, processRunner.body, herr] at hn ⊢
      obtain ⟨h1, h2, h3⟩ := ih _ _ (fun ev hev => hn ev (List.mem_append_right _ hev))
      refine ⟨?_, ?_, h3⟩
      · simp [received_append, received_cons, received_nil, received_advance, h1]
      · simp [sent_append, sent_cons, sent_nil, sent_advance, h2, processRunner.mapCore,
          processRunner.apply]

theorem mapCore_length (r : processRunner σ) (env : Env σ μ) (c : String)
    (msgs : List message) : ∀ s, (r.mapCore env c msgs s).length = msgs.length := by
  induction msgs with
  | nil => intro s; rfl
  | cons m ms ih => intro s; simp [processRunner.mapCore, ih]

theorem process_run_received (r : processRunner σ) (env : Env σ μ) (p c : String)
    (mt : Option μ) (script : List ProcStep) (s : σ) :
    received (r.run env p c mt script s).trace
      = received (loopOver (r.body env p c) script (call HookKind.reset r.reset p s).2 mt).trace ∧
    sent (r.run env p c mt script s).trace
      = sent (loopOver (r.body env p c) script (call HookKind.reset r.reset p s).2 mt).trace := by
  simp [processRunner.run, received_append, sent_append, received_call, sent_call,
    received_neutral _ (neutral_closes _), sent_neutral _ (neutral_closes _)]

theorem published_cons (x : Ev) (a : List Ev) :
    published (x :: a) = (match x with
      | Ev.err _ e => [e]
      | _ => []) ++ published a := by
  cases x <;> simp [published]

theorem published_nil : published [] = [] := rfl

theorem sent_handle (r : pumpRunner σ) (p : String) (err : Option Err) (s : σ) :
    sent (r.handle p err s).1 = [] :=
  sent_neutral _ (neutral_handle r p err s)

/-- The first event of a pump iteration is the outcome of its provide select. -/
theorem pump_body_head (r : pumpRunner σ) (env : Env σ μ) (bs : Int) (p c : String)
    (st : PumpStep) (s : σ) (mt : Option μ) :
    ∃ tl, (r.body env bs p c st s mt).evs
      = (if st.provide = true then Ev.provide p else Ev.cancel) :: tl := by
  unfold pumpRunner.body
  rcases st with ⟨pv, _ | m, sd⟩ <;> cases pv <;> dsimp only
  · exact ⟨_, rfl⟩
  · exact ⟨_, rfl⟩
  · exact ⟨_, rfl⟩
  · generalize r.fn bs (applyThunks env (m.params.applyTo c).1 s) = res
    rcases res with ⟨⟨_ | b, err⟩, s2⟩ <;> dsimp only
    · exact ⟨_, rfl⟩
    · cases sd <;> exact ⟨_, rfl⟩

/-- The trace of a loop starts with the events of its first iteration. -/
theorem loopOver_cons_trace {α : Type} (body : α → σ → Option μ → Iter σ μ) (x : α)
    (xs : List α) (s : σ) (mt : Option μ) :
    ∃ tl, (loopOver body (x :: xs) s mt).trace = (body x s mt).evs ++ tl := by
  simp only [loopOver]
  cases (body x s mt).exit with
  | some e => exact ⟨[], by simp⟩
  | none => exact ⟨_, rfl⟩

theorem loopOver_cons_continue {α : Type} (body : α → σ → Option μ → Iter σ μ) (x : α)
    (xs : List α) (s : σ) (mt : Option μ) (h : (body x s mt).exit = none) :
    (loopOver body (x :: xs) s mt).trace
      = (body x s mt).evs ++ (loopOver body xs (body x s mt).comp (body x s mt).meter).trace := by
  simp only [loopOver, h]

theorem hush_append (a b : List Ev) : hush (a ++ b) = hush a ++ hush b := by
  simp [hush]

theorem hush_cons (x : Ev) (a : List Ev) :
    hush (x :: a) = (match x with
      | Ev.err true _ => []
      | Ev.hook k p _ => [Ev.hook k p none]
      | y => [y]) ++ hush a := by
  cases x <;> simp [hush]
  rename_i b e
  cases b <;> simp

theorem hush_nil : hush [] = [] := rfl

theorem hush_call (k : HookKind) (fn : Option (hook σ)) (p : String) (s : σ) :
    hush (call k fn p s).1 = (call k (fn.map hook.quiet) p s).1 ∧
      (call k fn p s).2 = (call k (fn.map hook.quiet) p s).2 := by
  cases fn with
  | none => simp [call, hush_nil]
  | some f =>
    simp only [call, Option.map, hook.quiet]
    rcases h : f p s with ⟨_ | e, s1⟩ <;> simp [hush_cons, hush_nil]

theorem hush_advance (env : Env σ μ) (mt : Option μ) (n : Nat) :
    hush (advance env mt n).1 = (advance env mt n).1 := by
  cases mt <;> simp [advance, hush_cons, hush_nil]

theorem hush_closes (e : Exit) : hush (closes e) = closes e := by
  unfold closes; split <;> simp [hush_cons, hush_nil]

theorem hush_closeErr (e : Exit) : hush (closeErr e) = closeErr e := by
  unfold closeErr; split <;> simp [hush_cons, hush_nil]

theorem hush_handle (r : pumpRunner σ) (p : String) (err : Option Err) (s : σ) :
    hush (r.handle p err s).1 = (r.quiet.handle p err s).1 ∧
      (r.handle p err s).2 = (r.quiet.handle p err s).2 := by
  have h := hush_call HookKind.flush r.flush p s
  rcases err with _ | _ | _ | n
  · simp [pumpRunner.handle, hush_nil]
  · simp only [pumpRunner.handle, pumpRunner.quiet]
    exact ⟨h.1, by rw [h.2]⟩
  · simp only [pumpRunner.handle, pumpRunner.quiet]
    exact ⟨h.1, by rw [h.2]⟩
  · simp [pumpRunner.handle, hush_cons, hush_nil]

/-- What relates an iteration to the same iteration with hooks that never
fail. -/
theorem hushed_loop {α : Type} (b1 b2 : α → σ → Option μ → Iter σ μ)
    (hb : ∀ x s mt, hush (b1 x s mt).evs = (b2 x s mt).evs ∧ (b1 x s mt).exit = (b2 x s mt).exit
      ∧ (b1 x s mt).comp = (b2 x s mt).comp ∧ (b1 x s mt).meter = (b2 x s mt).meter) :
    ∀ xs s mt, sameButHushed (loopOver b1 xs s mt) (loopOver b2 xs s mt) := by
  intro xs
  induction xs with
  | nil => intro s mt; exact ⟨rfl, rfl, rfl, rfl⟩
  | cons x xs ih =>
    intro s mt
    obtain ⟨h1, h2, h3, h4⟩ := hb x s mt
    simp only [loopOver, ← h2]
    cases (b1 x s mt).exit with
    | some e => exact ⟨h1, rfl, h3, h4⟩
    | none =>
      obtain ⟨i1, i2, i3, i4⟩ := ih (b1 x s mt).comp (b1 x s mt).meter
      rw [← h3, ← h4]
      exact ⟨by simp only [hush_append, h1, i1], i2, i3, i4⟩

theorem pump_body_hushed (r : pumpRunner σ) (env : Env σ μ) (bs : Int) (p c : String)
    (st : PumpStep) (s : σ) (mt : Option μ) :
    hush (r.body env bs p c st s mt).evs = (r.quiet.body env bs p c st s mt).evs ∧
      (r.body env bs p c st s mt).exit = (r.quiet.body env bs p c st s mt).exit ∧
      (r.body env bs p c st s mt).comp = (r.quiet.body env bs p c st s mt).comp ∧
      (r.body env bs p c st s mt).meter = (r.quiet.body env bs p c st s mt).meter := by
  have hfn : r.quiet.fn = r.fn := rfl
  have hi : r.quiet.interrupt = r.interrupt.map hook.quiet := rfl
  unfold pumpRunner.body
  rw [hfn, hi]
  rcases st with ⟨pv, _ | m, sd⟩ <;> cases pv <;> dsimp only
  · have h := hush_call HookKind.interrupt r.interrupt p s
    simp [hush_cons, h.1, h.2]
  · have h := hush_call HookKind.interrupt r.interrupt p s
    simp [hush_cons, h.1, h.2]
  · have h := hush_call HookKind.interrupt r.interrupt p s
    simp [hush_cons, h.1, h.2]
  · generalize r.fn bs (applyThunks env (m.params.applyTo c).1 s) = res
    rcases res with ⟨⟨_ | b, err⟩, s2⟩ <;> dsimp only
    · have h := hush_handle r p err s2
      simp [hush_append, hush_cons, hush_nil, h.1, h.2]
    · cases sd <;> dsimp only
      · have h := hush_call HookKind.interrupt r.interrupt p
          (applyThunks env (m.feedback.applyTo c).1 s2)
        simp [hush_append, hush_cons, hush_nil, hush_advance, h.1, h.2]
      · have h := hush_handle r p err (applyThunks env (m.feedback.applyTo c).1 s2)
        simp [hush_append, hush_cons, hush_nil, hush_advance, h.1, h.2]

theorem process_body_hushed (r : processRunner σ) (env : Env σ μ) (p c : String)
    (st : ProcStep) (s : σ) (mt : Option μ) :
    hush (r.body env p c st s mt).evs = (r.quiet.body env p c st s mt).evs ∧
      (r.body env p c st s mt).exit = (r.quiet.body env p c st s mt).exit ∧
      (r.body env p c st s mt).comp = (r.quiet.body env p c st s mt).comp ∧
      (r.body env p c st s mt).meter = (r.quiet.body env p c st s mt).meter := by
  have hfn : r.quiet.fn = r.fn := rfl
  have hi : r.quiet.interrupt = r.interrupt.map hook.quiet := rfl
  have hf : r.quiet.flush = r.flush.map hook.quiet := rfl
  unfold processRunner.body
  rw [hfn, hi, hf]
  rcases st with ⟨_ | _ | _, sd⟩ <;> dsimp only
  · rename_i m
    generalize r.fn m.buffer (applyThunks env (m.params.applyTo c).1 s) = res
    rcases res with ⟨⟨b, _ | e⟩, s2⟩ <;> dsimp only
    · cases sd <;> dsimp only
      · have h := hush_call HookKind.interrupt r.interrupt p
          (applyThunks env (m.feedback.applyTo c).1 s2)
        simp [hush_append, hush_cons, hush_nil, hush_advance, h.1, h.2]
      · simp [hush_append, hush_cons, hush_nil, hush_advance]
    · simp [hush_cons, hush_nil]
  · have h := hush_call HookKind.flush r.flush p s
    simp [hush_cons, h.1, h.2]
  · have h := hush_call HookKind.interrupt r.interrupt p s
    simp [hush_cons, h.1, h.2]

theorem sink_body_hushed (r : sinkRunner σ) (env : Env σ μ) (p c : String)
    (st : Recv) (s : σ) (mt : Option μ) :
    hush (r.body env p c st s mt).evs = (r.quiet.body env p c st s mt).evs ∧
      (r.body env p c st s mt).exit = (r.quiet.body env p c st s mt).exit ∧
      (r.body env p c st s mt).comp = (r.quiet.body env p c st s mt).comp ∧
      (r.body env p c st s mt).meter = (r.quiet.body env p c st s mt).meter := by
  have hfn : r.quiet.fn = r.fn := rfl
  have hi : r.quiet.interrupt = r.interrupt.map hook.quiet := rfl
  have hf : r.quiet.flush = r.flush.map hook.quiet := rfl
  unfold sinkRunner.body
  rw [hfn, hi, hf]
  rcases st with _ | _ | _ <;> dsimp only
  · rename_i m
    generalize r.fn m.buffer (applyThunks env (m.params.applyTo c).1 s) = res
    rcases res with ⟨_ | e, s2⟩ <;> dsimp only
    · simp [hush_append, hush_cons, hush_nil, hush_advance]
    · simp [hush_cons, hush_nil]
  · have h := hush_call HookKind.flush r.flush p s
    simp [hush_cons, h.1, h.2]
  · have h := hush_call HookKind.interrupt r.interrupt p s
    simp [hush_cons, h.1, h.2]

/-- A run is the same but hushed as the run with hooks that never fail, given
that of the loops. -/
theorem hushed_run (R : Option (hook σ)) (p : String) (s : σ) (cl : Exit → List Ev)
    (hcl : ∀ e, hush (cl e) = cl e)
    (l1 l2 : σ → Outcome σ μ) (h : ∀ s1, sameButHushed (l1 s1) (l2 s1)) :
    sameButHushed
      (⟨(call HookKind.reset R p s).1 ++ (l1 (call HookKind.reset R p s).2).trace
          ++ cl (l1 (call HookKind.reset R p s).2).exit,
        (l1 (call HookKind.reset R p s).2).exit, (l1 (call HookKind.reset R p s).2).comp,
        (l1 (call HookKind.reset R p s).2).meter⟩ : Outcome σ μ)
      ⟨(call HookKind.reset (R.map hook.quiet) p s).1
          ++ (l2 (call HookKind.reset (R.map hook.quiet) p s).2).trace
          ++ cl (l2 (call HookKind.reset (R.map hook.quiet) p s).2).exit,
        (l2 (call HookKind.reset (R.map hook.quiet) p s).2).exit,
        (l2 (call HookKind.reset (R.map hook.quiet) p s).2).comp,
        (l2 (call HookKind.reset (R.map hook.quiet) p s).2).meter⟩ := by
  have hc := hush_call HookKind.reset R p s
  rw [← hc.2]
  obtain ⟨h1, h2, h3, h4⟩ := h (call HookKind.reset R p s).2
  refine ⟨?_, h2, h3, h4⟩
  simp only [hush_append, hc.1, h1, hcl, h2]

theorem pbc_append (a b : List Ev) :
    publishedByCall (a ++ b) = publishedByCall a ++ publishedByCall b := by
  simp [publishedByCall]

theorem pbc_cons (x : Ev) (a : List Ev) :
    publishedByCall (x :: a) = (match x with
      | Ev.err true e => [e]
      | _ => []) ++ publishedByCall a := by
  cases x <;> simp [publishedByCall]
  rename_i b e
  cases b <;> simp

theorem hookFailures_cons (x : Ev) (a : List Ev) :
    hookFailures (x :: a) = (match x with
      | Ev.hook _ _ (some e) => [e]
      | _ => []) ++ hookFailures a := by
  cases x <;> simp [hookFailures]
  rename_i k p res
  cases res <;> simp

theorem pbc_call (k : HookKind) (fn : Option (hook σ)) (p : String) (s : σ) :
    publishedByCall (call k fn p s).1 = hookFailures (call k fn p s).1 := by
  cases fn with
  | none => simp [call, publishedByCall, hookFailures]
  | some f =>
    simp only [call]
    rcases h : f p s with ⟨_ | e, s1⟩ <;> simp [publishedByCall, hookFailures]

theorem pbc_nil : publishedByCall [] = [] := rfl

theorem hookFailures_nil : hookFailures [] = [] := rfl

theorem pbc_advance (env : Env σ μ) (mt : Option μ) (n : Nat) :
    publishedByCall (advance env mt n).1 = [] := by
  cases mt <;> simp [advance, publishedByCall]

theorem hookFailures_advance (env : Env σ μ) (mt : Option μ) (n : Nat) :
    hookFailures (advance env mt n).1 = [] := by
  cases mt <;> simp [advance, hookFailures]

theorem pbc_handle (r : pumpRunner σ) (p : String) (err : Option Err) (s : σ) :
    publishedByCall (r.handle p err s).1 = hookFailures (r.handle p err s).1 := by
  rcases err with _ | _ | _ | n
  · simp [pumpRunner.handle, publishedByCall, hookFailures]
  · simp only [pumpRunner.handle]; exact pbc_call _ _ _ _
  · simp only [pumpRunner.handle]; exact pbc_call _ _ _ _
  · simp [pumpRunner.handle, publishedByCall, hookFailures]

theorem pump_body_pbc (r : pumpRunner σ) (env : Env σ μ) (bs : Int) (p c : String)
    (st : PumpStep) (s : σ) (mt : Option μ) :
    publishedByCall (r.body env bs p c st s mt).evs
      = hookFailures (r.body env bs p c st s mt).evs := by
  unfold pumpRunner.body
  rcases st with ⟨pv, _ | m, sd⟩ <;> cases pv <;> dsimp only
  all_goals try (simp [pbc_cons, hookFailures_cons, pbc_call]; done)
  generalize r.fn bs (applyThunks env (m.params.applyTo c).1 s) = res
  rcases res with ⟨⟨_ | b, err⟩, s2⟩ <;> dsimp only
  · simp [pbc_append, hookFailures_append, pbc_cons, hookFailures_cons, pbc_handle,
      pbc_nil, hookFailures_nil]
  · cases sd <;> dsimp only <;>
      simp [pbc_append, hookFailures_append, pbc_cons, hookFailures_cons, pbc_handle,
        pbc_call, pbc_advance, hookFailures_advance, pbc_nil, hookFailures_nil]

theorem process_body_pbc (r : processRunner σ) (env : Env σ μ) (p c : String)
    (st : ProcStep) (s : σ) (mt : Option μ) :
    publishedByCall (r.body env p c st s mt).evs = hookFailures (r.body env p c st s mt).evs := by
  unfold processRunner.body
  rcases st with ⟨_ | _ | _, sd⟩ <;> dsimp only
  all_goals try (simp [pbc_cons, hookFailures_cons, pbc_call]; done)
  rename_i m
  generalize r.fn m.buffer (applyThunks env (m.params.applyTo c).1 s) = res
  rcases res with ⟨⟨b, _ | e⟩, s2⟩ <;> dsimp only
  · cases sd <;> dsimp only <;>
      simp [pbc_append, hookFailures_append, pbc_cons, hookFailures_cons, pbc_call,
        pbc_advance, hookFailures_advance, pbc_nil, hookFailures_nil]
  · simp [pbc_cons, hookFailures_cons, pbc_nil, hookFailures_nil]

theorem sink_body_pbc (r : sinkRunner σ) (env : Env σ μ) (p c : String)
    (st : Recv) (s : σ) (mt : Option μ) :
    publishedByCall (r.body env p c st s mt).evs = hookFailures (r.body env p c st s mt).evs := by
  unfold sinkRunner.body
  rcases st with _ | _ | _ <;> dsimp only
  all_goals try (simp [pbc_cons, hookFailures_cons, pbc_call]; done)
  rename_i m
  generalize r.fn m.buffer (applyThunks env (m.params.applyTo c).1 s) = res
  rcases res with ⟨_ | e, s2⟩ <;> dsimp only
  · simp [pbc_append, hookFailures_append, pbc_cons, hookFailures_cons, pbc_advance,
      hookFailures_advance, pbc_nil, hookFailures_nil]
  · simp [pbc_cons, hookFailures_cons, pbc_nil, hookFailures_nil]

theorem pbc_loop {α : Type} (body : α → σ → Option μ → Iter σ μ)
    (hb : ∀ x s mt, publishedByCall (body x s mt).evs = hookFailures (body x s mt).evs) :
    ∀ xs s mt, publishedByCall (loopOver body xs s mt).trace
      = hookFailures (loopOver body xs s mt).trace := by
  intro xs s mt
  apply loopOver_ind body (fun a => publishedByCall a = hookFailures a)
    (fun tr _ => publishedByCall tr = hookFailures tr)
  · rfl
  · intro x s mt _; exact hb x s mt
  · intro x s mt _ _; exact hb x s mt
  · intro a b _ ha hb; rw [pbc_append, hookFailures_append, ha, hb]

theorem pbc_closes (e : Exit) : publishedByCall (closes e) = hookFailures (closes e) := by
  unfold closes; split <;> simp [publishedByCall, hookFailures]

theorem pbc_closeErr (e : Exit) : publishedByCall (closeErr e) = hookFailures (closeErr e) := by
  unfold closeErr; split <;> simp [publishedByCall, hookFailures]

theorem pbc_run (a tr cl : List Ev) (ha : publishedByCall a = hookFailures a)
    (ht : publishedByCall tr = hookFailures tr) (hcl : publishedByCall cl = hookFailures cl) :
    publishedByCall (a ++ tr ++ cl) = hookFailures (a ++ tr ++ cl) := by
  rw [pbc_append, pbc_append, hookFailures_append, hookFailures_append, ha, ht, hcl]

/-! ### Replay of a run on the component state -/

theorem applyThunks_eq_thunksInOrder (env : Env σ μ) (ts : List Nat) :
    ∀ s, applyThunks env ts s = thunksInOrder env ts s := by
  induction ts with
  | nil => intro s; rfl
  | cons t ts ih =>
    intro s
    simp only [thunksInOrder]
    exact ih _

theorem replay_append (env : Env σ μ) (h : hooks σ)
    (core : message → Ev → σ → Option (Buffer × σ)) (c : String) (a b : List Ev) :
    ∀ q s, replay env h core c q s (a ++ b) =
      (replay env h core c q s a).bind (fun x => replay env h core c x.1 x.2 b) := by
  induction a with
  | nil => intro q s; simp [replay]
  | cons x a ih =>
    intro q s
    simp only [List.cons_append, replay]
    cases replayStep env h core c q s x with
    | none => rfl
    | some y => exact ih y.1 y.2

theorem replay_append_of (env : Env σ μ) (h : hooks σ)
    (core : message → Ev → σ → Option (Buffer × σ)) (c : String) (a b : List Ev)
    (q q1 : Stage) (s s1 : σ) (ha : replay env h core c q s a = some (q1, s1)) :
    replay env h core c q s (a ++ b) = replay env h core c q1 s1 b := by
  rw [replay_append, ha]; rfl

theorem replay_call (env : Env σ μ) (h : hooks σ)
    (core : message → Ev → σ → Option (Buffer × σ)) (c : String) (k : HookKind)
    (p : String) (q : Stage) (s : σ) :
    replay env h core c q s (call k (h.get k) p s).1 = some (q, (call k (h.get k) p s).2) := by
  cases hk : h.get k with
  | none => simp [call, replay]
  | some f =>
    rcases hf : f p s with ⟨e, s1⟩
    cases e with
    | none => simp [call, hf, replay, replayStep, hk]
    | some e => simp [call, hf, replay, replayStep, hk]

theorem replay_advance (env : Env σ μ) (h : hooks σ)
    (core : message → Ev → σ → Option (Buffer × σ)) (c : String) (mt : Option μ) (n : Nat)
    (q : Stage) (s : σ) : replay env h core c q s (advance env mt n).1 = some (q, s) := by
  cases mt with
  | none => simp [advance, replay]
  | some x => simp [advance, replay, replayStep]

theorem replay_closes (env : Env σ μ) (h : hooks σ)
    (core : message → Ev → σ → Option (Buffer × σ)) (c : String) (e : Exit)
    (q : Stage) (s : σ) : replay env h core c q s (closes e) = some (q, s) := by
  unfold closes
  split <;> simp [replay, replayStep]

theorem replay_closeErr (env : Env σ μ) (h : hooks σ)
    (core : message → Ev → σ → Option (Buffer × σ)) (c : String) (e : Exit)
    (q : Stage) (s : σ) : replay env h core c q s (closeErr e) = some (q, s) := by
  unfold closeErr
  split <;> simp [replay, replayStep]

theorem replay_handle (r : pumpRunner σ) (env : Env σ μ)
    (core : message → Ev → σ → Option (Buffer × σ)) (c p : String) (err : Option Err)
    (q : Stage) (s : σ) :
    replay env r.tohooks core c q s (r.handle p err s).1 = some (q, (r.handle p err s).2.2) := by
  cases err with
  | none => simp [pumpRunner.handle, replay]
  | some e =>
    cases e with
    | EOF => exact replay_call env r.tohooks core c HookKind.flush p q s
    | ErrUnexpectedEOF => exact replay_call env r.tohooks core c HookKind.flush p q s
    | other n => simp [pumpRunner.handle, replay, replayStep]

theorem replay_loop {α : Type} (body : α → σ → Option μ → Iter σ μ) (env : Env σ μ)
    (h : hooks σ) (core : message → Ev → σ → Option (Buffer × σ)) (c : String)
    (hbody : ∀ x s mt q, ∃ q1, replay env h core c q s (body x s mt).evs =
      some (q1, (body x s mt).comp)) :
    ∀ xs s mt q, ∃ q1, replay env h core c q s (loopOver body xs s mt).trace =
      some (q1, (loopOver body xs s mt).comp) := by
  intro xs
  induction xs with
  | nil => intro s mt q; exact ⟨q, by simp [loopOver, replay]⟩
  | cons x xs ih =>
    intro s mt q
    obtain ⟨q1, h1⟩ := hbody x s mt q
    cases he : (body x s mt).exit with
    | some e => exact ⟨q1, by simpa [loopOver, he] using h1⟩
    | none =>
      obtain ⟨q2, h2⟩ := ih (body x s mt).comp (body x s mt).meter q1
      refine ⟨q2, ?_⟩
      simp only [loopOver, he]
      rw [replay_append_of env h core c _ _ q q1 s _ h1]
      exact h2

theorem replays_run (env : Env σ μ) (h : hooks σ)
    (core : message → Ev → σ → Option (Buffer × σ)) (c p : String) (s : σ)
    (o : Outcome σ μ) (cl : List Ev)
    (hcl : ∀ q s1, replay env h core c q s1 cl = some (q, s1))
    (ho : ∀ q, ∃ q1, replay env h core c q (call HookKind.reset (h.get HookKind.reset) p s).2
      o.trace = some (q1, o.comp)) :
    replays env h core c s ((call HookKind.reset (h.get HookKind.reset) p s).1 ++ o.trace ++ cl)
      o.comp := by
  obtain ⟨q1, h1⟩ := ho Stage.idle
  refine ⟨q1, ?_⟩
  rw [List.append_assoc,
    replay_append_of env h core c _ _ _ _ _ _ (replay_call env h core c HookKind.reset p Stage.idle s),
    replay_append_of env h core c _ _ _ _ _ _ h1]
  exact hcl q1 o.comp

theorem process_body_replay (r : processRunner σ) (env : Env σ μ) (p c : String)
    (st : ProcStep) (s : σ) (mt : Option μ) (q : Stage) :
    ∃ q1, replay env r.tohooks r.coreAt c q s (r.body env p c st s mt).evs =
      some (q1, (r.body env p c st s mt).comp) := by
  unfold processRunner.body
  rcases st with ⟨rc, sd⟩
  rcases rc with m | _ | _
  · dsimp only
    simp only [applyThunks_eq_thunksInOrder]
    rcases hres : r.fn m.buffer (thunksInOrder env (m.params.applyTo c).1 s) with ⟨⟨b, err⟩, s2⟩
    cases err with
    | some e =>
      exact ⟨Stage.cored m b, by
        simp [replay, replayStep, processRunner.coreAt, hres]⟩
    | none =>
      cases sd with
      | false =>
        refine ⟨Stage.fed m b, ?_⟩
        dsimp only
        rw [replay_append, replay_append]
        simp only [replay, replayStep, processRunner.coreAt, hres, and_self, if_true,
          Option.bind]
        rw [replay_advance]
        simp only [replay, replayStep, and_self, if_true]
        exact replay_call env r.tohooks r.coreAt c HookKind.interrupt p _ _
      | true =>
        refine ⟨Stage.idle, ?_⟩
        dsimp only
        rw [replay_append, replay_append]
        simp only [replay, replayStep, processRunner.coreAt, hres, and_self, if_true,
          Option.bind]
        rw [replay_advance]
        simp only [replay, replayStep, and_self, if_true]
  · exact ⟨q, by
      simpa [replay, replayStep] using replay_call env r.tohooks r.coreAt c HookKind.flush p q s⟩
  · exact ⟨q, by
      simpa [replay, replayStep] using
        replay_call env r.tohooks r.coreAt c HookKind.interrupt p q s⟩

theorem sink_body_replay (r : sinkRunner σ) (env : Env σ μ) (p c : String)
    (st : Recv) (s : σ) (mt : Option μ) (q : Stage) :
    ∃ q1, replay env r.tohooks r.coreAt c q s (r.body env p c st s mt).evs =
      some (q1, (r.body env p c st s mt).comp) := by
  unfold sinkRunner.body
  rcases st with m | _ | _
  · dsimp only
    simp only [applyThunks_eq_thunksInOrder]
    rcases hres : r.fn m.buffer (thunksInOrder env (m.params.applyTo c).1 s) with ⟨err, s2⟩
    cases err with
    | some e =>
      exact ⟨Stage.cored m m.buffer, by
        simp [replay, replayStep, sinkRunner.coreAt, hres]⟩
    | none =>
      refine ⟨Stage.fed m m.buffer, ?_⟩
      dsimp only
      rw [replay_append, replay_append]
      simp only [replay, replayStep, sinkRunner.coreAt, hres, and_self, if_true,
        Option.bind]
      rw [replay_advance]
      simp only [replay, replayStep, and_self, if_true]
  · exact ⟨q, by
      simpa [replay, replayStep] using replay_call env r.tohooks r.coreAt c HookKind.flush p q s⟩
  · exact ⟨q, by
      simpa [replay, replayStep] using
        replay_call env r.tohooks r.coreAt c HookKind.interrupt p q s⟩

theorem pump_body_replay (r : pumpRunner σ) (env : Env σ μ) (bs : Int) (p c : String)
    (st : PumpStep) (s : σ) (mt : Option μ) (q : Stage) :
    ∃ q1, replay env r.tohooks (r.coreAt bs) c q s (r.body env bs p c st s mt).evs =
      some (q1, (r.body env bs p c st s mt).comp) := by
  unfold pumpRunner.body
  rcases st with ⟨pv, cn, sd⟩
  cases pv with
  | false =>
    exact ⟨q, by
      simpa [replay, replayStep] using
        replay_call env r.tohooks (r.coreAt bs) c HookKind.interrupt p q s⟩
  | true =>
    cases cn with
    | none =>
      exact ⟨q, by
        simpa [replay, replayStep] using
          replay_call env r.tohooks (r.coreAt bs) c HookKind.interrupt p q s⟩
    | some m =>
      dsimp only
      simp only [applyThunks_eq_thunksInOrder]
      rcases hres : r.fn bs (thunksInOrder env (m.params.applyTo c).1 s) with ⟨⟨b, err⟩, s2⟩
      cases b with
      | none =>
        refine ⟨Stage.cored m none, ?_⟩
        dsimp only
        rw [replay_append]
        simp only [replay, replayStep, pumpRunner.coreAt, hres, and_self, if_true,
          Option.bind]
        exact replay_handle r env (r.coreAt bs) c p err _ _
      | some x =>
        cases sd with
        | false =>
          refine ⟨Stage.fed m (some x), ?_⟩
          dsimp only
          rw [replay_append, replay_append]
          simp only [replay, replayStep, pumpRunner.coreAt, hres, and_self, if_true,
            Option.bind]
          rw [replay_advance]
          simp only [replay, replayStep, and_self, if_true]
          exact replay_call env r.tohooks (r.coreAt bs) c HookKind.interrupt p _ _
        | true =>
          refine ⟨Stage.idle, ?_⟩
          dsimp only
          rw [replay_append, replay_append]
          simp only [replay, replayStep, pumpRunner.coreAt, hres, and_self, if_true,
            Option.bind]
          rw [replay_advance]
          simp only [replay, replayStep, and_self, if_true]
          exact replay_handle r env (r.coreAt bs) c p err _ _

theorem pump_run_replays (r : pumpRunner σ) (env : Env σ μ) (bs : Int) (p c : String)
    (mt : Option μ) (sp : List PumpStep) (s : σ) :
    replays env r.tohooks (r.coreAt bs) c s (r.run env bs p c mt sp s).trace
      (r.run env bs p c mt sp s).comp :=
  replays_run env r.tohooks (r.coreAt bs) c p s
    (loopOver (r.body env bs p c) sp (call HookKind.reset r.reset p s).2 mt) _
    (fun q s1 => replay_closes env r.tohooks (r.coreAt bs) c _ q s1)
    (fun q => replay_loop _ env r.tohooks (r.coreAt bs) c
      (pump_body_replay r env bs p c) sp _ mt q)

theorem process_run_replays (r : processRunner σ) (env : Env σ μ) (p c : String)
    (mt : Option μ) (sq : List ProcStep) (s : σ) :
    replays env r.tohooks r.coreAt c s (r.run env p c mt sq s).trace
      (r.run env p c mt sq s).comp :=
  replays_run env r.tohooks r.coreAt c p s
    (loopOver (r.body env p c) sq (call HookKind.reset r.reset p s).2 mt) _
    (fun q s1 => replay_closes env r.tohooks r.coreAt c _ q s1)
    (fun q => replay_loop _ env r.tohooks r.coreAt c
      (process_body_replay r env p c) sq _ mt q)

theorem sink_run_replays (r : sinkRunner σ) (env : Env σ μ) (p c : String)
    (mt : Option μ) (ss : List Recv) (s : σ) :
    replays env r.tohooks r.coreAt c s (r.run env p c mt ss s).trace
      (r.run env p c mt ss s).comp :=
  replays_run env r.tohooks r.coreAt c p s
    (loopOver (r.body env p c) ss (call HookKind.reset r.reset p s).2 mt) _
    (fun q s1 => replay_closeErr env r.tohooks r.coreAt c _ q s1)
    (fun q => replay_loop _ env r.tohooks r.coreAt c
      (sink_body_replay r env p c) ss _ mt q)

end Lemmas

/-! ## Lemmas on the Track mixer -/

section TrackLemmas

open track

theorem track_find_append (c : Placement → Bool) (a b : List Placement) :
    (a ++ b).find? c = (a.find? c).or (b.find? c) := by
  induction a with
  | nil => simp
  | cons x a ih =>
    simp only [List.cons_append, List.find?_cons]
    cases c x <;> simp [ih]

theorem track_find_single (q : Placement) (f : Nat) (g : Placement → Asset × Nat) :
    (([q] : List Placement).find? (fun r => r.covers f)).map g
      = if q.At ≤ f ∧ f < q.At + q.clip.Len then some (g q) else none := by
  by_cases h : q.At ≤ f ∧ f < q.At + q.clip.Len
  · have hc : q.covers f = true := by
      simp [Placement.covers, Placement.End, h.1, h.2]
    simp [List.find?_cons, hc, h]
  · have hc : q.covers f = false := by
      simp only [Placement.covers, Placement.End]
      rcases not_and_or.1 h with h1 | h1 <;> simp [h1]
    simp [List.find?_cons, hc, h]

theorem track_covers_iff (p : Placement) (f : Nat) :
    p.covers f = true ↔ p.At ≤ f ∧ f < p.At + p.clip.Len := by
  simp [Placement.covers, Placement.End]

/-- The remainders of a placement cover what it covered outside the new clip,
and read the same asset frame there. -/
theorem track_remainders_find (start len f : Nat) (p : Placement) :
    ((remainders start len p).find? (fun q => q.covers f)).map
        (fun q => (q.clip.asset, q.clip.Start + (f - q.At)))
      = if start ≤ f ∧ f < start + len then none
        else if p.covers f = true then some (p.clip.asset, p.clip.Start + (f - p.At))
        else none := by
  unfold remainders
  rw [track_find_append, Option.map_or']
  have hl : ((if p.At < start then
        [(⟨p.At, ⟨p.clip.asset, p.clip.Start, min p.End start - p.At⟩⟩ : Placement)]
      else []).find? (fun q => q.covers f)).map
        (fun q => (q.clip.asset, q.clip.Start + (f - q.At)))
      = if p.At ≤ f ∧ f < p.End ∧ f < start then
          some (p.clip.asset, p.clip.Start + (f - p.At)) else none := by
    by_cases h1 : p.At < start
    · rw [if_pos h1, track_find_single]
      simp only [Placement.End]
      by_cases h2 : p.At ≤ f ∧ f < p.At + p.clip.Len ∧ f < start
      · rw [if_pos h2, if_pos (by omega)]
      · rw [if_neg h2, if_neg (by omega)]
    · rw [if_neg h1, if_neg (by omega)]
      rfl
  have hr : ((if start + len < p.End then
        [(⟨max p.At (start + len),
          ⟨p.clip.asset, p.clip.Start + (max p.At (start + len) - p.At),
            p.End - max p.At (start + len)⟩⟩ : Placement)]
      else []).find? (fun q => q.covers f)).map
        (fun q => (q.clip.asset, q.clip.Start + (f - q.At)))
      = if p.At ≤ f ∧ f < p.End ∧ start + len ≤ f then
          some (p.clip.asset, p.clip.Start + (f - p.At)) else none := by
    by_cases h1 : start + len < p.End
    · rw [if_pos h1, track_find_single]
      simp only [Placement.End] at h1 ⊢
      by_cases h2 : p.At ≤ f ∧ f < p.At + p.clip.Len ∧ start + len ≤ f
      · rw [if_pos h2, if_pos (by omega)]
        congr 2
        omega
      · rw [if_neg h2, if_neg (by omega)]
    · rw [if_neg h1, if_neg (by simp only [Placement.End] at h1 ⊢; omega)]
      rfl
  rw [hl, hr]
  by_cases h3 : start ≤ f ∧ f < start + len
  · rw [if_pos h3, if_neg (by omega), if_neg (by omega)]
    rfl
  · rw [if_neg h3]
    by_cases h4 : p.covers f = true
    · rw [if_pos h4]
      have h5 := (track_covers_iff p f).1 h4
      simp only [Placement.End]
      by_cases h6 : f < start
      · rw [if_pos ⟨h5.1, h5.2, h6⟩]; rfl
      · rw [if_neg (by omega), if_pos (by omega)]; rfl
    · rw [if_neg h4]
      have h5 : ¬ (p.At ≤ f ∧ f < p.At + p.clip.Len) := fun h => h4 ((track_covers_iff p f).2 h)
      simp only [Placement.End]
      rw [if_neg (by omega), if_neg (by omega)]
      rfl

/-- The split timeline covers what the timeline covered outside the new clip,
from the same asset frames. -/
theorem track_split_find (start len f : Nat) (ps : List Placement) :
    ((split start len ps).find? (fun q => q.covers f)).map
        (fun q => (q.clip.asset, q.clip.Start + (f - q.At)))
      = if start ≤ f ∧ f < start + len then none
        else (ps.find? (fun q => q.covers f)).map
          (fun q => (q.clip.asset, q.clip.Start + (f - q.At))) := by
  induction ps with
  | nil => simp [split]
  | cons p ps ih =>
    simp only [split]
    rw [track_find_append, Option.map_or', track_remainders_find, ih, List.find?_cons]
    by_cases h3 : start ≤ f ∧ f < start + len
    · simp [h3]
    · simp only [h3, if_false]
      cases h4 : p.covers f <;> simp

/-- Where the new placement lands in the order does not matter to a frame that
it alone covers, nor to a frame it does not cover. -/
theorem track_insert_find (n : Placement) (f : Nat) (ps : List Placement) :
    (n.covers f = false →
      (insertSorted n ps).find? (fun q => q.covers f) = ps.find? (fun q => q.covers f)) ∧
    (n.covers f = true → ps.find? (fun q => q.covers f) = none →
      (insertSorted n ps).find? (fun q => q.covers f) = some n) := by
  induction ps with
  | nil =>
    constructor
    · intro h; simp [insertSorted, List.find?_cons, h]
    · intro h _; simp [insertSorted, List.find?_cons, h]
  | cons p ps ih =>
    constructor
    · intro h
      simp only [insertSorted]
      split
      · simp [List.find?_cons, h]
      · simp only [List.find?_cons]
        cases p.covers f
        · exact ih.1 h
        · rfl
    · intro h hn
      simp only [insertSorted]
      split
      · simp [List.find?_cons, h]
      · simp only [List.find?_cons] at hn ⊢
        cases hp : p.covers f
        · rw [hp] at hn
          exact ih.2 h hn
        · rw [hp] at hn
          simp at hn

/-- One `AddFrame`: the new clip is read on its range, the timeline as it was
elsewhere. -/
theorem track_addFrame_find (t : Track) (start : Nat) (clip : Frame) (f : Nat) :
    ((t.AddFrame start clip).placements.find? (fun q => q.covers f)).map
        (fun q => (q.clip.asset, q.clip.Start + (f - q.At)))
      = if start ≤ f ∧ f < start + clip.Len then some (clip.asset, clip.Start + (f - start))
        else (t.placements.find? (fun q => q.covers f)).map
          (fun q => (q.clip.asset, q.clip.Start + (f - q.At))) := by
  have hs := track_split_find start clip.Len f t.placements
  have hi := track_insert_find ⟨start, clip⟩ f (split start clip.Len t.placements)
  simp only [Track.AddFrame]
  by_cases h : start ≤ f ∧ f < start + clip.Len
  · rw [if_pos h] at hs ⊢
    have hc : (⟨start, clip⟩ : Placement).covers f = true := (track_covers_iff _ f).2 h
    have hn : (split start clip.Len t.placements).find? (fun q => q.covers f) = none := by
      cases hx : (split start clip.Len t.placements).find? (fun q => q.covers f) with
      | none => rfl
      | some x => rw [hx] at hs; simp at hs
    rw [hi.2 hc hn]
    rfl
  · rw [if_neg h] at hs ⊢
    have hc : (⟨start, clip⟩ : Placement).covers f = false := by
      cases hx : (⟨start, clip⟩ : Placement).covers f with
      | false => rfl
      | true => exact absurd ((track_covers_iff _ f).1 hx) h
    rw [hi.1 hc, hs]

theorem track_addFrame_fields (t : Track) (start : Nat) (clip : Frame) :
    (t.AddFrame start clip).bufferSize = t.bufferSize ∧
      (t.AddFrame start clip).numChannels = t.numChannels ∧
      (t.AddFrame start clip).cursor = t.cursor :=
  ⟨rfl, rfl, rfl⟩

theorem track_addAll_fields (adds : List (Nat × Frame)) :
    ∀ t : Track, (t.addAll adds).bufferSize = t.bufferSize ∧
      (t.addAll adds).numChannels = t.numChannels ∧ (t.addAll adds).cursor = t.cursor := by
  induction adds with
  | nil => intro t; exact ⟨rfl, rfl, rfl⟩
  | cons a rest ih =>
    intro t
    simp only [Track.addAll]
    have h := ih (t.AddFrame a.1 a.2)
    exact ⟨h.1, h.2.1, h.2.2⟩

theorem track_mostRecent_cons (a : Nat × Frame) (rest : List (Nat × Frame)) (f : Nat) :
    mostRecent (a :: rest) f
      = (mostRecent rest f).or
          (if a.1 ≤ f ∧ f < a.1 + a.2.Len then some a else none) := by
  simp only [mostRecent, List.reverse_cons, List.find?_append, List.find?_cons, List.find?_nil]
  congr 1
  by_cases h : a.1 ≤ f ∧ f < a.1 + a.2.Len
  · simp [h]
  · rw [if_neg h]
    rcases not_and_or.1 h with h1 | h1 <;> simp [h1]

/-- After a sequence of `AddFrame` calls a frame is read from the most recently
inserted clip that covers it, and from the timeline as it was if none does. -/
theorem track_addAll_find (adds : List (Nat × Frame)) (f : Nat) :
    ∀ t : Track,
      ((t.addAll adds).placements.find? (fun q => q.covers f)).map
          (fun q => (q.clip.asset, q.clip.Start + (f - q.At)))
        = ((mostRecent adds f).map (fun a => (a.2.asset, a.2.Start + (f - a.1)))).or
            ((t.placements.find? (fun q => q.covers f)).map
              (fun q => (q.clip.asset, q.clip.Start + (f - q.At)))) := by
  induction adds with
  | nil => intro t; simp [Track.addAll, mostRecent]
  | cons a rest ih =>
    intro t
    simp only [Track.addAll]
    rw [ih, track_addFrame_find, track_mostRecent_cons]
    cases mostRecent rest f with
    | some x => simp
    | none =>
      by_cases h : a.1 ≤ f ∧ f < a.1 + a.2.Len
      · simp [h]
      · simp [h]

/-- The rendered sample after a sequence of `AddFrame` calls on a new track is
what the last writer gives. -/
theorem track_sampleAt_addAll (bs nc : Nat) (adds : List (Nat × Frame)) (ch f : Nat) :
    sampleAt ((New bs nc).addAll adds).placements ch f = lastWriter adds ch f ∧
    (mostRecent adds f = none ↔
      ((New bs nc).addAll adds).placements.find? (fun q => q.covers f) = none) := by
  have h := track_addAll_find adds f (New bs nc)
  simp only [New, List.find?_nil, Option.map_none', Option.or_none] at h
  simp only [sampleAt, lastWriter, New]
  constructor
  · cases hm : mostRecent adds f with
    | none =>
      rw [hm] at h
      cases hp : (Track.addAll ⟨bs, nc, [], 0⟩ adds).placements.find? (fun q => q.covers f) with
      | none => rfl
      | some p => rw [hp] at h; simp at h
    | some a =>
      rw [hm] at h
      cases hp : (Track.addAll ⟨bs, nc, [], 0⟩ adds).placements.find? (fun q => q.covers f) with
      | none => rw [hp] at h; simp at h
      | some p =>
        rw [hp] at h
        simp only [Option.map_some', Option.some.injEq, Prod.mk.injEq] at h
        simp only [Placement.sample, h.1, h.2]
  · cases hm : mostRecent adds f with
    | none =>
      rw [hm] at h
      cases hp : (Track.addAll ⟨bs, nc, [], 0⟩ adds).placements.find? (fun q => q.covers f) with
      | none => simp
      | some p => rw [hp] at h; simp at h
    | some a =>
      rw [hm] at h
      cases hp : (Track.addAll ⟨bs, nc, [], 0⟩ adds).placements.find? (fun q => q.covers f) with
      | none => rw [hp] at h; simp at h
      | some p => simp

theorem track_render_getD (t : Track) (O L ch : Nat) (h : ch < t.numChannels) :
    (t.render O L).getD ch [] = (List.range L).map (fun i => sampleAt t.placements ch (O + i)) := by
  simp [Track.render, List.getD_eq_getElem?_getD, List.getElem?_map, List.getElem?_range h]

theorem track_range_map_add (g : Nat → Int) (a b : Nat) :
    (List.range (a + b)).map g = (List.range a).map g ++ (List.range b).map (fun i => g (a + i)) := by
  rw [List.range_add, List.map_append, List.map_map]
  rfl

/-- With a buffer size that is not 0 the pump reaches the stream end within as
many calls as there are frames left, plus one; the buffers it has emitted by
then cover the frames from the cursor to the maximum placed end, rounded up to
whole buffers, and hold the rendered samples. -/
theorem track_drain (n : Nat) : ∀ t : Track, 0 < t.bufferSize →
    maxEnd t.placements - t.cursor ≤ n →
    ∃ bufs, t.drain (n + 1) = some bufs ∧
      maxEnd t.placements ≤ t.cursor + t.bufferSize * bufs.length ∧
      t.bufferSize * bufs.length < (maxEnd t.placements - t.cursor) + t.bufferSize ∧
      ∀ ch, ch < t.numChannels →
        channel ch bufs = (List.range (t.bufferSize * bufs.length)).map
          (fun i => sampleAt t.placements ch (t.cursor + i)) := by
  induction n with
  | zero =>
    intro t hb hn
    have hc : ¬ t.cursor < maxEnd t.placements := by omega
    refine ⟨[], ?_, ?_, ?_, ?_⟩
    · simp [Track.drain, Track.pump, hc]
    · simp; omega
    · simp; omega
    · intro ch _; simp [channel]
  | succ m ih =>
    intro t hb hn
    by_cases hc : t.cursor < maxEnd t.placements
    · obtain ⟨bufs, h1, h2, h3, h4⟩ := ih { t with cursor := t.cursor + t.bufferSize } hb
        (by simp only; omega)
      simp only at h1 h2 h3 h4
      have hz : maxEnd t.placements ≤ t.cursor + t.bufferSize →
          t.bufferSize * bufs.length = 0 := by
        intro hle
        have h5 : t.bufferSize * bufs.length < t.bufferSize * 1 := by omega
        have h6 := Nat.lt_of_mul_lt_mul_left h5
        have h7 : bufs.length = 0 := by omega
        rw [h7, Nat.mul_zero]
      refine ⟨t.render t.cursor t.bufferSize :: bufs, ?_, ?_, ?_, ?_⟩
      · rw [Track.drain]
        simp only [Track.pump, hc, if_true, h1, Option.map_some']
      · simp only [List.length_cons, Nat.mul_succ]; omega
      · simp only [List.length_cons, Nat.mul_succ]
        by_cases hle : maxEnd t.placements ≤ t.cursor + t.bufferSize
        · have := hz hle
          omega
        · omega
      · intro ch hch
        simp only [channel, List.length_cons, Nat.mul_succ]
        rw [track_render_getD t _ _ ch hch, h4 ch hch,
          Nat.add_comm (t.bufferSize * bufs.length) t.bufferSize, track_range_map_add]
        simp only [Nat.add_assoc]
    · refine ⟨[], ?_, ?_, ?_, ?_⟩
      · simp [Track.drain, Track.pump, hc]
      · simp; omega
      · simp; omega
      · intro ch _; simp [channel]

theorem track_find_none_of_maxEnd (ps : List Placement) (f : Nat) (h : maxEnd ps ≤ f) :
    ps.find? (fun q => q.covers f) = none := by
  induction ps with
  | nil => rfl
  | cons p ps ih =>
    simp only [maxEnd] at h
    have hp : p.covers f = false := by
      cases hx : p.covers f with
      | false => rfl
      | true =>
        have := (track_covers_iff p f).1 hx
        simp only [Placement.End] at h
        omega
    simp only [List.find?_cons, hp]
    exact ih (by omega)

end TrackLemmas

/-! ## Lemmas on the runners of package pipe -/

namespace pipe

section LegacyLemmas

variable {σ : Type}

theorem legacy_loop_noflush {α : Type} (body : α → σ → Iter σ)
    (hb : ∀ x s, ∀ ev ∈ (body x s).evs, ev.isFlush = false) :
    ∀ xs s, ∀ ev ∈ (loopOver body xs s).trace, ev.isFlush = false := by
  intro xs
  induction xs with
  | nil => intro s ev hev; simp [loopOver] at hev
  | cons x xs ih =>
    intro s ev hev
    simp only [loopOver] at hev
    cases h : (body x s).exit with
    | some e =>
      rw [h] at hev
      exact hb x s ev hev
    | none =>
      rw [h] at hev
      rcases List.mem_append.1 hev with h1 | h1
      · exact hb x s ev h1
      · exact ih _ ev h1

theorem legacy_loopIn_noflush {α : Type} (body : α → σ → Iter σ)
    (hb : ∀ x s, ∀ ev ∈ (body x s).evs, ev.isFlush = false) (inp : Option (List α)) (s : σ) :
    ∀ ev ∈ (loopIn body inp s).trace, ev.isFlush = false := by
  cases inp with
  | none => intro ev hev; simp [loopIn] at hev
  | some script => exact legacy_loop_noflush body hb script s

theorem legacy_pump_body_noflush (r : pumpRunner σ) (thunk : Nat → σ → σ) (st : PumpStep)
    (s : σ) : ∀ ev ∈ (r.body thunk st s).evs, ev.isFlush = false := by
  unfold pumpRunner.body
  rcases st with ⟨_ | m, sd⟩ <;> dsimp only
  · simp [Ev.isFlush]
  · generalize r.fn (applyAll thunk (m.params.applyTo r.ID).1 s) = res
    rcases res with ⟨⟨b, _ | _ | n⟩, s2⟩ <;> dsimp only
    · cases sd <;> simp [Ev.isFlush]
    · simp [Ev.isFlush]
    · simp [Ev.isFlush]

theorem legacy_process_body_noflush (r : processRunner σ) (thunk : Nat → σ → σ) (st : ProcStep)
    (s : σ) : ∀ ev ∈ (r.body thunk st s).evs, ev.isFlush = false := by
  unfold processRunner.body
  rcases st with ⟨_ | _, sd⟩ <;> dsimp only
  · rename_i m
    generalize r.fn m.buffer (applyAll thunk (m.params.applyTo r.ID).1 s) = res
    rcases res with ⟨⟨b, _ | e⟩, s2⟩ <;> dsimp only
    · cases sd <;> simp [Ev.isFlush]
    · simp [Ev.isFlush]
  · simp [Ev.isFlush]

theorem legacy_sink_body_noflush (r : sinkRunner σ) (thunk : Nat → σ → σ) (st : Recv)
    (s : σ) : ∀ ev ∈ (r.body thunk st s).evs, ev.isFlush = false := by
  unfold sinkRunner.body
  rcases st with _ | _ <;> dsimp only
  · rename_i m
    generalize r.fn m.buffer (applyAll thunk (m.params.applyTo r.ID).1 s) = res
    rcases res with ⟨_ | e, s2⟩ <;> dsimp only <;> simp [Ev.isFlush]
  · simp [Ev.isFlush]

theorem legacy_countP_zero (l : List Ev) (h : ∀ ev ∈ l, ev.isFlush = false) :
    l.countP Ev.isFlush = 0 := by
  induction l with
  | nil => rfl
  | cons x l ih =>
    rw [List.countP_cons, ih (fun ev hev => h ev (List.mem_cons_of_mem _ hev)),
      h x (List.mem_cons_self _ _)]
    rfl

/-- The deferred calls of a goroutine that returns, for a component with a
Flusher, flush once after all that came before. -/
theorem legacy_deferred_flushedOnce (f : FlushFunc σ) (sourceID : String) (cl : List Ev)
    (o : Outcome σ) (he : o.exit ≠ Exit.blocked)
    (ho : ∀ ev ∈ o.trace, ev.isFlush = false) (hcl : ∀ ev ∈ cl, ev.isFlush = false) :
    flushedOnce sourceID cl (deferred (some f) sourceID cl o) := by
  have h0 := legacy_countP_zero _ ho
  have h1 := legacy_countP_zero _ hcl
  simp only [deferred, if_neg he, flushDeferred]
  rcases h : f sourceID o.comp with ⟨_ | e, s1⟩
  · refine ⟨o.trace, none, by simp, ho, ?_⟩
    simp [List.countP_append, List.countP_cons, h0, h1, Ev.isFlush]
  · refine ⟨o.trace, some e, by simp, ho, ?_⟩
    simp [List.countP_append, List.countP_cons, h0, h1, Ev.isFlush]

theorem legacy_deferred_exit (fl : Option (FlushFunc σ)) (sourceID : String) (cl : List Ev)
    (o : Outcome σ) : (deferred fl sourceID cl o).exit = o.exit := by
  simp only [deferred]
  split <;> rfl

theorem legacy_head_noflush (tr : List Ev) (h : ∀ ev ∈ tr, ev.isFlush = false) :
    ∀ ev ∈ Ev.measureReset :: Ev.latency :: tr, ev.isFlush = false := by
  intro ev hev
  rcases List.mem_cons.1 hev with h1 | h1
  · rw [h1]; rfl
  · rcases List.mem_cons.1 h1 with h2 | h2
    · rw [h2]; rfl
    · exact h ev h2

end LegacyLemmas

end pipe

/-! ## Lemmas on the portaudio sink -/

namespace portaudio

section SinkLemmas

variable {α β : Type}

theorem sink_load_some (b : List (List α)) (frames j i : Nat)
    (hrect : ∀ row ∈ b, row.length = frames) (hj : j < b.length) (hi : i < frames) :
    ∃ x, load b j i = some x := by
  unfold load
  have h1 : b.get? j = some (b.get ⟨j, hj⟩) := List.get?_eq_get hj
  rw [h1]
  have h2 : i < (b.get ⟨j, hj⟩).length := by
    rw [hrect _ (List.get_mem b j hj)]; exact hi
  exact ⟨_, List.get?_eq_get h2⟩

theorem sink_index_unique (nc i j i1 j1 : Nat) (hj : j < nc) (hj1 : j1 < nc)
    (h : i * nc + j = i1 * nc + j1) : i = i1 ∧ j = j1 := by
  have hm := congrArg (fun k => k % nc) h
  simp only [Nat.mul_add_mod_of_lt hj, Nat.mul_add_mod_of_lt hj1] at hm
  subst hm
  have h2 : i * nc = i1 * nc := by omega
  exact ⟨Nat.eq_of_mul_eq_mul_right (by omega) h2, rfl⟩

/-- The inner loop on frame `i`: no panic, the length is kept, the channels done
hold their converted samples and every other index is left alone. -/
theorem sink_inner (conv : α → β) (nc : Nat) (b : List (List α)) (frames i : Nat)
    (hrect : ∀ row ∈ b, row.length = frames) (hi : i < frames) (js : List Nat) :
    ∀ buf : List β, (∀ j ∈ js, j < b.length ∧ j < nc) → i * nc + nc ≤ buf.length →
      ∃ buf1, inner conv nc b i js buf = some buf1 ∧ buf1.length = buf.length ∧
        (∀ j ∈ js, buf1[i * nc + j]? = (load b j i).map conv) ∧
        (∀ k, (∀ j ∈ js, k ≠ i * nc + j) → buf1[k]? = buf[k]?) := by
  induction js with
  | nil =>
    intro buf _ _
    exact ⟨buf, rfl, rfl, by simp, fun _ _ => rfl⟩
  | cons j js ih =>
    intro buf hjs hlen
    have hj := hjs j (List.mem_cons_self _ _)
    obtain ⟨x, hx⟩ := sink_load_some b frames j i hrect hj.1 hi
    have hidx : i * nc + j < buf.length := by omega
    obtain ⟨buf1, h1, h2, h3, h4⟩ := ih (buf.set (i * nc + j) (conv x))
      (fun j1 h => hjs j1 (List.mem_cons_of_mem _ h)) (by simpa using hlen)
    refine ⟨buf1, ?_, ?_, ?_, ?_⟩
    · simp only [inner, hx, store, if_pos hidx, h1]
    · simpa using h2
    · intro j1 hj1
      rcases List.mem_cons.1 hj1 with h | h
      · subst h
        by_cases hin : j1 ∈ js
        · exact h3 j1 hin
        · rw [h4 (i * nc + j1) (by
            intro j2 hj2 heq
            have : j1 = j2 := by omega
            exact hin (this ▸ hj2))]
          rw [List.getElem?_set_self hidx, hx]
          rfl
      · exact h3 j1 h
    · intro k hk
      rw [h4 k (fun j1 h => hk j1 (List.mem_cons_of_mem _ h))]
      exact List.getElem?_set_ne (fun h => hk j (List.mem_cons_self _ _) h.symm)

/-- The outer loop: no panic, the length is kept, the frames done hold their
converted samples at the interleaved indices and every other index is left
alone. -/
theorem sink_outer (conv : α → β) (nc : Nat) (b : List (List α)) (frames : Nat)
    (hrect : ∀ row ∈ b, row.length = frames) (hb : b.length ≤ nc) (is : List Nat) :
    ∀ buf : List β, (∀ i ∈ is, i < frames) → frames * nc ≤ buf.length →
      ∃ buf1, outer conv nc b is buf = some buf1 ∧ buf1.length = buf.length ∧
        (∀ i ∈ is, ∀ j, j < b.length → buf1[i * nc + j]? = (load b j i).map conv) ∧
        (∀ k, (∀ i ∈ is, ∀ j, j < b.length → k ≠ i * nc + j) → buf1[k]? = buf[k]?) := by
  induction is with
  | nil =>
    intro buf _ _
    exact ⟨buf, rfl, rfl, by simp, fun _ _ => rfl⟩
  | cons i is ih =>
    intro buf his hlen
    have hi := his i (List.mem_cons_self _ _)
    have hrow : i * nc + nc ≤ buf.length := by
      have h1 : (i + 1) * nc ≤ frames * nc := Nat.mul_le_mul_right nc hi
      rw [Nat.add_mul, Nat.one_mul] at h1
      omega
    obtain ⟨buf0, g1, g2, g3, g4⟩ := sink_inner conv nc b frames i hrect hi
      (List.range b.length) buf
      (fun j hj => ⟨List.mem_range.1 hj, Nat.lt_of_lt_of_le (List.mem_range.1 hj) hb⟩) hrow
    obtain ⟨buf1, h1, h2, h3, h4⟩ := ih buf0
      (fun i1 h => his i1 (List.mem_cons_of_mem _ h)) (by rw [g2]; exact hlen)
    refine ⟨buf1, ?_, ?_, ?_, ?_⟩
    · simp only [outer, g1, h1]
    · rw [h2, g2]
    · intro i1 hi1 j hj
      rcases List.mem_cons.1 hi1 with h | h
      · subst h
        by_cases hin : i1 ∈ is
        · exact h3 i1 hin j hj
        · rw [h4 (i1 * nc + j) (by
            intro i2 hi2 j2 hj2 heq
            have := (sink_index_unique nc i1 j i2 j2 (Nat.lt_of_lt_of_le hj hb)
              (Nat.lt_of_lt_of_le hj2 hb) heq).1
            exact hin (this ▸ hi2))]
          exact g3 j (List.mem_range.2 hj)
      · exact h3 i1 h j hj
    · intro k hk
      rw [h4 k (fun i1 h => hk i1 (List.mem_cons_of_mem _ h))]
      exact g4 k (fun j hj => hk i (List.mem_cons_self _ _) j (List.mem_range.1 hj))

end SinkLemmas

end portaudio

/-! ## The claims -/

section Claims

variable {σ μ : Type}

/-- C1, as stated, fails: a pump whose component implements Flush and Interrupt
and whose function returns an error that is not a stream-end sentinel terminates
(`errc <- err; return`) without invoking either hook. -/
theorem C1_counterexample_failed_pump :
    failingPump.flush.isSome = true ∧ failingPump.interrupt.isSome = true ∧
    (failingPump.run exEnv 2 "p" "c" (none : Option Nat) [⟨true, some exMsg, true⟩] 0).exit
      = Exit.failed ∧
    invoked HookKind.flush
      (failingPump.run exEnv 2 "p" "c" (none : Option Nat) [⟨true, some exMsg, true⟩] 0).trace
      + invoked HookKind.interrupt
      (failingPump.run exEnv 2 "p" "c" (none : Option Nat) [⟨true, some exMsg, true⟩] 0).trace
      = 0 := by
  decide

/-- C1, amended: in every terminated run of a pump, processor or sink runner
whose component implements both Flush and Interrupt, a run that exits on
stream end invokes Flush exactly once and Interrupt not at all, a run that exits on
cancel invokes Interrupt exactly once and Flush not at all, and a run that exits
because the functional core failed invokes neither; so never both. -/
theorem C1_exit_hooks_by_exit (rp : pumpRunner σ) (rq : processRunner σ) (rs : sinkRunner σ)
    (env : Env σ μ) (bs : Int) (p c : String) (mt : Option μ) (sp : List PumpStep)
    (sq : List ProcStep) (ss : List Recv) (s : σ)
    (hp : rp.flush.isSome = true ∧ rp.interrupt.isSome = true)
    (hq : rq.flush.isSome = true ∧ rq.interrupt.isSome = true)
    (hs : rs.flush.isSome = true ∧ rs.interrupt.isSome = true) :
    hooksByExit (rp.run env bs p c mt sp s) ∧ hooksByExit (rq.run env p c mt sq s) ∧
      hooksByExit (rs.run env p c mt ss s) := by
  refine ⟨?_, ?_, ?_⟩
  · have h := pump_run_lifecycle rp env bs p c mt sp s
    exact hooksByExit_of_counts _ _ _ hp.1 hp.2 h.1 h.2.1
  · have h := process_run_lifecycle rq env p c mt sq s
    exact hooksByExit_of_counts _ _ _ hq.1 hq.2 h.1 h.2.1
  · have h := sink_run_lifecycle rs env p c mt ss s
    exact hooksByExit_of_counts _ _ _ hs.1 hs.2 h.1 h.2.1

/-- Witness of C1: a pump that ends on `io.EOF`, a processor that is cancelled
at its send and a sink whose function fails on its second message; the three
runs terminate, one on each exit. -/
theorem C1_exit_hooks_by_exit_witness :
    ((lastBufferPump.flush.isSome = true ∧ lastBufferPump.interrupt.isSome = true) ∧
      (exProcessor.flush.isSome = true ∧ exProcessor.interrupt.isSome = true) ∧
      (exSink.flush.isSome = true ∧ exSink.interrupt.isSome = true)) ∧
    ((lastBufferPump.run exEnv 2 "p" "c" (some 0) [⟨true, some exMsg, true⟩] 0).exit
        = Exit.streamEnd ∧
      (exProcessor.run exEnv "p" "c" (some 0) [⟨Recv.msg exMsg, false⟩] 0).exit
        = Exit.cancelled ∧
      (exSink.run exEnv "p" "c" (some 0) exSinkScript 0).exit = Exit.failed) ∧
    (hooksByExit (lastBufferPump.run exEnv 2 "p" "c" (some 0) [⟨true, some exMsg, true⟩] 0) ∧
      hooksByExit (exProcessor.run exEnv "p" "c" (some 0) [⟨Recv.msg exMsg, false⟩] 0) ∧
      hooksByExit (exSink.run exEnv "p" "c" (some 0) exSinkScript 0)) :=
  ⟨by decide, by decide,
    C1_exit_hooks_by_exit lastBufferPump exProcessor exSink exEnv 2 "p" "c" (some 0)
      [⟨true, some exMsg, true⟩] [⟨Recv.msg exMsg, false⟩] exSinkScript 0
      (by decide) (by decide) (by decide)⟩

/-- C2: in every run of a pump, processor or sink runner the Flush hook is
invoked only when the run exits on orderly stream end, after the pump function
returned `io.EOF` or `io.ErrUnexpectedEOF` or the upstream channel was found
closed; the Interrupt hook is invoked only when the run exits on an observed
cancel, and every observed cancel makes the run exit through the Interrupt hook
of a component that has one; no run invokes both. -/
theorem C2_flush_on_stream_end_interrupt_on_cancel (rp : pumpRunner σ) (rq : processRunner σ)
    (rs : sinkRunner σ) (env : Env σ μ) (bs : Int) (p c : String) (mt : Option μ)
    (sp : List PumpStep) (sq : List ProcStep) (ss : List Recv) (s : σ) :
    exitPaths rp.interrupt.isSome Ev.sentinelReturned (rp.run env bs p c mt sp s) ∧
      exitPaths rq.interrupt.isSome Ev.upstreamClosed (rq.run env p c mt sq s) ∧
      exitPaths rs.interrupt.isSome Ev.upstreamClosed (rs.run env p c mt ss s) := by
  refine ⟨?_, ?_, ?_⟩
  · have h := pump_run_lifecycle rp env bs p c mt sp s
    exact exitPaths_of_counts _ _ _ _ h.1 h.2.1 h.2.2.2.1 h.2.2.2.2
  · have h := process_run_lifecycle rq env p c mt sq s
    exact exitPaths_of_counts _ _ _ _ h.1 h.2.1 h.2.2.2.1 h.2.2.2.2
  · have h := sink_run_lifecycle rs env p c mt ss s
    exact exitPaths_of_counts _ _ _ _ h.1 h.2.1 h.2.2.2.1 h.2.2.2.2

/-- C3: in every run of a pump, processor or sink runner whose component
implements Reset, the Reset hook is invoked with the pipe id as the first event
of the run, hence before the first provide or receive, the first parameter
application and the first call of the functional core, and it is not invoked
again. -/
theorem C3_reset_once_first (rp : pumpRunner σ) (rq : processRunner σ) (rs : sinkRunner σ)
    (env : Env σ μ) (bs : Int) (p c : String) (mt : Option μ) (sp : List PumpStep)
    (sq : List ProcStep) (ss : List Recv) (s : σ)
    (hp : rp.reset.isSome = true) (hq : rq.reset.isSome = true) (hs : rs.reset.isSome = true) :
    (resetFirst p (rp.run env bs p c mt sp s) ∧
      invoked HookKind.reset (rp.run env bs p c mt sp s).trace = 1) ∧
    (resetFirst p (rq.run env p c mt sq s) ∧
      invoked HookKind.reset (rq.run env p c mt sq s).trace = 1) ∧
    (resetFirst p (rs.run env p c mt ss s) ∧
      invoked HookKind.reset (rs.run env p c mt ss s).trace = 1) := by
  refine ⟨⟨?_, ?_⟩, ⟨?_, ?_⟩, ⟨?_, ?_⟩⟩
  · exact resetFirst_of_run rp.reset hp p s _ _
      (lifecycle_loop _ _ _ _ (pump_body_lifecycle rp env bs p c) sp _ mt).2.2.1
      (invoked_closes _ _)
  · have h := (pump_run_lifecycle rp env bs p c mt sp s).2.2.1
    simpa [hp] using h
  · exact resetFirst_of_run rq.reset hq p s _ _
      (lifecycle_loop _ _ _ _ (process_body_lifecycle rq env p c) sq _ mt).2.2.1
      (invoked_closes _ _)
  · have h := (process_run_lifecycle rq env p c mt sq s).2.2.1
    simpa [hq] using h
  · exact resetFirst_of_run rs.reset hs p s _ _
      (lifecycle_loop _ _ _ _ (sink_body_lifecycle rs env p c) ss _ mt).2.2.1
      (invoked_closeErr _ _)
  · have h := (sink_run_lifecycle rs env p c mt ss s).2.2.1
    simpa [hs] using h

/-- Witness of C3: three runs of components with a Reset hook. -/
theorem C3_reset_once_first_witness :
    (lastBufferPump.reset.isSome = true) ∧
    ((resetFirst "p" (lastBufferPump.run exEnv 2 "p" "c" (some 0)
        [⟨true, some exMsg, true⟩] 0) ∧
      invoked HookKind.reset (lastBufferPump.run exEnv 2 "p" "c" (some 0)
        [⟨true, some exMsg, true⟩] 0).trace = 1) ∧
    (resetFirst "p" (exProcessor.run exEnv "p" "c" (some 0) [⟨Recv.msg exMsg, false⟩] 0) ∧
      invoked HookKind.reset (exProcessor.run exEnv "p" "c" (some 0)
        [⟨Recv.msg exMsg, false⟩] 0).trace = 1) ∧
    (resetFirst "p" (exSink.run exEnv "p" "c" (some 0) [Recv.msg exMsg, Recv.closed] 0) ∧
      invoked HookKind.reset (exSink.run exEnv "p" "c" (some 0)
        [Recv.msg exMsg, Recv.closed] 0).trace = 1)) :=
  ⟨by decide,
    C3_reset_once_first lastBufferPump exProcessor exSink exEnv 2 "p" "c" (some 0)
      [⟨true, some exMsg, true⟩] [⟨Recv.msg exMsg, false⟩] [Recv.msg exMsg, Recv.closed] 0
      (by decide) (by decide) (by decide)⟩

/-- C4: in every pump run in which the pump function returns a non-nil error
`e` and no cancel is observed, that call is the first to fail and the pump
function is not called after it; if `e` is `io.EOF` or `io.ErrUnexpectedEOF` the
run exits on stream end after invoking the Flush hook (when the component has
one), and the only errors published after the call are those the hook returned,
so none when Flush returns nil; for every other `e` the run exits as failed,
having published exactly `e` after the call and invoked no hook. -/
theorem C4_pump_error_handling (r : pumpRunner σ) (env : Env σ μ) (bs : Int) (p c : String)
    (mt : Option μ) (script : List PumpStep) (s : σ) (b : Buffer) (e : Err)
    (hfail : Ev.pump bs b (some e) ∈ (r.run env bs p c mt script s).trace)
    (hcancel : Ev.cancel ∉ (r.run env bs p c mt script s).trace) :
    ∃ pre post, (r.run env bs p c mt script s).trace = pre ++ Ev.pump bs b (some e) :: post ∧
      (∀ ev ∈ pre, ev.failedCore = false) ∧
      pumpErrorHandled r.flush.isSome e (r.run env bs p c mt script s).exit post :=
  pump_run_errorClaim r env bs p c mt script s b e hfail hcancel

/-- Witness of C4: the pump that returns its last buffer together with
`io.EOF`. -/
theorem C4_pump_error_handling_witness :
    (Ev.pump 2 (some [[5]]) (some Err.EOF) ∈
        (lastBufferPump.run exEnv 2 "p" "c" (some 0) [⟨true, some exMsg, true⟩] 0).trace ∧
      Ev.cancel ∉ (lastBufferPump.run exEnv 2 "p" "c" (some 0) [⟨true, some exMsg, true⟩] 0).trace) ∧
    ∃ pre post, (lastBufferPump.run exEnv 2 "p" "c" (some 0) [⟨true, some exMsg, true⟩] 0).trace
        = pre ++ Ev.pump 2 (some [[5]]) (some Err.EOF) :: post ∧
      (∀ ev ∈ pre, ev.failedCore = false) ∧
      pumpErrorHandled lastBufferPump.flush.isSome Err.EOF
        (lastBufferPump.run exEnv 2 "p" "c" (some 0) [⟨true, some exMsg, true⟩] 0).exit post :=
  ⟨by decide, C4_pump_error_handling lastBufferPump exEnv 2 "p" "c" (some 0)
    [⟨true, some exMsg, true⟩] 0 (some [[5]]) Err.EOF (by decide) (by decide)⟩

/-- C5: in every processor run and every sink run in which the functional core
returns a non-nil error for a message, the trace ends with the receipt of that
message, the application of its params, the failing call, the publication of
exactly that error and the deferred closes: the message is not sent downstream,
its feedback is not applied, the metric is not advanced for it, and nothing more
is received or processed. -/
theorem C5_core_error_is_fatal (rq : processRunner σ) (rs : sinkRunner σ) (env : Env σ μ)
    (p c : String) (mt : Option μ) (sq : List ProcStep) (ss : List Recv) (s : σ)
    (hq : ∃ ev ∈ (rq.run env p c mt sq s).trace, ev.failedCore = true)
    (hs : ∃ ev ∈ (rs.run env p c mt ss s).trace, ev.failedCore = true) :
    (∃ pre m out e, (rq.run env p c mt sq s).trace
        = pre ++ [Ev.consume m, Ev.params c (m.params.applyTo c).1,
            Ev.process m.buffer out (some e), Ev.err false e] ++ [Ev.closeErrc, Ev.closeOut] ∧
      (∀ ev ∈ pre, ev.failedCore = false) ∧ (rq.run env p c mt sq s).exit = Exit.failed) ∧
    (∃ pre m e, (rs.run env p c mt ss s).trace
        = pre ++ [Ev.consume m, Ev.params c (m.params.applyTo c).1,
            Ev.sink m.buffer (some e), Ev.err false e] ++ [Ev.closeErrc] ∧
      (∀ ev ∈ pre, ev.failedCore = false) ∧ (rs.run env p c mt ss s).exit = Exit.failed) :=
  ⟨process_run_failsFast rq env p c mt sq s hq, sink_run_failsFast rs env p c mt ss s hs⟩

/-- Witness of C5: a processor and a sink that fail on the second of three
messages. -/
theorem C5_core_error_is_fatal_witness :
    ((∃ ev ∈ (exProcessor.run exEnv "p" "c" (some 0) exProcScript 0).trace,
        ev.failedCore = true) ∧
      (∃ ev ∈ (exSink.run exEnv "p" "c" (some 0) exSinkScript 0).trace,
        ev.failedCore = true)) ∧
    ((∃ pre m out e, (exProcessor.run exEnv "p" "c" (some 0) exProcScript 0).trace
        = pre ++ [Ev.consume m, Ev.params "c" (m.params.applyTo "c").1,
            Ev.process m.buffer out (some e), Ev.err false e] ++ [Ev.closeErrc, Ev.closeOut] ∧
      (∀ ev ∈ pre, ev.failedCore = false) ∧
      (exProcessor.run exEnv "p" "c" (some 0) exProcScript 0).exit = Exit.failed) ∧
    (∃ pre m e, (exSink.run exEnv "p" "c" (some 0) exSinkScript 0).trace
        = pre ++ [Ev.consume m, Ev.params "c" (m.params.applyTo "c").1,
            Ev.sink m.buffer (some e), Ev.err false e] ++ [Ev.closeErrc] ∧
      (∀ ev ∈ pre, ev.failedCore = false) ∧
      (exSink.run exEnv "p" "c" (some 0) exSinkScript 0).exit = Exit.failed)) :=
  ⟨⟨by decide, by decide⟩,
    C5_core_error_is_fatal exProcessor exSink exEnv "p" "c" (some 0) exProcScript exSinkScript 0
      (by decide) (by decide)⟩

/-- C6: in every run of a pump, processor or sink runner, for every message
handled, the params thunks keyed on the component id are applied before the
functional core is called on that buffer, and the feedback thunks keyed on that
id are applied only after the core has returned and before the message is sent
downstream. The first three parts are the order of the events of the trace. The
last three are that order on the component itself: the trace replays, from the
state the run started in to the state it left, by invoking the params thunks of
each message on the state at its receipt, calling the core in the state these
thunks made, where it returns what the trace records, invoking the feedback
thunks on the state the core left, and sending the buffer the core returned with
the drained payloads after that. -/
theorem C6_params_core_feedback_order (rp : pumpRunner σ) (rq : processRunner σ)
    (rs : sinkRunner σ) (env : Env σ μ) (bs : Int) (p c : String) (mt : Option μ)
    (sp : List PumpStep) (sq : List ProcStep) (ss : List Recv) (s : σ) :
    (ordered c (rp.run env bs p c mt sp s).trace = true ∧
      ordered c (rq.run env p c mt sq s).trace = true ∧
      ordered c (rs.run env p c mt ss s).trace = true) ∧
    replays env rp.tohooks (rp.coreAt bs) c s (rp.run env bs p c mt sp s).trace
      (rp.run env bs p c mt sp s).comp ∧
    replays env rq.tohooks rq.coreAt c s (rq.run env p c mt sq s).trace
      (rq.run env p c mt sq s).comp ∧
    replays env rs.tohooks rs.coreAt c s (rs.run env p c mt ss s).trace
      (rs.run env p c mt ss s).comp :=
  ⟨⟨ordered_run c _ _ _ (neutral_call _ _ _ _) (neutral_closes _)
      (ordered_loop _ c (pump_body_ordered rp env bs p c) sp _ mt),
    ordered_run c _ _ _ (neutral_call _ _ _ _) (neutral_closes _)
      (ordered_loop _ c (process_body_ordered rq env p c) sq _ mt),
    ordered_run c _ _ _ (neutral_call _ _ _ _) (neutral_closeErr _)
      (ordered_loop _ c (sink_body_ordered rs env p c) ss _ mt)⟩,
    pump_run_replays rp env bs p c mt sp s,
    process_run_replays rq env p c mt sq s,
    sink_run_replays rs env p c mt ss s⟩

/-- The order check is not vacuous: it rejects a trace in which the feedback of
a message is applied before the core is called, and accepts the trace of a
processor run. -/
theorem ordered_rejects_feedback_before_core :
    ordered "c" exBadOrder = false ∧
      ordered "c" (exProcessor.run exEnv "p" "c" (some 0) exProcScript 0).trace = true := by
  decide

/-- The replay follows the component: the run of the probe processor on `exMsg`
leaves the trace in which the core saw the state the params thunks made, and the
replay of that trace ends in the state that core and feedback thunk left. -/
theorem replay_accepts_probe_run :
    (probeProcessor.run exEnv "p" "c" (none : Option Nat) [⟨Recv.msg exMsg, true⟩] 0).trace =
        Ev.hook HookKind.reset "p" none :: exProbeTrace ∧
      replay exEnv probeProcessor.tohooks probeProcessor.coreAt "c" Stage.idle 0 exProbeTrace =
        some (Stage.idle, 110) := by
  decide

/-- The replay is not vacuous: it rejects the trace, with the events in the
right order, of a core that was called before the params thunks were applied. -/
theorem replay_rejects_core_before_params :
    ordered "c" exCoreTooEarly = true ∧
      replay exEnv probeProcessor.tohooks probeProcessor.coreAt "c" Stage.idle 0
        exCoreTooEarly = none := by
  decide

/-- C7: for every script of a processor run, the messages the processor received
are a prefix of the upstream messages and the messages it sent downstream are
the functional core applied, one to one and in order, to a prefix of those it
received; when no cancel is observed and no call of the core fails the two
prefixes are the same. On a finite upstream `msgs` that is then closed, with no
cancel observed and no failing call, the processor receives all of `msgs`, sends
the core applied to all of them, as many messages as it consumed, and exits on
stream end. -/
theorem C7_processor_fifo (r : processRunner σ) (env : Env σ μ) (p c : String)
    (mt : Option μ) (script : List ProcStep) (s : σ) (msgs : List message) :
    (∃ k n, k ≤ n ∧ n ≤ (inputs script).length ∧
      received (r.run env p c mt script s).trace = (inputs script).take n ∧
      sent (r.run env p c mt script s).trace
        = r.mapCore env c ((inputs script).take k) (call HookKind.reset r.reset p s).2 ∧
      ((Ev.cancel ∉ (r.run env p c mt script s).trace ∧
        ∀ ev ∈ (r.run env p c mt script s).trace, ev.failedCore = false) → k = n)) ∧
    ((∀ ev ∈ (r.run env p c mt (upstream msgs) s).trace, ev.failedCore = false) →
      received (r.run env p c mt (upstream msgs) s).trace = msgs ∧
      sent (r.run env p c mt (upstream msgs) s).trace
        = r.mapCore env c msgs (call HookKind.reset r.reset p s).2 ∧
      (sent (r.run env p c mt (upstream msgs) s).trace).length = msgs.length ∧
      (r.run env p c mt (upstream msgs) s).exit = Exit.streamEnd) := by
  constructor
  · obtain ⟨k, n, h1, h2, h3, h4, h5⟩ :=
      process_loop_fifo r env p c script (call HookKind.reset r.reset p s).2 mt
    have hr := process_run_received r env p c mt script s
    refine ⟨k, n, h1, h2, by rw [hr.1, h3], by rw [hr.2, h4], ?_⟩
    rintro ⟨hc, hn⟩
    apply h5
    simp only [processRunner.run] at hc hn
    exact ⟨fun x => hc (List.mem_append_left _ (List.mem_append_right _ x)),
      fun ev hev => hn ev (List.mem_append_left _ (List.mem_append_right _ hev))⟩
  · intro hn
    have hr := process_run_received r env p c mt (upstream msgs) s
    obtain ⟨h1, h2, h3⟩ :=
      process_loop_upstream r env p c msgs (call HookKind.reset r.reset p s).2 mt
        (fun ev hev => hn ev (by
          simp only [processRunner.run]
          exact List.mem_append_left _ (List.mem_append_right _ hev)))
    refine ⟨by rw [hr.1, h1], by rw [hr.2, h2], by rw [hr.2, h2, mapCore_length], ?_⟩
    simpa [processRunner.run] using h3

/-- Witness of C7: the processor on an upstream of three good messages. -/
theorem C7_processor_fifo_witness :
    (∀ ev ∈ (exProcessor.run exEnv "p" "c" (some 0) (upstream [exMsg, exMsg, exMsg]) 0).trace,
      ev.failedCore = false) ∧
    (received (exProcessor.run exEnv "p" "c" (some 0) (upstream [exMsg, exMsg, exMsg]) 0).trace
        = [exMsg, exMsg, exMsg] ∧
      sent (exProcessor.run exEnv "p" "c" (some 0) (upstream [exMsg, exMsg, exMsg]) 0).trace
        = exProcessor.mapCore exEnv "c" [exMsg, exMsg, exMsg]
          (call HookKind.reset exProcessor.reset "p" 0).2 ∧
      (sent (exProcessor.run exEnv "p" "c" (some 0)
        (upstream [exMsg, exMsg, exMsg]) 0).trace).length = [exMsg, exMsg, exMsg].length ∧
      (exProcessor.run exEnv "p" "c" (some 0) (upstream [exMsg, exMsg, exMsg]) 0).exit
        = Exit.streamEnd) :=
  ⟨by decide,
    (C7_processor_fifo exProcessor exEnv "p" "c" (some 0) [] 0 [exMsg, exMsg, exMsg]).2
      (by decide)⟩

/-- C8: in every pump iteration that got its prepared message `m`, the message
is sent downstream exactly when the pump function returned a non-nil buffer and
the send select did not observe cancel; if a non-nil buffer came with an error,
the stream-end sentinels included, the send comes first and the error is handled
after it (nothing is published and no hook is invoked before the send); if a nil
buffer came with a nil error nothing is sent, the iteration has just the four
events up to the call of the pump function, and the loop goes on with the
provide select of the next iteration. -/
theorem C8_pump_forwards_non_nil_buffer (r : pumpRunner σ) (env : Env σ μ) (bs : Int)
    (p c : String) (st : PumpStep) (s : σ) (mt : Option μ) (m : message)
    (hp : st.provide = true) (hc : st.consume = some m) :
    sent (r.body env bs p c st s mt).evs
      = (if (r.fn bs (applyThunks env (m.params.applyTo c).1 s)).1.1.isSome = true
            ∧ st.send = true
          then [⟨(r.fn bs (applyThunks env (m.params.applyTo c).1 s)).1.1,
            (m.feedback.applyTo c).2, (m.params.applyTo c).2⟩]
          else []) ∧
    (∀ e, (r.fn bs (applyThunks env (m.params.applyTo c).1 s)).1.1.isSome = true →
      st.send = true → (r.fn bs (applyThunks env (m.params.applyTo c).1 s)).1.2 = some e →
      ∃ pre post ex, (r.body env bs p c st s mt).evs
          = pre ++ Ev.send ⟨(r.fn bs (applyThunks env (m.params.applyTo c).1 s)).1.1,
              (m.feedback.applyTo c).2, (m.params.applyTo c).2⟩ :: post ∧
        published pre = [] ∧ (∀ k, invoked k pre = 0) ∧
        (r.body env bs p c st s mt).exit = some ex ∧
        pumpErrorHandled r.flush.isSome e ex post) ∧
    ((r.fn bs (applyThunks env (m.params.applyTo c).1 s)).1 = (none, none) →
      (r.body env bs p c st s mt).evs
        = [Ev.provide p, Ev.consume m, Ev.params c (m.params.applyTo c).1,
            Ev.pump bs none none] ∧
      (r.body env bs p c st s mt).exit = none ∧
      ∀ nxt rest, ∃ tl, (loopOver (r.body env bs p c) (st :: nxt :: rest) s mt).trace
        = (r.body env bs p c st s mt).evs
          ++ (if nxt.provide = true then Ev.provide p else Ev.cancel) :: tl) := by
  rcases st with ⟨pv, cs, sd⟩
  simp only at hp hc
  subst hp hc
  refine ⟨?_, ?_, ?_⟩
  · simp only [pumpRunner.body]
    rcases r.fn bs (applyThunks env (m.params.applyTo c).1 s) with ⟨⟨_ | b, err⟩, s2⟩
    · simp [sent_append, sent_cons, sent_nil, sent_handle]
    · cases sd <;>
        simp [sent_append, sent_cons, sent_nil, sent_handle, sent_advance, sent_call]
  · intro e hb hs he
    simp only at hs
    subst hs
    simp only [pumpRunner.body]
    revert hb he
    rcases r.fn bs (applyThunks env (m.params.applyTo c).1 s) with ⟨⟨_ | b, err⟩, s2⟩
    · intro hb; simp at hb
    · intro _ he
      simp only at he
      subst he
      obtain ⟨ex, hex, hh⟩ := pump_handle_errorHandled r p e
        (applyThunks env (m.feedback.applyTo c).1 s2) [] plain_nil
      refine ⟨[Ev.provide p, Ev.consume m, Ev.params c (m.params.applyTo c).1,
        Ev.pump bs (some b) (some e)] ++ (advance env mt (Size (some b))).1
        ++ [Ev.feedback c (m.feedback.applyTo c).1],
        (r.handle p (some e) (applyThunks env (m.feedback.applyTo c).1 s2)).1, ex, by simp,
        ?_, ?_, hex, by simpa using hh⟩
      · simp [published_append, published_cons, published_nil, (plain_advance env mt _).2.1]
      · intro k
        simp [invoked_append, invoked_cons, invoked_nil, invoked_advance, Ev.isHook]
  · intro hres
    have hevs : (r.body env bs p c ⟨true, some m, sd⟩ s mt).evs
        = [Ev.provide p, Ev.consume m, Ev.params c (m.params.applyTo c).1,
            Ev.pump bs none none] := by
      simp only [pumpRunner.body]
      revert hres
      rcases r.fn bs (applyThunks env (m.params.applyTo c).1 s) with ⟨⟨_ | b, _ | e⟩, s2⟩ <;>
        simp [pumpRunner.handle]
    have hexit : (r.body env bs p c ⟨true, some m, sd⟩ s mt).exit = none := by
      simp only [pumpRunner.body]
      revert hres
      rcases r.fn bs (applyThunks env (m.params.applyTo c).1 s) with ⟨⟨_ | b, _ | e⟩, s2⟩ <;>
        simp [pumpRunner.handle]
    refine ⟨hevs, hexit, ?_⟩
    intro nxt rest
    rw [loopOver_cons_continue _ _ _ _ _ hexit]
    obtain ⟨tl1, h1⟩ := loopOver_cons_trace (r.body env bs p c) nxt rest
      (r.body env bs p c ⟨true, some m, sd⟩ s mt).comp
      (r.body env bs p c ⟨true, some m, sd⟩ s mt).meter
    obtain ⟨tl2, h2⟩ := pump_body_head r env bs p c nxt
      (r.body env bs p c ⟨true, some m, sd⟩ s mt).comp
      (r.body env bs p c ⟨true, some m, sd⟩ s mt).meter
    exact ⟨tl2 ++ tl1, by rw [h1, h2]; simp⟩

/-- Witness of C8: the iteration of the pump that returns its last buffer
together with `io.EOF`. -/
theorem C8_pump_forwards_non_nil_buffer_witness :
    ((⟨true, some exMsg, true⟩ : PumpStep).provide = true ∧
      (⟨true, some exMsg, true⟩ : PumpStep).consume = some exMsg) ∧
    sent (lastBufferPump.body exEnv 2 "p" "c" ⟨true, some exMsg, true⟩ 0 (some 0)).evs
      = [⟨some [[5]], ⟨[]⟩, ⟨[("d", [3])]⟩⟩] :=
  ⟨⟨rfl, rfl⟩,
    (C8_pump_forwards_non_nil_buffer lastBufferPump exEnv 2 "p" "c" ⟨true, some exMsg, true⟩ 0
      (some 0) exMsg rfl rfl).1⟩

/-- C9: in every run of a pump, processor or sink runner, the errors that `call`
publishes on the error channel are exactly the non-nil results of the hooks, in
order, and apart from these publications the run is the run of the same runner
with hooks that never fail: same events in the same order (so after a failed
Reset the loop is entered and the functional core is called as it would have
been, and the Flush or Interrupt hook of the exit path is invoked), same exit,
same component state; a hook that the component does not implement is bound to
nil and never invoked, `call` on it being a no-op. -/
theorem C9_hook_failure_only_publishes (rp : pumpRunner σ) (rq : processRunner σ)
    (rs : sinkRunner σ) (env : Env σ μ) (bs : Int) (p c : String) (mt : Option μ)
    (sp : List PumpStep) (sq : List ProcStep) (ss : List Recv) (s : σ) (k : HookKind)
    (v : Component σ) :
    ((v.Flush = none → (bindHooks v).flush = none) ∧
      (v.Interrupt = none → (bindHooks v).interrupt = none) ∧
      (v.Reset = none → (bindHooks v).reset = none)) ∧
    call k (none : Option (hook σ)) p s = ([], s) ∧
    hookFailuresOnlyPublish rp.tohooks (rp.run env bs p c mt sp s)
      (rp.quiet.run env bs p c mt sp s) ∧
    hookFailuresOnlyPublish rq.tohooks (rq.run env p c mt sq s) (rq.quiet.run env p c mt sq s) ∧
    hookFailuresOnlyPublish rs.tohooks (rs.run env p c mt ss s)
      (rs.quiet.run env p c mt ss s) := by
  refine ⟨⟨?_, ?_, ?_⟩, rfl, ⟨?_, ?_, ?_, ?_, ?_⟩, ⟨?_, ?_, ?_, ?_, ?_⟩, ⟨?_, ?_, ?_, ?_, ?_⟩⟩
  · intro h; simp [bindHooks, flusher, h]
  · intro h; simp [bindHooks, interrupter, h]
  · intro h; simp [bindHooks, resetter, h]
  · exact hushed_run rp.reset p s closes hush_closes _ _
      (fun s1 => hushed_loop _ _ (pump_body_hushed rp env bs p c) sp s1 mt)
  · exact pbc_run _ _ _ (pbc_call _ _ _ _) (pbc_loop _ (pump_body_pbc rp env bs p c) sp _ mt)
      (pbc_closes _)
  · intro h
    have := (pump_run_lifecycle rp env bs p c mt sp s).2.2.1
    simpa [h] using this
  · intro h
    have := (pump_run_lifecycle rp env bs p c mt sp s).1
    simpa [h] using this
  · intro h
    have := (pump_run_lifecycle rp env bs p c mt sp s).2.1
    simpa [h] using this
  · exact hushed_run rq.reset p s closes hush_closes _ _
      (fun s1 => hushed_loop _ _ (process_body_hushed rq env p c) sq s1 mt)
  · exact pbc_run _ _ _ (pbc_call _ _ _ _) (pbc_loop _ (process_body_pbc rq env p c) sq _ mt)
      (pbc_closes _)
  · intro h
    have := (process_run_lifecycle rq env p c mt sq s).2.2.1
    simpa [h] using this
  · intro h
    have := (process_run_lifecycle rq env p c mt sq s).1
    simpa [h] using this
  · intro h
    have := (process_run_lifecycle rq env p c mt sq s).2.1
    simpa [h] using this
  · exact hushed_run rs.reset p s closeErr hush_closeErr _ _
      (fun s1 => hushed_loop _ _ (sink_body_hushed rs env p c) ss s1 mt)
  · exact pbc_run _ _ _ (pbc_call _ _ _ _) (pbc_loop _ (sink_body_pbc rs env p c) ss _ mt)
      (pbc_closeErr _)
  · intro h
    have := (sink_run_lifecycle rs env p c mt ss s).2.2.1
    simpa [h] using this
  · intro h
    have := (sink_run_lifecycle rs env p c mt ss s).1
    simpa [h] using this
  · intro h
    have := (sink_run_lifecycle rs env p c mt ss s).2.1
    simpa [h] using this

/-- A pump whose Reset hook fails publishes the error of the hook and goes on:
it enters the loop, calls the pump function and sends the buffer, and on cancel
invokes its Interrupt hook. -/
theorem failed_reset_skips_nothing :
    (badResetPump.run exEnv 2 "p" "c" (none : Option Nat)
        [⟨true, some exNilMsg, true⟩, ⟨false, none, true⟩] 0).trace
      = [Ev.hook HookKind.reset "p" (some (Err.other 9)), Ev.err true (Err.other 9),
          Ev.provide "p", Ev.consume exNilMsg, Ev.params "c" [], Ev.pump 2 (some [[5]]) none,
          Ev.feedback "c" [], Ev.send ⟨some [[5]], ⟨[]⟩, ⟨[]⟩⟩,
          Ev.cancel, Ev.hook HookKind.interrupt "p" none, Ev.closeErrc, Ev.closeOut] := by
  decide

/-- C10: after every sequence of Run, Pause, Resume and Interrupt commands sent
to a new Handle, a command that is not a listed transition of the state reached
(Resume or Pause in Ready; Resume or Run in Running; Pause or Run in Paused) is
answered with an error that unwraps to `ErrInvalidState` and leaves the state as
it was, and an Interrupt that follows is answered with nil when no stage
reported an error. -/
theorem C10_invalid_transition_rejected (cmds : List state.Command) (reported : Option Err)
    (c : state.Command)
    (h : state.notListed (state.reach reported state.State.Ready cmds) c = true) :
    state.Unwrap (state.send (state.reach reported state.State.Ready cmds) c reported).2
        = some state.Cause.ErrInvalidState ∧
      (state.send (state.reach reported state.State.Ready cmds) c reported).1
        = state.reach reported state.State.Ready cmds ∧
      state.reach reported state.State.Ready (cmds ++ [c])
        = state.reach reported state.State.Ready cmds ∧
      (state.send (state.send (state.reach reported state.State.Ready cmds) c reported).1
        state.Command.Interrupt none).2 = none := by
  have hr : ∀ (cs : List state.Command) (st : state.State),
      state.reach reported st (cs ++ [c]) = (state.send (state.reach reported st cs) c reported).1 := by
    intro cs
    induction cs with
    | nil => intro st; rfl
    | cons x xs ih => intro st; simp only [List.cons_append, state.reach]; exact ih _
  rw [hr]
  generalize state.reach reported state.State.Ready cmds = st at h ⊢
  cases st <;> cases c <;> simp [state.notListed] at h <;>
    simp [state.send, state.Unwrap]

/-- Witness of C10: Resume sent to a Handle that was run and paused and resumed
is rejected. -/
theorem C10_invalid_transition_rejected_witness :
    state.notListed (state.reach none state.State.Ready
        [state.Command.Run, state.Command.Pause, state.Command.Resume])
        state.Command.Resume = true ∧
    (state.Unwrap (state.send (state.reach none state.State.Ready
        [state.Command.Run, state.Command.Pause, state.Command.Resume])
        state.Command.Resume none).2 = some state.Cause.ErrInvalidState ∧
      (state.send (state.reach none state.State.Ready
        [state.Command.Run, state.Command.Pause, state.Command.Resume])
        state.Command.Resume none).1
        = state.reach none state.State.Ready
          [state.Command.Run, state.Command.Pause, state.Command.Resume] ∧
      state.reach none state.State.Ready
        ([state.Command.Run, state.Command.Pause, state.Command.Resume]
          ++ [state.Command.Resume])
        = state.reach none state.State.Ready
          [state.Command.Run, state.Command.Pause, state.Command.Resume] ∧
      (state.send (state.send (state.reach none state.State.Ready
        [state.Command.Run, state.Command.Pause, state.Command.Resume])
        state.Command.Resume none).1 state.Command.Interrupt none).2 = none) :=
  ⟨by decide,
    C10_invalid_transition_rejected
      [state.Command.Run, state.Command.Pause, state.Command.Resume] none
      state.Command.Resume (by decide)⟩

/-- C11: for every sequence of `AddFrame(start, clip)` calls on a new Track with
a buffer size that is not 0, the pump reaches the stream end, and on every
channel the sample it has rendered at a frame `f` is the asset sample of the
most recently inserted clip whose range `[start, start + length)` covers `f`,
taken at asset offset `+ (f - start)`, and 0 when no clip covers `f`; the output
runs from frame 0 to the maximum placed end rounded up to whole buffers, so no
clip covers a frame that is not rendered. With buffer size 2,
`asset1.Frame(3, 5)` at 2 and then `asset2.Frame(5, 2)` at 4 render
`[0, 0, 1, 1, 2, 2, 1, 0]`. -/
theorem C11_track_last_writer_wins (bs nc : Nat) (adds : List (Nat × track.Frame))
    (hbs : 0 < bs) :
    (∃ bufs, ((track.New bs nc).addAll adds).drain
        (track.maxEnd ((track.New bs nc).addAll adds).placements + 1) = some bufs ∧
      ∀ ch, ch < nc →
        (∀ f, f < (track.channel ch bufs).length →
          (track.channel ch bufs)[f]? = some (track.lastWriter adds ch f)) ∧
        (track.channel ch bufs).length = bs * bufs.length ∧
        track.maxEnd ((track.New bs nc).addAll adds).placements ≤ bs * bufs.length ∧
        bs * bufs.length < track.maxEnd ((track.New bs nc).addAll adds).placements + bs ∧
        (∀ f, (track.channel ch bufs).length ≤ f → track.mostRecent adds f = none)) ∧
    track.overlapTest 2 [(2, track.asset1.Frame 3 5), (4, track.asset2.Frame 5 2)]
      = some [0, 0, 1, 1, 2, 2, 1, 0] := by
  refine ⟨?_, by decide⟩
  have hb : ((track.New bs nc).addAll adds).bufferSize = bs :=
    (track_addAll_fields adds (track.New bs nc)).1
  have hn : ((track.New bs nc).addAll adds).numChannels = nc :=
    (track_addAll_fields adds (track.New bs nc)).2.1
  have hc : ((track.New bs nc).addAll adds).cursor = 0 :=
    (track_addAll_fields adds (track.New bs nc)).2.2
  obtain ⟨bufs, h1, h2, h3, h4⟩ := track_drain
    (track.maxEnd ((track.New bs nc).addAll adds).placements)
    ((track.New bs nc).addAll adds) (by rw [hb]; exact hbs) (Nat.sub_le _ _)
  simp only [hb, hn, hc, Nat.zero_add, Nat.sub_zero] at h2 h3 h4
  refine ⟨bufs, h1, ?_⟩
  intro ch hch
  have hlen : (track.channel ch bufs).length = bs * bufs.length := by
    rw [h4 ch hch]; simp
  refine ⟨?_, hlen, h2, h3, ?_⟩
  · intro f hfl
    rw [h4 ch hch, List.getElem?_map, List.getElem?_range (by rw [← hlen]; exact hfl)]
    simp only [Option.map_some']
    rw [(track_sampleAt_addAll bs nc adds ch f).1]
  · intro f hfl
    rw [(track_sampleAt_addAll bs nc adds ch f).2]
    exact track_find_none_of_maxEnd _ f (by rw [hlen] at hfl; omega)

/-- Witness of C11: the clips of the "Overlap two in the middle shifted" case
of the test, with buffer size 3. -/
theorem C11_track_last_writer_wins_witness :
    0 < 3 ∧
    ((∃ bufs, ((track.New 3 1).addAll [(2, track.asset1.Frame 3 2),
          (5, track.asset1.Frame 5 2), (3, track.asset2.Frame 3 2)]).drain
        (track.maxEnd ((track.New 3 1).addAll [(2, track.asset1.Frame 3 2),
          (5, track.asset1.Frame 5 2), (3, track.asset2.Frame 3 2)]).placements + 1)
          = some bufs ∧
      ∀ ch, ch < 1 →
        (∀ f, f < (track.channel ch bufs).length →
          (track.channel ch bufs)[f]? = some (track.lastWriter [(2, track.asset1.Frame 3 2),
            (5, track.asset1.Frame 5 2), (3, track.asset2.Frame 3 2)] ch f)) ∧
        (track.channel ch bufs).length = 3 * bufs.length ∧
        track.maxEnd ((track.New 3 1).addAll [(2, track.asset1.Frame 3 2),
          (5, track.asset1.Frame 5 2), (3, track.asset2.Frame 3 2)]).placements
          ≤ 3 * bufs.length ∧
        3 * bufs.length < track.maxEnd ((track.New 3 1).addAll [(2, track.asset1.Frame 3 2),
          (5, track.asset1.Frame 5 2), (3, track.asset2.Frame 3 2)]).placements + 3 ∧
        (∀ f, (track.channel ch bufs).length ≤ f →
          track.mostRecent [(2, track.asset1.Frame 3 2),
            (5, track.asset1.Frame 5 2), (3, track.asset2.Frame 3 2)] f = none)) ∧
    track.overlapTest 2 [(2, track.asset1.Frame 3 5), (4, track.asset2.Frame 5 2)]
      = some [0, 0, 1, 1, 2, 2, 1, 0]) :=
  ⟨by decide, C11_track_last_writer_wins 3 1 [(2, track.asset1.Frame 3 2),
    (5, track.asset1.Frame 5 2), (3, track.asset2.Frame 3 2)] (by decide)⟩

/-- The model of the Track renders what the table `overlapTests` of the test
expects, case by case. -/
theorem track_overlapTests :
    track.overlapTest 2 [(3, track.asset1.Frame 3 1), (4, track.asset2.Frame 5 3)]
      = some [0, 0, 0, 1, 2, 2, 2, 0] ∧
    track.overlapTest 3 [(3, track.asset1.Frame 3 1), (4, track.asset2.Frame 5 3)]
      = some [0, 0, 0, 1, 2, 2, 2, 0, 0] ∧
    track.overlapTest 2 [(2, track.asset1.Frame 3 1), (3, track.asset2.Frame 5 3)]
      = some [0, 0, 1, 2, 2, 2] ∧
    track.overlapTest 2 [(2, track.asset1.Frame 3 1), (4, track.asset2.Frame 5 3)]
      = some [0, 0, 1, 0, 2, 2, 2, 0] ∧
    track.overlapTest 2 [(3, track.asset1.Frame 3 3), (2, track.asset2.Frame 5 2)]
      = some [0, 0, 2, 2, 1, 1] ∧
    track.overlapTest 2 [(2, track.asset1.Frame 3 3), (4, track.asset2.Frame 5 2)]
      = some [0, 0, 1, 1, 2, 2] ∧
    track.overlapTest 2 [(2, track.asset1.Frame 3 5), (4, track.asset2.Frame 5 2)]
      = some [0, 0, 1, 1, 2, 2, 1, 0] ∧
    track.overlapTest 2 [(2, track.asset1.Frame 3 2), (5, track.asset1.Frame 3 2),
        (4, track.asset2.Frame 5 2)]
      = some [0, 0, 1, 1, 2, 2, 1, 0] ∧
    track.overlapTest 2 [(2, track.asset1.Frame 3 2), (5, track.asset1.Frame 5 2),
        (3, track.asset2.Frame 3 2)]
      = some [0, 0, 1, 2, 2, 1, 1, 0] ∧
    track.overlapTest 2 [(2, track.asset1.Frame 3 2), (2, track.asset2.Frame 3 5)]
      = some [0, 0, 2, 2, 2, 2, 2, 0] ∧
    track.overlapTest 2 [(2, track.asset1.Frame 3 2), (5, track.asset1.Frame 5 2),
        (1, track.asset2.Frame 1 8)]
      = some [0, 2, 2, 2, 2, 2, 2, 2, 2, 0] := by
  decide

/-- C12: in the runners of `src/pipe/runner.go`, for a component that implements
Flusher and a goroutine that returns, whatever the exit (end of stream, cancel,
error of the functional core, or a nil `in`), Flush is invoked exactly once, with
the source id, after everything the loop did and after `FinishMeasure`; a
non-nil Flush error is sent on the error channel right after the call, and the
close of the error channel comes after it. -/
theorem C12_flush_once_on_every_exit {σ : Type} (rp : pipe.pumpRunner σ)
    (rq : pipe.processRunner σ) (rs : pipe.sinkRunner σ) (thunk : Nat → σ → σ)
    (sourceID : String) (sp : List pipe.PumpStep) (sq : Option (List pipe.ProcStep))
    (ss : Option (List pipe.Recv)) (s : σ)
    (hp : rp.Flusher.isSome = true) (hq : rq.Flusher.isSome = true)
    (hs : rs.Flusher.isSome = true)
    (ep : (rp.run thunk sourceID sp s).exit ≠ pipe.Exit.blocked)
    (eq : (rq.run thunk sourceID sq s).exit ≠ pipe.Exit.blocked)
    (es : (rs.run thunk sourceID ss s).exit ≠ pipe.Exit.blocked) :
    pipe.flushedOnce sourceID [pipe.Ev.closeErrc, pipe.Ev.closeOut]
        (rp.run thunk sourceID sp s) ∧
      pipe.flushedOnce sourceID [pipe.Ev.closeErrc, pipe.Ev.closeOut]
        (rq.run thunk sourceID sq s) ∧
      pipe.flushedOnce sourceID [pipe.Ev.closeErrc] (rs.run thunk sourceID ss s) := by
  refine ⟨?_, ?_, ?_⟩
  · obtain ⟨f, hf⟩ := Option.isSome_iff_exists.1 hp
    have ep1 : (pipe.loopOver (rp.body thunk) sp s).exit ≠ pipe.Exit.blocked := by
      simpa only [pipe.pumpRunner.run, pipe.legacy_deferred_exit] using ep
    have h := pipe.legacy_deferred_flushedOnce f sourceID [pipe.Ev.closeErrc, pipe.Ev.closeOut]
      ⟨pipe.Ev.measureReset :: pipe.Ev.latency :: (pipe.loopOver (rp.body thunk) sp s).trace,
        (pipe.loopOver (rp.body thunk) sp s).exit, (pipe.loopOver (rp.body thunk) sp s).comp⟩
      ep1
      (pipe.legacy_head_noflush _
        (pipe.legacy_loop_noflush _ (pipe.legacy_pump_body_noflush rp thunk) sp s))
      (by simp [pipe.Ev.isFlush])
    simpa only [pipe.pumpRunner.run, hf] using h
  · obtain ⟨f, hf⟩ := Option.isSome_iff_exists.1 hq
    have eq1 : (pipe.loopIn (rq.body thunk) sq s).exit ≠ pipe.Exit.blocked := by
      simpa only [pipe.processRunner.run, pipe.legacy_deferred_exit] using eq
    have h := pipe.legacy_deferred_flushedOnce f sourceID [pipe.Ev.closeErrc, pipe.Ev.closeOut]
      ⟨pipe.Ev.measureReset :: pipe.Ev.latency :: (pipe.loopIn (rq.body thunk) sq s).trace,
        (pipe.loopIn (rq.body thunk) sq s).exit, (pipe.loopIn (rq.body thunk) sq s).comp⟩
      eq1
      (pipe.legacy_head_noflush _
        (pipe.legacy_loopIn_noflush _ (pipe.legacy_process_body_noflush rq thunk) sq s))
      (by simp [pipe.Ev.isFlush])
    simpa only [pipe.processRunner.run, hf] using h
  · obtain ⟨f, hf⟩ := Option.isSome_iff_exists.1 hs
    have es1 : (pipe.loopIn (rs.body thunk) ss s).exit ≠ pipe.Exit.blocked := by
      simpa only [pipe.sinkRunner.run, pipe.legacy_deferred_exit] using es
    have h := pipe.legacy_deferred_flushedOnce f sourceID [pipe.Ev.closeErrc]
      ⟨pipe.Ev.measureReset :: pipe.Ev.latency :: (pipe.loopIn (rs.body thunk) ss s).trace,
        (pipe.loopIn (rs.body thunk) ss s).exit, (pipe.loopIn (rs.body thunk) ss s).comp⟩
      es1
      (pipe.legacy_head_noflush _
        (pipe.legacy_loopIn_noflush _ (pipe.legacy_sink_body_noflush rs thunk) ss s))
      (by simp [pipe.Ev.isFlush])
    simpa only [pipe.sinkRunner.run, hf] using h

/-- Witness of C12: a pump that is cancelled after one buffer and whose Flush
fails, a processor whose function fails on its second message, and a sink whose
upstream is closed. -/
theorem C12_flush_once_on_every_exit_witness :
    ((pipe.exPump.run (fun _ s => s) "src"
        [⟨some exMsg, pipe.Send.sent⟩, ⟨none, pipe.Send.sent⟩] 0).trace
      = [pipe.Ev.measureReset, pipe.Ev.latency, pipe.Ev.consume exMsg,
          pipe.Ev.params "c" [1, 2], pipe.Ev.pump (some [[1]]) none,
          pipe.Ev.advance (some [[1]]), pipe.Ev.latency, pipe.Ev.feedback "c" [7],
          pipe.Ev.send ⟨some [[1]], ⟨[]⟩, ⟨[("d", [3])]⟩⟩, pipe.Ev.cancel,
          pipe.Ev.finishMeasure, pipe.Ev.flush "src" (some (pipe.Error.other 7)),
          pipe.Ev.err (pipe.Error.other 7), pipe.Ev.closeErrc, pipe.Ev.closeOut] ∧
      (pipe.exProcessor.run (fun _ s => s) "src"
        (some [⟨pipe.Recv.msg exMsg, true⟩, ⟨pipe.Recv.msg exNilMsg, true⟩]) 0).exit
        = pipe.Exit.failed ∧
      (pipe.exSink.run (fun _ s => s) "src" (some [pipe.Recv.msg exMsg, pipe.Recv.closed])
        0).exit = pipe.Exit.endOfStream) ∧
    (pipe.flushedOnce "src" [pipe.Ev.closeErrc, pipe.Ev.closeOut]
        (pipe.exPump.run (fun _ s => s) "src"
          [⟨some exMsg, pipe.Send.sent⟩, ⟨none, pipe.Send.sent⟩] 0) ∧
      pipe.flushedOnce "src" [pipe.Ev.closeErrc, pipe.Ev.closeOut]
        (pipe.exProcessor.run (fun _ s => s) "src"
          (some [⟨pipe.Recv.msg exMsg, true⟩, ⟨pipe.Recv.msg exNilMsg, true⟩]) 0) ∧
      pipe.flushedOnce "src" [pipe.Ev.closeErrc]
        (pipe.exSink.run (fun _ s => s) "src"
          (some [pipe.Recv.msg exMsg, pipe.Recv.closed]) 0)) :=
  ⟨by decide,
    C12_flush_once_on_every_exit pipe.exPump pipe.exProcessor pipe.exSink (fun _ s => s) "src"
      [⟨some exMsg, pipe.Send.sent⟩, ⟨none, pipe.Send.sent⟩]
      (some [⟨pipe.Recv.msg exMsg, true⟩, ⟨pipe.Recv.msg exNilMsg, true⟩])
      (some [pipe.Recv.msg exMsg, pipe.Recv.closed]) 0
      (by decide) (by decide) (by decide) (by decide) (by decide) (by decide)⟩

/-- C13: for the function that `Sink.Sink` returns, bound with `numChannels` and
`bufferSize`, on a device buffer of `bufferSize * numChannels` samples (as
`Sink.Sink` makes it), and every rectangular buffer `b` of at least one and at
most `numChannels` channels and at most `bufferSize` frames: the call does not
panic, so every write is in bounds; the device buffer keeps its length; it holds
at index `i * numChannels + j` the conversion of `b[j][i]` for every frame `i`
and channel `j` of `b`; and every other index, those from `frames * numChannels`
on in particular, holds the value it had before the call. -/
theorem C13_sink_interleaves_in_bounds {α β ε : Type} (conv : α → β) (zero : β)
    (numChannels bufferSize : Nat) (initErr openErr startErr write : Option ε)
    (s : portaudio.Sink β) (b : List (List α)) (frames : Nat)
    (hbuf : s.buf.length = bufferSize * numChannels)
    (hch : 1 ≤ b.length ∧ b.length ≤ numChannels)
    (hrect : ∀ row ∈ b, row.length = frames) (hfr : frames ≤ bufferSize) :
    (portaudio.Sink.Sink zero numChannels bufferSize initErr openErr startErr).1.buf.length
        = bufferSize * numChannels ∧
    ∃ s1, portaudio.Sink.fn conv numChannels write s b = some (s1, write) ∧
      s1.buf.length = bufferSize * numChannels ∧
      portaudio.interleaved conv numChannels b frames s.buf s1.buf ∧
      (∀ k, frames * numChannels ≤ k → s1.buf[k]? = s.buf[k]?) := by
  constructor
  · simp only [portaudio.Sink.Sink]
    rcases initErr with _ | e <;> rcases openErr with _ | e1 <;> simp
  · rcases b with _ | ⟨b0, rest⟩
    · simp at hch
    · have h0 : b0.length = frames := hrect b0 (List.mem_cons_self _ _)
      obtain ⟨buf1, h1, h2, h3, h4⟩ := portaudio.sink_outer conv numChannels (b0 :: rest)
        frames hrect hch.2 (List.range frames) s.buf (fun i hi => List.mem_range.1 hi)
        (by rw [hbuf]; exact Nat.mul_le_mul_right numChannels hfr)
      refine ⟨⟨buf1⟩, ?_, ?_, ⟨h2, ?_, ?_⟩, ?_⟩
      · simp only [portaudio.Sink.fn, h0, h1]
      · rw [h2, hbuf]
      · intro i j hi hj
        refine ⟨h3 i (List.mem_range.2 hi) j hj, ?_⟩
        obtain ⟨x, hx⟩ := portaudio.sink_load_some (b0 :: rest) frames j i hrect hj hi
        rw [hx]; rfl
      · intro k hk
        exact h4 k (fun i hi j hj => hk i j (List.mem_range.1 hi) hj)
      · intro k hk
        apply h4 k
        intro i hi j hj heq
        have hi1 := List.mem_range.1 hi
        have hj1 : j < numChannels := Nat.lt_of_lt_of_le hj hch.2
        have h5 : (i + 1) * numChannels ≤ frames * numChannels :=
          Nat.mul_le_mul_right numChannels hi1
        rw [Nat.add_mul, Nat.one_mul] at h5
        omega

/-- Witness of C13: a short final buffer of two frames on two of three channels,
into a device buffer for four frames that holds nines from before. -/
theorem C13_sink_interleaves_in_bounds_witness :
    (([9, 9, 9, 9, 9, 9, 9, 9, 9, 9, 9, 9] : List Int).length = 4 * 3 ∧
      (1 ≤ ([[1, 2], [3, 4]] : List (List Int)).length ∧
        ([[1, 2], [3, 4]] : List (List Int)).length ≤ 3) ∧
      (∀ row ∈ ([[1, 2], [3, 4]] : List (List Int)), row.length = 2) ∧ 2 ≤ 4) ∧
    (portaudio.Sink.fn (fun x : Int => 10 * x) 3 (none : Option Nat)
        ⟨[9, 9, 9, 9, 9, 9, 9, 9, 9, 9, 9, 9]⟩ [[1, 2], [3, 4]]).map (fun r => r.1.buf)
      = some [10, 30, 9, 20, 40, 9, 9, 9, 9, 9, 9, 9] ∧
    ((portaudio.Sink.Sink (0 : Int) 3 4 (none : Option Nat) none none).1.buf.length = 4 * 3 ∧
      ∃ s1, portaudio.Sink.fn (fun x : Int => 10 * x) 3 (none : Option Nat)
          ⟨[9, 9, 9, 9, 9, 9, 9, 9, 9, 9, 9, 9]⟩ [[1, 2], [3, 4]] = some (s1, none) ∧
        s1.buf.length = 4 * 3 ∧
        portaudio.interleaved (fun x : Int => 10 * x) 3 [[1, 2], [3, 4]] 2
          [9, 9, 9, 9, 9, 9, 9, 9, 9, 9, 9, 9] s1.buf ∧
        (∀ k, 2 * 3 ≤ k → s1.buf[k]? = ([9, 9, 9, 9, 9, 9, 9, 9, 9, 9, 9, 9] : List Int)[k]?)) :=
  ⟨by decide, by decide,
    C13_sink_interleaves_in_bounds (fun x : Int => 10 * x) 0 3 4 none none none none
      ⟨[9, 9, 9, 9, 9, 9, 9, 9, 9, 9, 9, 9]⟩ [[1, 2], [3, 4]] 2 (by decide) (by decide)
      (by decide) (by decide)⟩

end Claims
